import Mathlib

/-!
Shallow embedding of the CLOB matching-engine core (`src/lib.rs`) and proofs
of the specification's claims about it.

Modelling conventions:
* `u64` values are `Nat`; the only operations in the source that can overflow a
  `u64` are the `sum()` accumulations over resting quantities (FOK pre-scan and
  L2 snapshot), which we model with an explicit `% 2^64` wrap.
* `hashbrown::HashMap` is an association list (`alLookup` / `alInsert` /
  `alRemove`); the source never iterates a hash map, so iteration order is
  unobservable.
* `BTreeMap<u64, VecDeque<usize>>` is a list of `(price, queue)` pairs kept in
  strictly ascending price order; queues are lists of arena handles with the
  head being the oldest order.
* `slab::Slab` is a list of `Option Order` entries with a LIFO free list,
  mirroring the crate's vacant-entry reuse order.
* Indexing a vacant slab slot panics in Rust; we return `dummyOrder` there.
  All such accesses are unreachable from well-formed book states.
-/

inductive Side where
  | Bid
  | Ask
deriving DecidableEq

inductive OrderType where
  | Market
  | Limit
  | PostOnly
  | IOC
  | FOK
  | MakerOnly
deriving DecidableEq

structure Order where
  id : Nat
  user_id : Nat
  side : Side
  price : Nat
  qty : Nat
  remaining : Nat
  otype : OrderType
deriving DecidableEq

structure Fill where
  maker_id : Nat
  taker_id : Nat
  price : Nat
  qty : Nat
deriving DecidableEq

inductive RiskError where
  | PriceOutOfRange
  | PositionLimit
  | RateLimit
deriving DecidableEq

def PRECISION : Nat := 100000000

def MIN_PRICE : Nat := 1 * PRECISION

def MAX_PRICE : Nat := 1000000 * PRECISION

/-- Modulus of `u64` arithmetic; Rust release builds wrap `u64` sums at this. -/
def U64MOD : Nat := 2 ^ 64

/-- Order used to model the value produced by indexing a vacant slab slot
(a panic in Rust; unreachable from well-formed states). -/
def dummyOrder : Order :=
  { id := 0, user_id := 0, side := Side.Bid, price := 0, qty := 0,
    remaining := 0, otype := OrderType.Limit }

/-- Association-list lookup (model of `HashMap::get`). -/
def alLookup {β : Type} : List (Nat × β) → Nat → Option β
  | [], _ => none
  | (k, v) :: t, key => if k = key then some v else alLookup t key

/-- Association-list insert-or-replace (model of `HashMap::insert`). -/
def alInsert {β : Type} : List (Nat × β) → Nat → β → List (Nat × β)
  | [], key, val => [(key, val)]
  | (k, v) :: t, key, val =>
    if k = key then (key, val) :: t else (k, v) :: alInsert t key val

/-- Association-list removal of a key (model of `HashMap::remove` /
`BTreeMap::remove`); removes the first (thus, with distinct keys, the only)
entry with the given key. -/
def alRemove {β : Type} : List (Nat × β) → Nat → List (Nat × β)
  | [], _ => []
  | (k, v) :: t, key => if k = key then t else (k, v) :: alRemove t key

structure RiskEngine where
  position_limits : List (Nat × Nat)
  rate_limits : List (Nat × Nat)
deriving DecidableEq

/-- Model of `RiskEngine::check_position_limit`: true means the limit is
exceeded (reject). -/
def checkPositionLimit (r : RiskEngine) (user_id qty : Nat) : Bool :=
  match alLookup r.position_limits user_id with
  | some limit => decide (limit < qty)
  | none => false

/-- Model of `RiskEngine::check_rate_limit`: true means the rate limit
triggered (reject).  `entry(user).or_insert(1_000_000_000)` reads the counter,
inserting the default credit when absent; a positive counter is decremented
and the check passes. -/
def checkRateLimit (r : RiskEngine) (user_id : Nat) : Bool × RiskEngine :=
  let remaining := (alLookup r.rate_limits user_id).getD 1000000000
  if 0 < remaining then
    (false, { r with rate_limits := alInsert r.rate_limits user_id (remaining - 1) })
  else
    (true, { r with rate_limits := alInsert r.rate_limits user_id remaining })

/-- Model of `RiskEngine::set_position_limit`. -/
def setPositionLimit (r : RiskEngine) (user_id max_qty : Nat) : RiskEngine :=
  { r with position_limits := alInsert r.position_limits user_id max_qty }

structure Slab where
  entries : List (Option Order)
  free : List Nat
deriving DecidableEq

def Slab.empty : Slab := ⟨[], []⟩

/-- Reading slot `i` of the arena; `none` models a vacant slot. -/
def Slab.getO (s : Slab) (i : Nat) : Option Order := s.entries.getD i none

/-- Overwriting an occupied slot in place (the in-place mutation of
`self.orders[idx]` during matching). -/
def Slab.setEntry (s : Slab) (i : Nat) (o : Order) : Slab :=
  ⟨s.entries.set i (some o), s.free⟩

/-- Model of `Slab::insert` via `vacant_entry`: reuse the most recently freed
slot, else extend.  Returns the chosen key and the new arena. -/
def Slab.insert (s : Slab) (o : Order) : Nat × Slab :=
  match s.free with
  | i :: fs => (i, ⟨s.entries.set i (some o), fs⟩)
  | [] => (s.entries.length, ⟨s.entries ++ [some o], []⟩)

/-- Model of `Slab::remove`: vacate the slot and push it on the free list. -/
def Slab.removeAt (s : Slab) (i : Nat) : Slab :=
  ⟨s.entries.set i none, i :: s.free⟩

structure OrderBook where
  bids : List (Nat × List Nat)
  asks : List (Nat × List Nat)
  orders : Slab
  by_id : List (Nat × Nat)
deriving DecidableEq

def emptyBook : OrderBook := ⟨[], [], Slab.empty, []⟩

/-- Sum of `remaining` over a level queue as the Rust `u64` `sum()` computes
it (wrapping at `2^64`). -/
def levelQty (arena : Slab) (queue : List Nat) : Nat :=
  (queue.map (fun idx => ((arena.getO idx).getD dummyOrder).remaining)).sum % U64MOD

/-- Append a handle at the tail of the price level, creating the level if
needed (`target.entry(price).or_insert_with(VecDeque::new).push_back(idx)`),
keeping the level list sorted by ascending price. -/
def levelPush : List (Nat × List Nat) → Nat → Nat → List (Nat × List Nat)
  | [], price, idx => [(price, [idx])]
  | (p, q) :: t, price, idx =>
    if price = p then (p, q ++ [idx]) :: t
    else if price < p then (price, [idx]) :: (p, q) :: t
    else (p, q) :: levelPush t price idx

/-- Remove the first occurrence of a handle from a queue
(`queue.iter().position(..)` followed by `queue.remove(pos)`). -/
def removeFirst : List Nat → Nat → List Nat
  | [], _ => []
  | x :: t, idx => if x = idx then t else x :: removeFirst t idx

/-- Model of `OrderBook::add_to_book`. -/
def addToBook (b : OrderBook) (o : Order) : OrderBook :=
  let r := b.orders.insert o
  let by_id' := alInsert b.by_id o.id r.1
  match o.side with
  | Side.Bid => { b with orders := r.2, by_id := by_id', bids := levelPush b.bids o.price r.1 }
  | Side.Ask => { b with orders := r.2, by_id := by_id', asks := levelPush b.asks o.price r.1 }

/-- Model of `OrderBook::remove_order`. -/
def removeOrder (b : OrderBook) (id : Nat) : OrderBook :=
  match alLookup b.by_id id with
  | some idx => { b with by_id := alRemove b.by_id id, orders := b.orders.removeAt idx }
  | none => b

/-- Result of walking one price level's queue (the inner loop of
`match_order`): updated arena, taker's remaining, fills emitted at this level,
the queue after removing fully consumed makers, and the ids of those makers
(to be removed from the arena and `by_id` after the level walk). -/
structure QueueMatchResult where
  arena : Slab
  rem : Nat
  fills : List Fill
  queue : List Nat
  removed : List Nat
deriving DecidableEq

/-- The queue walk of `match_order` at one price level. -/
def matchQueue (arena : Slab) (incoming : Order) (rem : Nat) (book_price : Nat) :
    List Nat → QueueMatchResult
  | [] => ⟨arena, rem, [], [], []⟩
  | idx :: rest =>
    if rem = 0 then ⟨arena, rem, [], idx :: rest, []⟩
    else
      let maker := (arena.getO idx).getD dummyOrder
      if incoming.user_id = maker.user_id then
        let r := matchQueue arena incoming rem book_price rest
        ⟨r.arena, r.rem, r.fills, idx :: r.queue, r.removed⟩
      else
        let fill_qty := min rem maker.remaining
        let maker' : Order := { maker with remaining := maker.remaining - fill_qty }
        let arena' := arena.setEntry idx maker'
        let f : Fill := ⟨maker.id, incoming.id, book_price, fill_qty⟩
        let r := matchQueue arena' incoming (rem - fill_qty) book_price rest
        if maker'.remaining = 0 then
          ⟨r.arena, r.rem, f :: r.fills, r.queue, maker.id :: r.removed⟩
        else
          ⟨r.arena, r.rem, f :: r.fills, idx :: r.queue, r.removed⟩

/-- Result of the level walk of `match_order`: the updated levels (in
traversal order, empty queues still present), the prices whose queues became
empty (`prices_to_clean`) and the ids of fully consumed makers
(`to_remove_orders`). -/
structure LevelsMatchResult where
  arena : Slab
  rem : Nat
  fills : List Fill
  levels : List (Nat × List Nat)
  clean : List Nat
  removed : List Nat
deriving DecidableEq

/-- The level walk of `match_order` over the opposite side in traversal
order; `guard p = true` means the price guard trips at price `p`. -/
def matchLevels (incoming : Order) (guard : Nat → Bool) :
    Slab → Nat → List (Nat × List Nat) → LevelsMatchResult
  | arena, rem, [] => ⟨arena, rem, [], [], [], []⟩
  | arena, rem, (book_price, queue) :: ls =>
    if rem = 0 then ⟨arena, rem, [], (book_price, queue) :: ls, [], []⟩
    else if guard book_price then ⟨arena, rem, [], (book_price, queue) :: ls, [], []⟩
    else
      let q := matchQueue arena incoming rem book_price queue
      let r := matchLevels incoming guard q.arena q.rem ls
      ⟨r.arena, r.rem, q.fills ++ r.fills, (book_price, q.queue) :: r.levels,
        (if q.queue.isEmpty then [book_price] else []) ++ r.clean,
        q.removed ++ r.removed⟩

/-- Model of `OrderBook::match_order`.  A Bid taker walks `asks` in ascending
price order, an Ask taker walks `bids` in descending order; afterwards the
fully consumed makers are removed from the arena and `by_id`, and the emptied
price levels are removed from the side map.  Returns the new book, the
taker's remaining quantity and the fills in emission order. -/
def matchOrder (b : OrderBook) (incoming : Order) (ignore_price : Bool) :
    OrderBook × Nat × List Fill :=
  match incoming.side with
  | Side.Bid =>
    let r := matchLevels incoming
      (fun bp => !ignore_price && decide (incoming.price < bp))
      b.orders incoming.remaining b.asks
    let b1 : OrderBook := { b with orders := r.arena, asks := r.levels }
    let b2 := r.removed.foldl removeOrder b1
    let b3 := r.clean.foldl (fun bb p => { bb with asks := alRemove bb.asks p }) b2
    (b3, r.rem, r.fills)
  | Side.Ask =>
    let r := matchLevels incoming
      (fun bp => !ignore_price && decide (bp < incoming.price))
      b.orders incoming.remaining b.bids.reverse
    let b1 : OrderBook := { b with orders := r.arena, bids := r.levels.reverse }
    let b2 := r.removed.foldl removeOrder b1
    let b3 := r.clean.foldl (fun bb p => { bb with bids := alRemove bb.bids p }) b2
    (b3, r.rem, r.fills)

/-- Model of `OrderBook::would_match`: consult only the single best opposite
level. -/
def wouldMatch (b : OrderBook) (incoming : Order) : Bool :=
  match incoming.side with
  | Side.Bid =>
    match b.asks.head? with
    | some pq => decide (pq.1 ≤ incoming.price)
    | none => false
  | Side.Ask =>
    match b.bids.getLast? with
    | some pq => decide (incoming.price ≤ pq.1)
    | none => false

/-- The level scan of `can_full_match`: `stop p = true` means price `p` is no
longer acceptable to the taker.  Subtraction is `saturating_sub`; the per-level
quantity is the wrapping `u64` sum. -/
def canFullMatchLevels (stop : Nat → Bool) (arena : Slab) :
    Nat → List (Nat × List Nat) → Bool
  | _, [] => false
  | remaining, (price, queue) :: ls =>
    if stop price then false
    else
      let remaining' := remaining - levelQty arena queue
      if remaining' = 0 then true else canFullMatchLevels stop arena remaining' ls

/-- Model of `OrderBook::can_full_match` (the FOK pre-scan). -/
def canFullMatch (b : OrderBook) (incoming : Order) : Bool :=
  match incoming.side with
  | Side.Bid =>
    canFullMatchLevels (fun p => decide (incoming.price < p)) b.orders incoming.remaining b.asks
  | Side.Ask =>
    canFullMatchLevels (fun p => decide (p < incoming.price)) b.orders incoming.remaining
      b.bids.reverse

/-- Model of `OrderBook::submit`.  Returns the result together with the book
and risk-engine states after the call. -/
def OrderBook.submit (b : OrderBook) (id user_id : Nat) (otype : OrderType) (side : Side)
    (price qty : Nat) (risk : RiskEngine) :
    Except RiskError (List Fill) × OrderBook × RiskEngine :=
  if price % PRECISION ≠ 0 ∨ qty % PRECISION ≠ 0 ∨ price < MIN_PRICE ∨ MAX_PRICE < price then
    (Except.error RiskError.PriceOutOfRange, b, risk)
  else if checkPositionLimit risk user_id qty then
    (Except.error RiskError.PositionLimit, b, risk)
  else
    let rc := checkRateLimit risk user_id
    if rc.1 then
      (Except.error RiskError.RateLimit, b, rc.2)
    else
      let order : Order :=
        { id := id, user_id := user_id, side := side, price := price, qty := qty,
          remaining := qty, otype := otype }
      match otype with
      | OrderType.Market =>
        let m := matchOrder b order true
        (Except.ok m.2.2, m.1, rc.2)
      | OrderType.Limit =>
        let m := matchOrder b order false
        let b' := if 0 < m.2.1 then addToBook m.1 { order with remaining := m.2.1 } else m.1
        (Except.ok m.2.2, b', rc.2)
      | OrderType.PostOnly =>
        (Except.ok [], if wouldMatch b order then b else addToBook b order, rc.2)
      | OrderType.MakerOnly =>
        (Except.ok [], if wouldMatch b order then b else addToBook b order, rc.2)
      | OrderType.IOC =>
        let m := matchOrder b order false
        (Except.ok m.2.2, m.1, rc.2)
      | OrderType.FOK =>
        if canFullMatch b order then
          let m := matchOrder b order false
          (Except.ok m.2.2, m.1, rc.2)
        else
          (Except.ok [], b, rc.2)

/-- The queue surgery of `OrderBook::cancel`: if the price level exists,
remove the handle's first occurrence from its queue and drop the level if it
became empty (`if let Some(queue) = target.get_mut(&order.price) { .. }`). -/
def queueEraseLevel (m : List (Nat × List Nat)) (p i : Nat) : List (Nat × List Nat) :=
  match alLookup m p with
  | some queue =>
    if (removeFirst queue i).isEmpty then alRemove m p
    else alInsert m p (removeFirst queue i)
  | none => m

/-- Model of `OrderBook::cancel`. -/
def OrderBook.cancel (b : OrderBook) (id : Nat) : Option Order × OrderBook :=
  match alLookup b.by_id id with
  | some idx =>
    let order := (b.orders.getO idx).getD dummyOrder
    let b1 := match order.side with
      | Side.Bid => { b with bids := queueEraseLevel b.bids order.price idx }
      | Side.Ask => { b with asks := queueEraseLevel b.asks order.price idx }
    (some order, removeOrder b1 id)
  | none => (none, b)

/-- Model of `OrderBook::modify`: cancel, apply the optional new price and
quantity (the latter resetting both `qty` and `remaining`), then re-add
directly via `add_to_book` — no risk gate, no validation, no matching. -/
def OrderBook.modify (b : OrderBook) (id : Nat) (new_price new_qty : Option Nat) : OrderBook :=
  match b.cancel id with
  | (some order, b') =>
    let o1 := match new_price with
      | some p => { order with price := p }
      | none => order
    let o2 := match new_qty with
      | some q => { o1 with qty := q, remaining := q }
      | none => o1
    addToBook b' o2
  | (none, b') => b'

/-- Model of `OrderBook::batch_submit`: ordered, independent submits threading
the book and the risk engine. -/
def batchSubmit (b : OrderBook) (orders : List (Nat × Nat × OrderType × Side × Nat × Nat))
    (risk : RiskEngine) :
    List (Except RiskError (List Fill)) × OrderBook × RiskEngine :=
  match orders with
  | [] => ([], b, risk)
  | (id, uid, ot, side, p, q) :: rest =>
    let r1 := b.submit id uid ot side p q risk
    let rr := batchSubmit r1.2.1 rest r1.2.2
    (r1.1 :: rr.1, rr.2.1, rr.2.2)

/-- Model of `OrderBook::get_l2_snapshot`: up to `depth` best levels per side,
bids best-first (descending), asks best-first (ascending), each level carrying
the wrapping `u64` sum of resting remainders. -/
def getL2Snapshot (b : OrderBook) (depth : Nat) : List (Nat × Nat) × List (Nat × Nat) :=
  ((b.bids.reverse.take depth).map (fun pq => (pq.1, levelQty b.orders pq.2)),
   (b.asks.take depth).map (fun pq => (pq.1, levelQty b.orders pq.2)))

/-- The mutating operations of the book API, for reachability statements. -/
inductive Op where
  | submit (id user_id : Nat) (otype : OrderType) (side : Side) (price qty : Nat)
  | batch (orders : List (Nat × Nat × OrderType × Side × Nat × Nat))
  | cancel (id : Nat)
  | modify (id : Nat) (new_price new_qty : Option Nat)

/-- One step of the book API. -/
def runOp (s : OrderBook × RiskEngine) (op : Op) : OrderBook × RiskEngine :=
  match op with
  | Op.submit id uid ot side p q =>
    let r := s.1.submit id uid ot side p q s.2
    (r.2.1, r.2.2)
  | Op.batch orders =>
    let r := batchSubmit s.1 orders s.2
    (r.2.1, r.2.2)
  | Op.cancel id => ((s.1.cancel id).2, s.2)
  | Op.modify id np nq => (s.1.modify id np nq, s.2)

/-- Running a sequence of operations. -/
def runOps (s : OrderBook × RiskEngine) (ops : List Op) : OrderBook × RiskEngine :=
  ops.foldl runOp s

/-! ### Shape lemmas for `OrderBook.submit` -/

/-- Abbreviation for the order record `submit` builds before routing. -/
def mkOrder (id user_id : Nat) (otype : OrderType) (side : Side) (price qty : Nat) : Order :=
  { id := id, user_id := user_id, side := side, price := price, qty := qty,
    remaining := qty, otype := otype }

/-- The validation predicate of `submit` (step 1 of the pipeline). -/
def badPriceQty (price qty : Nat) : Prop :=
  price % PRECISION ≠ 0 ∨ qty % PRECISION ≠ 0 ∨ price < MIN_PRICE ∨ MAX_PRICE < price

instance (price qty : Nat) : Decidable (badPriceQty price qty) := by
  unfold badPriceQty; infer_instance

theorem submit_invalid (b : OrderBook) (r : RiskEngine) (id user_id : Nat) (ot : OrderType)
    (side : Side) (price qty : Nat) (h : badPriceQty price qty) :
    b.submit id user_id ot side price qty r = (Except.error RiskError.PriceOutOfRange, b, r) := by
  unfold badPriceQty at h
  simp only [OrderBook.submit, if_pos h]

theorem submit_poslimit (b : OrderBook) (r : RiskEngine) (id user_id : Nat) (ot : OrderType)
    (side : Side) (price qty : Nat) (hv : ¬ badPriceQty price qty)
    (hp : checkPositionLimit r user_id qty = true) :
    b.submit id user_id ot side price qty r = (Except.error RiskError.PositionLimit, b, r) := by
  unfold badPriceQty at hv
  simp only [OrderBook.submit, if_neg hv, hp, if_pos]

theorem submit_ratelimit (b : OrderBook) (r : RiskEngine) (id user_id : Nat) (ot : OrderType)
    (side : Side) (price qty : Nat) (hv : ¬ badPriceQty price qty)
    (hp : checkPositionLimit r user_id qty = false)
    (hr : (checkRateLimit r user_id).1 = true) :
    b.submit id user_id ot side price qty r =
      (Except.error RiskError.RateLimit, b, (checkRateLimit r user_id).2) := by
  unfold badPriceQty at hv
  simp only [OrderBook.submit, if_neg hv, hp, Bool.false_eq_true, if_false, hr, if_pos]

theorem submit_market (b : OrderBook) (r : RiskEngine) (id user_id : Nat)
    (side : Side) (price qty : Nat) (hv : ¬ badPriceQty price qty)
    (hp : checkPositionLimit r user_id qty = false)
    (hr : (checkRateLimit r user_id).1 = false) :
    b.submit id user_id OrderType.Market side price qty r =
      (Except.ok (matchOrder b (mkOrder id user_id OrderType.Market side price qty) true).2.2,
        (matchOrder b (mkOrder id user_id OrderType.Market side price qty) true).1,
        (checkRateLimit r user_id).2) := by
  unfold badPriceQty at hv
  simp only [OrderBook.submit, if_neg hv, hp, Bool.false_eq_true, if_false, hr, mkOrder]

theorem submit_limit (b : OrderBook) (r : RiskEngine) (id user_id : Nat)
    (side : Side) (price qty : Nat) (hv : ¬ badPriceQty price qty)
    (hp : checkPositionLimit r user_id qty = false)
    (hr : (checkRateLimit r user_id).1 = false) :
    b.submit id user_id OrderType.Limit side price qty r =
      (Except.ok (matchOrder b (mkOrder id user_id OrderType.Limit side price qty) false).2.2,
        (if 0 < (matchOrder b (mkOrder id user_id OrderType.Limit side price qty) false).2.1 then
          addToBook (matchOrder b (mkOrder id user_id OrderType.Limit side price qty) false).1
            { mkOrder id user_id OrderType.Limit side price qty with
                remaining := (matchOrder b (mkOrder id user_id OrderType.Limit side price qty) false).2.1 }
        else (matchOrder b (mkOrder id user_id OrderType.Limit side price qty) false).1),
        (checkRateLimit r user_id).2) := by
  unfold badPriceQty at hv
  simp only [OrderBook.submit, if_neg hv, hp, Bool.false_eq_true, if_false, hr, mkOrder]

theorem submit_postonly (b : OrderBook) (r : RiskEngine) (id user_id : Nat)
    (side : Side) (price qty : Nat) (hv : ¬ badPriceQty price qty)
    (hp : checkPositionLimit r user_id qty = false)
    (hr : (checkRateLimit r user_id).1 = false) :
    b.submit id user_id OrderType.PostOnly side price qty r =
      (Except.ok [],
        (if wouldMatch b (mkOrder id user_id OrderType.PostOnly side price qty) then b
         else addToBook b (mkOrder id user_id OrderType.PostOnly side price qty)),
        (checkRateLimit r user_id).2) := by
  unfold badPriceQty at hv
  simp only [OrderBook.submit, if_neg hv, hp, Bool.false_eq_true, if_false, hr, mkOrder]

theorem submit_makeronly (b : OrderBook) (r : RiskEngine) (id user_id : Nat)
    (side : Side) (price qty : Nat) (hv : ¬ badPriceQty price qty)
    (hp : checkPositionLimit r user_id qty = false)
    (hr : (checkRateLimit r user_id).1 = false) :
    b.submit id user_id OrderType.MakerOnly side price qty r =
      (Except.ok [],
        (if wouldMatch b (mkOrder id user_id OrderType.MakerOnly side price qty) then b
         else addToBook b (mkOrder id user_id OrderType.MakerOnly side price qty)),
        (checkRateLimit r user_id).2) := by
  unfold badPriceQty at hv
  simp only [OrderBook.submit, if_neg hv, hp, Bool.false_eq_true, if_false, hr, mkOrder]

theorem submit_ioc (b : OrderBook) (r : RiskEngine) (id user_id : Nat)
    (side : Side) (price qty : Nat) (hv : ¬ badPriceQty price qty)
    (hp : checkPositionLimit r user_id qty = false)
    (hr : (checkRateLimit r user_id).1 = false) :
    b.submit id user_id OrderType.IOC side price qty r =
      (Except.ok (matchOrder b (mkOrder id user_id OrderType.IOC side price qty) false).2.2,
        (matchOrder b (mkOrder id user_id OrderType.IOC side price qty) false).1,
        (checkRateLimit r user_id).2) := by
  unfold badPriceQty at hv
  simp only [OrderBook.submit, if_neg hv, hp, Bool.false_eq_true, if_false, hr, mkOrder]

theorem submit_fok (b : OrderBook) (r : RiskEngine) (id user_id : Nat)
    (side : Side) (price qty : Nat) (hv : ¬ badPriceQty price qty)
    (hp : checkPositionLimit r user_id qty = false)
    (hr : (checkRateLimit r user_id).1 = false) :
    b.submit id user_id OrderType.FOK side price qty r =
      (if canFullMatch b (mkOrder id user_id OrderType.FOK side price qty) then
        (Except.ok (matchOrder b (mkOrder id user_id OrderType.FOK side price qty) false).2.2,
          (matchOrder b (mkOrder id user_id OrderType.FOK side price qty) false).1,
          (checkRateLimit r user_id).2)
      else (Except.ok [], b, (checkRateLimit r user_id).2)) := by
  unfold badPriceQty at hv
  simp only [OrderBook.submit, if_neg hv, hp, Bool.false_eq_true, if_false, hr, mkOrder]

theorem submit_ok_of_pass (b : OrderBook) (r : RiskEngine) (id user_id : Nat) (ot : OrderType)
    (side : Side) (price qty : Nat) (hv : ¬ badPriceQty price qty)
    (hp : checkPositionLimit r user_id qty = false)
    (hr : (checkRateLimit r user_id).1 = false) :
    ∃ fills, (b.submit id user_id ot side price qty r).1 = Except.ok fills := by
  cases ot
  case Market => rw [submit_market b r id user_id side price qty hv hp hr]; exact ⟨_, rfl⟩
  case Limit => rw [submit_limit b r id user_id side price qty hv hp hr]; exact ⟨_, rfl⟩
  case PostOnly => rw [submit_postonly b r id user_id side price qty hv hp hr]; exact ⟨_, rfl⟩
  case MakerOnly => rw [submit_makeronly b r id user_id side price qty hv hp hr]; exact ⟨_, rfl⟩
  case IOC => rw [submit_ioc b r id user_id side price qty hv hp hr]; exact ⟨_, rfl⟩
  case FOK =>
    rw [submit_fok b r id user_id side price qty hv hp hr]
    by_cases hc : canFullMatch b (mkOrder id user_id OrderType.FOK side price qty) = true
    · rw [if_pos hc]; exact ⟨_, rfl⟩
    · rw [if_neg hc]; exact ⟨_, rfl⟩

/-- C6: `submit` returns `Err(PriceOutOfRange)` if and only if the price or
quantity fails quantization or the price falls outside `[MIN_PRICE,
MAX_PRICE]` — for every risk-engine state, so the validation check precedes
the risk checks — and whenever `submit` returns any error, no fills are
produced and the book is exactly as before the call. -/
theorem claim_C6_submit_validation (b : OrderBook) (r : RiskEngine) (id user_id : Nat)
    (ot : OrderType) (side : Side) (price qty : Nat) :
    ((b.submit id user_id ot side price qty r).1 = Except.error RiskError.PriceOutOfRange ↔
      (price % PRECISION ≠ 0 ∨ qty % PRECISION ≠ 0 ∨ price < MIN_PRICE ∨ MAX_PRICE < price)) ∧
    (∀ e : RiskError, (b.submit id user_id ot side price qty r).1 = Except.error e →
      (b.submit id user_id ot side price qty r).2.1 = b) := by
  by_cases hv : badPriceQty price qty
  · rw [submit_invalid b r id user_id ot side price qty hv]
    exact ⟨iff_of_true rfl hv, fun _ _ => rfl⟩
  · constructor
    · apply iff_of_false _ hv
      cases hp : checkPositionLimit r user_id qty
      · cases hr : (checkRateLimit r user_id).1
        · obtain ⟨fills, hf⟩ := submit_ok_of_pass b r id user_id ot side price qty hv hp hr
          rw [hf]; simp
        · rw [submit_ratelimit b r id user_id ot side price qty hv hp hr]; simp
      · rw [submit_poslimit b r id user_id ot side price qty hv hp]; simp
    · intro e he
      cases hp : checkPositionLimit r user_id qty
      · cases hr : (checkRateLimit r user_id).1
        · obtain ⟨fills, hf⟩ := submit_ok_of_pass b r id user_id ot side price qty hv hp hr
          rw [hf] at he; exact absurd he (by simp)
        · rw [submit_ratelimit b r id user_id ot side price qty hv hp hr]
      · rw [submit_poslimit b r id user_id ot side price qty hv hp]

theorem claim_C6_witness :
    (emptyBook.submit 1 1 OrderType.Limit Side.Bid 1 100000000 ⟨[], []⟩).1 =
        Except.error RiskError.PriceOutOfRange ∧
    (emptyBook.submit 1 1 OrderType.Limit Side.Bid 1 100000000 ⟨[], []⟩).2.1 = emptyBook := by
  refine ⟨(claim_C6_submit_validation emptyBook ⟨[], []⟩ 1 1 OrderType.Limit Side.Bid
      1 100000000).1.mpr (by decide), ?_⟩
  exact (claim_C6_submit_validation emptyBook ⟨[], []⟩ 1 1 OrderType.Limit Side.Bid
    1 100000000).2 RiskError.PriceOutOfRange
    ((claim_C6_submit_validation emptyBook ⟨[], []⟩ 1 1 OrderType.Limit Side.Bid
      1 100000000).1.mpr (by decide))

/-- C8: the position check rejects exactly when a limit is configured and the
quantity strictly exceeds it (an unconfigured user passes, quantity equal to
the limit passes); a position rejection happens before the rate check and
leaves the risk engine — hence the rate credit — untouched; and the rate
check initializes an absent counter to the default credit `10^9`, passes
while the counter is positive decrementing it by one, and rejects at zero
without refill. -/
theorem claim_C8_risk_gate :
    (∀ r : RiskEngine, ∀ user_id qty : Nat,
      (checkPositionLimit r user_id qty = true ↔
        ∃ limit, alLookup r.position_limits user_id = some limit ∧ limit < qty)) ∧
    (∀ r : RiskEngine, ∀ user_id qty : Nat,
      alLookup r.position_limits user_id = none → checkPositionLimit r user_id qty = false) ∧
    (∀ r : RiskEngine, ∀ user_id limit : Nat,
      alLookup r.position_limits user_id = some limit →
        checkPositionLimit r user_id limit = false) ∧
    (∀ (b : OrderBook) (r : RiskEngine) (id user_id : Nat) (ot : OrderType) (side : Side)
      (price qty : Nat), ¬ badPriceQty price qty → checkPositionLimit r user_id qty = true →
      b.submit id user_id ot side price qty r = (Except.error RiskError.PositionLimit, b, r)) ∧
    (∀ r : RiskEngine, ∀ user_id : Nat, alLookup r.rate_limits user_id = none →
      checkRateLimit r user_id =
        (false, { r with rate_limits := alInsert r.rate_limits user_id 999999999 })) ∧
    (∀ r : RiskEngine, ∀ user_id c : Nat, alLookup r.rate_limits user_id = some (c + 1) →
      checkRateLimit r user_id =
        (false, { r with rate_limits := alInsert r.rate_limits user_id c })) ∧
    (∀ r : RiskEngine, ∀ user_id : Nat, alLookup r.rate_limits user_id = some 0 →
      checkRateLimit r user_id = (true, { r with rate_limits := alInsert r.rate_limits user_id 0 })) := by
  refine ⟨?_, ?_, ?_, ?_, ?_, ?_, ?_⟩
  · intro r u q
    unfold checkPositionLimit
    cases h : alLookup r.position_limits u with
    | none => simp
    | some limit => simp
  · intro r u q h
    unfold checkPositionLimit
    rw [h]
  · intro r u limit h
    unfold checkPositionLimit
    rw [h]
    simp
  · intro b r id user_id ot side price qty hv hp
    exact submit_poslimit b r id user_id ot side price qty hv hp
  · intro r u h
    unfold checkRateLimit
    rw [h]
    simp
  · intro r u c h
    unfold checkRateLimit
    rw [h]
    simp
  · intro r u h
    unfold checkRateLimit
    rw [h]
    simp

theorem claim_C8_witness :
    checkPositionLimit ⟨[], []⟩ 1 5 = false ∧
    checkPositionLimit ⟨[(1, 5)], []⟩ 1 5 = false ∧
    (emptyBook.submit 7 1 OrderType.Limit Side.Bid 100000000 600000000
        ⟨[(1, 500000000)], []⟩ =
      (Except.error RiskError.PositionLimit, emptyBook, ⟨[(1, 500000000)], []⟩)) ∧
    checkRateLimit ⟨[], []⟩ 1 = (false, ⟨[], [(1, 999999999)]⟩) ∧
    checkRateLimit ⟨[], [(1, 3)]⟩ 1 = (false, ⟨[], [(1, 2)]⟩) ∧
    checkRateLimit ⟨[], [(1, 0)]⟩ 1 = (true, ⟨[], [(1, 0)]⟩) := by
  refine ⟨claim_C8_risk_gate.2.1 ⟨[], []⟩ 1 5 (by decide),
    claim_C8_risk_gate.2.2.1 ⟨[(1, 5)], []⟩ 1 5 (by decide),
    claim_C8_risk_gate.2.2.2.1 emptyBook ⟨[(1, 500000000)], []⟩ 7 1 OrderType.Limit Side.Bid
      100000000 600000000 (by decide) (by decide),
    claim_C8_risk_gate.2.2.2.2.1 ⟨[], []⟩ 1 (by decide),
    claim_C8_risk_gate.2.2.2.2.2.1 ⟨[], [(1, 3)]⟩ 1 2 (by decide),
    claim_C8_risk_gate.2.2.2.2.2.2 ⟨[], [(1, 0)]⟩ 1 (by decide)⟩

theorem addToBook_asks_of_bid (b : OrderBook) (o : Order) (h : o.side = Side.Bid) :
    (addToBook b o).asks = b.asks := by
  unfold addToBook
  rw [h]

theorem addToBook_bids_of_ask (b : OrderBook) (o : Order) (h : o.side = Side.Ask) :
    (addToBook b o).bids = b.bids := by
  unfold addToBook
  rw [h]

/-- C5: a PostOnly (or MakerOnly) submission that passes validation and the
risk gate returns a successful empty fill list; if the order's price crosses
the single best opposite level it is dropped silently (book unchanged, no
error), otherwise it rests via `add_to_book`; the opposite side of the book is
never mutated. -/
theorem claim_C5_postonly (b : OrderBook) (r : RiskEngine) (id user_id : Nat) (ot : OrderType)
    (side : Side) (price qty : Nat) (hot : ot = OrderType.PostOnly ∨ ot = OrderType.MakerOnly)
    (hv : ¬ badPriceQty price qty) (hp : checkPositionLimit r user_id qty = false)
    (hr : (checkRateLimit r user_id).1 = false) :
    (b.submit id user_id ot side price qty r).1 = Except.ok [] ∧
    (b.submit id user_id ot side price qty r).2.1 =
      (if wouldMatch b (mkOrder id user_id ot side price qty) then b
       else addToBook b (mkOrder id user_id ot side price qty)) ∧
    (wouldMatch b (mkOrder id user_id ot side price qty) = true ↔
      (match side with
       | Side.Bid => ∃ pq, b.asks.head? = some pq ∧ pq.1 ≤ price
       | Side.Ask => ∃ pq, b.bids.getLast? = some pq ∧ price ≤ pq.1)) ∧
    (match side with
     | Side.Bid => (b.submit id user_id ot side price qty r).2.1.asks = b.asks
     | Side.Ask => (b.submit id user_id ot side price qty r).2.1.bids = b.bids) := by
  have hwm : wouldMatch b (mkOrder id user_id ot side price qty) = true ↔
      (match side with
       | Side.Bid => ∃ pq, b.asks.head? = some pq ∧ pq.1 ≤ price
       | Side.Ask => ∃ pq, b.bids.getLast? = some pq ∧ price ≤ pq.1) := by
    unfold wouldMatch mkOrder
    cases side with
    | Bid =>
      cases hh : b.asks.head? with
      | none => simp
      | some pq => simp
    | Ask =>
      cases hh : b.bids.getLast? with
      | none => simp
      | some pq => simp
  have hside : (mkOrder id user_id ot side price qty).side = side := rfl
  rcases hot with hot | hot <;> subst hot
  · rw [submit_postonly b r id user_id side price qty hv hp hr]
    refine ⟨rfl, rfl, hwm, ?_⟩
    cases side with
    | Bid =>
      by_cases hc : wouldMatch b (mkOrder id user_id OrderType.PostOnly Side.Bid price qty) = true
      · simp only [if_pos hc]
      · simp only [if_neg hc, addToBook_asks_of_bid _ _ hside]
    | Ask =>
      by_cases hc : wouldMatch b (mkOrder id user_id OrderType.PostOnly Side.Ask price qty) = true
      · simp only [if_pos hc]
      · simp only [if_neg hc, addToBook_bids_of_ask _ _ hside]
  · rw [submit_makeronly b r id user_id side price qty hv hp hr]
    refine ⟨rfl, rfl, hwm, ?_⟩
    cases side with
    | Bid =>
      by_cases hc : wouldMatch b (mkOrder id user_id OrderType.MakerOnly Side.Bid price qty) = true
      · simp only [if_pos hc]
      · simp only [if_neg hc, addToBook_asks_of_bid _ _ hside]
    | Ask =>
      by_cases hc : wouldMatch b (mkOrder id user_id OrderType.MakerOnly Side.Ask price qty) = true
      · simp only [if_pos hc]
      · simp only [if_neg hc, addToBook_bids_of_ask _ _ hside]

/-- Witness book for C5: one resting ask, id 1, user 2, price 100·P, qty 1·P. -/
def c5Book : OrderBook :=
  ⟨[], [(10000000000, [0])],
    ⟨[some ⟨1, 2, Side.Ask, 10000000000, 100000000, 100000000, OrderType.Limit⟩], []⟩,
    [(1, 0)]⟩

theorem claim_C5_witness :
    (c5Book.submit 2 5 OrderType.PostOnly Side.Bid 10000000000 100000000 ⟨[], []⟩).1 =
        Except.ok [] ∧
    (c5Book.submit 2 5 OrderType.PostOnly Side.Bid 10000000000 100000000 ⟨[], []⟩).2.1 =
        c5Book := by
  have h := claim_C5_postonly c5Book ⟨[], []⟩ 2 5 OrderType.PostOnly Side.Bid
    10000000000 100000000 (Or.inl rfl) (by decide) (by decide) (by decide)
  exact ⟨h.1, h.2.1.trans (by decide)⟩

/-! ### List and association-list infrastructure -/

theorem getD_set_lt {α : Type} (l : List α) (i : Nat) (x d : α) (h : i < l.length) :
    (l.set i x).getD i d = x := by
  induction l generalizing i with
  | nil => simp at h
  | cons a t ih =>
    cases i with
    | zero => rfl
    | succ n => exact ih n (by simpa using h)

theorem getD_set_ne {α : Type} (l : List α) (i j : Nat) (x d : α) (h : j ≠ i) :
    (l.set i x).getD j d = l.getD j d := by
  induction l generalizing i j with
  | nil => rfl
  | cons a t ih =>
    cases i with
    | zero =>
      cases j with
      | zero => exact absurd rfl h
      | succ m => rfl
    | succ n =>
      cases j with
      | zero => rfl
      | succ m => exact ih n m (fun hc => h (by rw [hc]))

theorem getD_length_le {α : Type} (l : List α) (j : Nat) (d : α) (h : l.length ≤ j) :
    l.getD j d = d := by
  induction l generalizing j with
  | nil => cases j <;> rfl
  | cons a t ih =>
    cases j with
    | zero => simp at h
    | succ m => exact ih m (by simpa using h)

theorem getD_append_self {α : Type} (l : List α) (x d : α) :
    (l ++ [x]).getD l.length d = x := by
  induction l with
  | nil => rfl
  | cons a t ih => exact ih

theorem getD_append_ne {α : Type} (l : List α) (x d : α) (j : Nat) (h : j ≠ l.length) :
    (l ++ [x]).getD j d = l.getD j d := by
  induction l generalizing j with
  | nil =>
    cases j with
    | zero => exact absurd rfl h
    | succ m => cases m <;> rfl
  | cons a t ih =>
    cases j with
    | zero => rfl
    | succ m => exact ih m (fun hc => h (by simp [hc]))

theorem alLookup_alInsert_self {β : Type} (m : List (Nat × β)) (k : Nat) (v : β) :
    alLookup (alInsert m k v) k = some v := by
  induction m with
  | nil => simp [alInsert, alLookup]
  | cons kv t ih =>
    rcases kv with ⟨k', v'⟩
    by_cases h : k' = k
    · simp [alInsert, if_pos h, alLookup]
    · simp only [alInsert, if_neg h, alLookup, if_neg h]
      exact ih

theorem alLookup_alInsert_ne {β : Type} (m : List (Nat × β)) (k k' : Nat) (v : β)
    (h : k' ≠ k) : alLookup (alInsert m k v) k' = alLookup m k' := by
  induction m with
  | nil =>
    simp only [alInsert, alLookup]
    rw [if_neg (Ne.symm h)]
  | cons kv t ih =>
    rcases kv with ⟨k0, v0⟩
    by_cases h0 : k0 = k
    · have hk : ¬ (k = k') := Ne.symm h
      have hk0 : ¬ (k0 = k') := by rw [h0]; exact hk
      simp only [alInsert, if_pos h0, alLookup, if_neg hk, if_neg hk0]
    · simp only [alInsert, if_neg h0, alLookup, ih]

theorem alRemove_sublist {β : Type} (m : List (Nat × β)) (k : Nat) :
    (alRemove m k).Sublist m := by
  induction m with
  | nil => simp [alRemove]
  | cons kv t ih =>
    by_cases h : kv.1 = k
    · simp only [alRemove, if_pos h]
      exact List.sublist_cons_self kv t
    · simp only [alRemove, if_neg h]
      exact ih.cons₂ kv

theorem alLookup_alRemove_ne {β : Type} (m : List (Nat × β)) (k k' : Nat) (h : k' ≠ k) :
    alLookup (alRemove m k) k' = alLookup m k' := by
  induction m with
  | nil => rfl
  | cons kv t ih =>
    by_cases hk : kv.1 = k
    · have : ¬ (kv.1 = k') := by rw [hk]; exact Ne.symm h
      simp only [alRemove, if_pos hk, alLookup, if_neg this]
    · simp only [alRemove, if_neg hk, alLookup, ih]

theorem alLookup_eq_none_iff {β : Type} (m : List (Nat × β)) (k : Nat) :
    alLookup m k = none ↔ k ∉ m.map Prod.fst := by
  induction m with
  | nil => simp [alLookup]
  | cons kv t ih =>
    rcases kv with ⟨k', v'⟩
    by_cases h : k' = k
    · simp [alLookup, h]
    · simp only [alLookup, if_neg h, List.map_cons, List.mem_cons]
      rw [ih]
      constructor
      · intro hk hc
        rcases hc with hc | hc
        · exact h hc.symm
        · exact hk hc
      · intro hk hc
        exact hk (Or.inr hc)

theorem alLookup_mem {β : Type} (m : List (Nat × β)) (k : Nat) (v : β)
    (h : alLookup m k = some v) : (k, v) ∈ m := by
  induction m with
  | nil => simp [alLookup] at h
  | cons kv t ih =>
    rcases kv with ⟨k', v'⟩
    by_cases hk : k' = k
    · simp only [alLookup, if_pos hk] at h
      injection h with h2
      subst hk
      subst h2
      exact List.mem_cons_self _ _
    · simp only [alLookup, if_neg hk] at h
      exact List.mem_cons_of_mem _ (ih h)

theorem alLookup_alRemove_self {β : Type} (m : List (Nat × β)) (k : Nat)
    (hnd : (m.map Prod.fst).Nodup) : alLookup (alRemove m k) k = none := by
  induction m with
  | nil => rfl
  | cons kv t ih =>
    simp only [List.map_cons, List.nodup_cons] at hnd
    by_cases hk : kv.1 = k
    · simp only [alRemove, if_pos hk]
      rw [alLookup_eq_none_iff, ← hk]
      exact hnd.1
    · simp only [alRemove, if_neg hk, alLookup, if_neg hk]
      exact ih hnd.2

theorem mem_alLookup {β : Type} (m : List (Nat × β)) (k : Nat) (v : β)
    (hmem : (k, v) ∈ m) (hnd : (m.map Prod.fst).Nodup) : alLookup m k = some v := by
  induction m with
  | nil => simp at hmem
  | cons kv t ih =>
    simp only [List.map_cons, List.nodup_cons] at hnd
    rcases List.mem_cons.mp hmem with h | h
    · rw [← h]
      simp [alLookup]
    · have hk : kv.1 ≠ k := by
        intro hc
        exact hnd.1 (hc ▸ List.mem_map_of_mem Prod.fst h)
      simp only [alLookup, if_neg hk]
      exact ih h hnd.2

theorem mem_alInsert {β : Type} (m : List (Nat × β)) (k : Nat) (v : β) (kv : Nat × β)
    (h : kv ∈ alInsert m k v) : kv = (k, v) ∨ kv ∈ m := by
  induction m with
  | nil =>
    simp [alInsert] at h
    left
    exact h
  | cons kv' t ih =>
    by_cases hk : kv'.1 = k
    · simp only [alInsert, if_pos hk] at h
      rcases List.mem_cons.mp h with h | h
      · left; exact h
      · right; exact List.mem_cons_of_mem kv' h
    · simp only [alInsert, if_neg hk] at h
      rcases List.mem_cons.mp h with h | h
      · right; rw [h]; exact List.mem_cons_self kv' t
      · rcases ih h with h | h
        · left; exact h
        · right; exact List.mem_cons_of_mem kv' h

theorem alInsert_map_fst_present {β : Type} (m : List (Nat × β)) (k : Nat) (v w : β)
    (h : alLookup m k = some w) : (alInsert m k v).map Prod.fst = m.map Prod.fst := by
  induction m with
  | nil => simp [alLookup] at h
  | cons kv t ih =>
    by_cases hk : kv.1 = k
    · simp [alInsert, hk]
    · simp only [alLookup, if_neg hk] at h
      simp [alInsert, hk, ih h]

theorem alInsert_map_fst_absent {β : Type} (m : List (Nat × β)) (k : Nat) (v : β)
    (h : alLookup m k = none) : (alInsert m k v).map Prod.fst = m.map Prod.fst ++ [k] := by
  induction m with
  | nil => simp [alInsert]
  | cons kv t ih =>
    by_cases hk : kv.1 = k
    · simp [alLookup, hk] at h
    · simp only [alLookup, if_neg hk] at h
      simp [alInsert, hk, ih h]

theorem alInsert_keys_nodup {β : Type} (m : List (Nat × β)) (k : Nat) (v : β)
    (h : (m.map Prod.fst).Nodup) : ((alInsert m k v).map Prod.fst).Nodup := by
  cases hl : alLookup m k with
  | some w => rw [alInsert_map_fst_present m k v w hl]; exact h
  | none =>
    rw [alInsert_map_fst_absent m k v hl]
    rw [alLookup_eq_none_iff] at hl
    simp [List.nodup_append, h, hl]

theorem alRemove_keys_sublist {β : Type} (m : List (Nat × β)) (k : Nat) :
    ((alRemove m k).map Prod.fst).Sublist (m.map Prod.fst) :=
  (alRemove_sublist m k).map Prod.fst

theorem removeFirst_sublist (q : List Nat) (i : Nat) : (removeFirst q i).Sublist q := by
  induction q with
  | nil => simp [removeFirst]
  | cons x t ih =>
    by_cases h : x = i
    · simp only [removeFirst, if_pos h]
      exact List.sublist_cons_self x t
    · simp only [removeFirst, if_neg h]
      exact ih.cons₂ x

theorem removeFirst_of_not_mem (q : List Nat) (i : Nat) (h : i ∉ q) : removeFirst q i = q := by
  induction q with
  | nil => rfl
  | cons x t ih =>
    simp only [List.mem_cons, not_or] at h
    have hx : ¬ (x = i) := Ne.symm h.1
    rw [removeFirst, if_neg hx, ih h.2]

theorem not_mem_removeFirst_self (q : List Nat) (i : Nat) (h : q.Nodup) :
    i ∉ removeFirst q i := by
  induction q with
  | nil => simp [removeFirst]
  | cons x t ih =>
    simp only [List.nodup_cons] at h
    by_cases hx : x = i
    · simp only [removeFirst, if_pos hx]
      rw [← hx]
      exact h.1
    · simp only [removeFirst, if_neg hx, List.mem_cons, not_or]
      exact ⟨Ne.symm hx, ih h.2⟩

theorem mem_removeFirst_of_ne (q : List Nat) (i x : Nat) (hx : x ∈ q) (hne : x ≠ i) :
    x ∈ removeFirst q i := by
  induction q with
  | nil => simp at hx
  | cons y t ih =>
    by_cases hy : y = i
    · simp only [removeFirst, if_pos hy]
      rcases List.mem_cons.mp hx with h | h
      · exact absurd (h.trans hy) hne
      · exact h
    · simp only [removeFirst, if_neg hy, List.mem_cons]
      rcases List.mem_cons.mp hx with h | h
      · left; exact h
      · right; exact ih h

/-! ### Well-formedness of a book state -/

/-- Keys of a side map are strictly increasing (the `BTreeMap` invariant). -/
def keysSorted {β : Type} (m : List (Nat × β)) : Prop :=
  m.Pairwise (fun a b => a.1 < b.1)

theorem keysSorted_tail {β : Type} {kv : Nat × β} {t : List (Nat × β)}
    (h : keysSorted (kv :: t)) : keysSorted t :=
  (List.pairwise_cons.mp h).2

theorem alLookup_levelPush_ne (m : List (Nat × List Nat)) (p i p' : Nat) (h : p' ≠ p) :
    alLookup (levelPush m p i) p' = alLookup m p' := by
  induction m with
  | nil =>
    simp only [levelPush, alLookup]
    rw [if_neg (Ne.symm h)]
  | cons kv t ih =>
    rcases kv with ⟨k, q⟩
    by_cases hp : p = k
    · have hk : ¬ (k = p') := by rw [← hp]; exact Ne.symm h
      simp only [levelPush, if_pos hp, alLookup, if_neg hk]
    · simp only [levelPush, if_neg hp]
      by_cases hlt : p < k
      · simp only [if_pos hlt, alLookup]
        rw [if_neg (Ne.symm h)]
      · simp only [if_neg hlt, alLookup, ih]

theorem alLookup_levelPush_self (m : List (Nat × List Nat)) (p i : Nat) (hs : keysSorted m) :
    alLookup (levelPush m p i) p = some ((alLookup m p).getD [] ++ [i]) := by
  induction m with
  | nil => simp [levelPush, alLookup]
  | cons kv t ih =>
    rcases kv with ⟨k, q⟩
    rw [keysSorted, List.pairwise_cons] at hs
    by_cases hp : p = k
    · simp only [levelPush, if_pos hp, alLookup, if_pos hp.symm, Option.getD_some]
    · simp only [levelPush, if_neg hp]
      by_cases hlt : p < k
      · have ht : alLookup t p = none := by
          rw [alLookup_eq_none_iff]
          intro hc
          rcases List.mem_map.mp hc with ⟨pq, hpq, hfst⟩
          have := hs.1 pq hpq
          omega
        have hk : ¬ (k = p) := by omega
        simp only [if_pos hlt, alLookup, if_pos rfl, if_neg hk, ht]
        rfl
      · have hk : ¬ (k = p) := fun hc => hp hc.symm
        simp only [if_neg hlt, alLookup, if_neg hk]
        exact ih hs.2

theorem levelPush_mem_fst (m : List (Nat × List Nat)) (p i : Nat) :
    ∀ pq ∈ levelPush m p i, pq.1 = p ∨ pq.1 ∈ m.map Prod.fst := by
  induction m with
  | nil =>
    intro pq hpq
    simp [levelPush] at hpq
    left
    rw [hpq]
  | cons kv t ih =>
    rcases kv with ⟨k, q⟩
    intro pq hpq
    by_cases hp : p = k
    · simp only [levelPush, if_pos hp] at hpq
      rcases List.mem_cons.mp hpq with h | h
      · left; rw [h, hp]
      · right
        simp only [List.map_cons, List.mem_cons]
        right
        exact List.mem_map_of_mem Prod.fst h
    · simp only [levelPush, if_neg hp] at hpq
      by_cases hlt : p < k
      · rw [if_pos hlt] at hpq
        rcases List.mem_cons.mp hpq with h | h
        · left; rw [h]
        · right
          exact List.mem_map_of_mem Prod.fst h
      · rw [if_neg hlt] at hpq
        rcases List.mem_cons.mp hpq with h | h
        · right
          simp only [List.map_cons, List.mem_cons]
          left
          rw [h]
        · rcases ih pq h with h2 | h2
          · left; exact h2
          · right
            simp only [List.map_cons, List.mem_cons]
            right
            exact h2

theorem keysSorted_levelPush (m : List (Nat × List Nat)) (p i : Nat) (hs : keysSorted m) :
    keysSorted (levelPush m p i) := by
  induction m with
  | nil => simp [levelPush, keysSorted]
  | cons kv t ih =>
    rcases kv with ⟨k, q⟩
    rw [keysSorted, List.pairwise_cons] at hs
    by_cases hp : p = k
    · simp only [levelPush, if_pos hp, keysSorted, List.pairwise_cons]
      exact ⟨hs.1, hs.2⟩
    · simp only [levelPush, if_neg hp]
      by_cases hlt : p < k
      · simp only [if_pos hlt, keysSorted, List.pairwise_cons]
        refine ⟨?_, hs.1, hs.2⟩
        intro b hb
        rcases List.mem_cons.mp hb with h | h
        · rw [h]; exact hlt
        · have := hs.1 b h
          omega
      · have hkp : k < p := by omega
        simp only [if_neg hlt, keysSorted, List.pairwise_cons]
        constructor
        · intro b hb
          rcases levelPush_mem_fst t p i b hb with h | h
          · rw [h]; exact hkp
          · rcases List.mem_map.mp h with ⟨a, ha, hfst⟩
            have := hs.1 a ha
            omega
        · exact ih hs.2

/-- All handles referenced by a side map, in iteration order. -/
def sideHandles (m : List (Nat × List Nat)) : List Nat := (m.map Prod.snd).flatten

/-- All handles resting in the book. -/
def bookHandles (b : OrderBook) : List Nat := sideHandles b.bids ++ sideHandles b.asks

theorem mem_sideHandles (m : List (Nat × List Nat)) (i : Nat) :
    i ∈ sideHandles m ↔ ∃ pq ∈ m, i ∈ pq.2 := by
  unfold sideHandles
  rw [List.mem_flatten]
  constructor
  · rintro ⟨l, hl, hi⟩
    rcases List.mem_map.mp hl with ⟨pq, hpq, hsnd⟩
    exact ⟨pq, hpq, by rw [hsnd]; exact hi⟩
  · rintro ⟨pq, hpq, hi⟩
    exact ⟨pq.2, List.mem_map_of_mem Prod.snd hpq, hi⟩

theorem sideHandles_levelPush_perm (m : List (Nat × List Nat)) (p i : Nat) :
    (sideHandles (levelPush m p i)).Perm (i :: sideHandles m) := by
  induction m with
  | nil => simp [levelPush, sideHandles]
  | cons kv t ih =>
    rcases kv with ⟨k, q⟩
    by_cases hp : p = k
    · simp only [levelPush, if_pos hp, sideHandles, List.map_cons, List.flatten_cons]
      have h1 : (q ++ [i]) ++ (t.map Prod.snd).flatten = q ++ (i :: (t.map Prod.snd).flatten) := by
        rw [List.append_assoc]
        rfl
      rw [h1]
      exact List.perm_middle
    · simp only [levelPush, if_neg hp]
      by_cases hlt : p < k
      · simp [if_pos hlt, sideHandles]
      · simp only [if_neg hlt, sideHandles, List.map_cons, List.flatten_cons]
        have h2 : (q ++ ((levelPush t p i).map Prod.snd).flatten).Perm
            (q ++ (i :: (t.map Prod.snd).flatten)) := List.Perm.append_left q ih
        exact h2.trans List.perm_middle

theorem Slab.setEntry_free (s : Slab) (i : Nat) (o : Order) : (s.setEntry i o).free = s.free :=
  rfl

theorem Slab.setEntry_length (s : Slab) (i : Nat) (o : Order) :
    (s.setEntry i o).entries.length = s.entries.length := by
  simp [Slab.setEntry]

theorem Slab.getO_setEntry_self (s : Slab) (i : Nat) (o : Order) (h : i < s.entries.length) :
    (s.setEntry i o).getO i = some o :=
  getD_set_lt s.entries i (some o) none h

theorem Slab.getO_setEntry_ne (s : Slab) (i j : Nat) (o : Order) (h : j ≠ i) :
    (s.setEntry i o).getO j = s.getO j :=
  getD_set_ne s.entries i j (some o) none h

theorem Slab.getO_some_lt (s : Slab) (i : Nat) (o : Order) (h : s.getO i = some o) :
    i < s.entries.length := by
  by_contra hc
  rw [Slab.getO, getD_length_le s.entries i none (Nat.le_of_not_lt hc)] at h
  cases h

theorem Slab.getO_removeAt_self (s : Slab) (i : Nat) : (s.removeAt i).getO i = none := by
  by_cases h : i < s.entries.length
  · exact getD_set_lt s.entries i none none h
  · show (s.entries.set i none).getD i none = none
    rw [getD_length_le]
    rw [List.length_set]
    exact Nat.le_of_not_lt h

theorem Slab.getO_removeAt_ne (s : Slab) (i j : Nat) (h : j ≠ i) :
    (s.removeAt i).getO j = s.getO j :=
  getD_set_ne s.entries i j none none h

theorem Slab.removeAt_free (s : Slab) (i : Nat) : (s.removeAt i).free = i :: s.free := rfl

theorem Slab.removeAt_length (s : Slab) (i : Nat) :
    (s.removeAt i).entries.length = s.entries.length := by
  simp [Slab.removeAt]

theorem Slab.insert_free_tail (s : Slab) (o : Order) : (s.insert o).2.free = s.free.tail := by
  unfold Slab.insert
  cases s.free <;> rfl

theorem Slab.insert_length_le (s : Slab) (o : Order) :
    s.entries.length ≤ (s.insert o).2.entries.length := by
  unfold Slab.insert
  cases s.free with
  | nil => simp
  | cons i fs => simp

theorem Slab.getO_insert_self (s : Slab) (o : Order)
    (hf : ∀ j ∈ s.free, j < s.entries.length) :
    (s.insert o).2.getO (s.insert o).1 = some o := by
  unfold Slab.insert
  cases hfree : s.free with
  | nil => exact getD_append_self s.entries (some o) none
  | cons i fs =>
    exact getD_set_lt s.entries i (some o) none (hf i (by rw [hfree]; exact List.mem_cons_self i fs))

theorem Slab.getO_insert_ne (s : Slab) (o : Order) (j : Nat) (h : j ≠ (s.insert o).1) :
    (s.insert o).2.getO j = s.getO j := by
  unfold Slab.insert at h ⊢
  cases hfree : s.free with
  | nil =>
    rw [hfree] at h
    exact getD_append_ne s.entries (some o) none j h
  | cons i fs =>
    rw [hfree] at h
    exact getD_set_ne s.entries i j (some o) none h

theorem Slab.insert_fresh_none (s : Slab) (o : Order)
    (hv : ∀ j ∈ s.free, s.getO j = none) : s.getO (s.insert o).1 = none := by
  unfold Slab.insert
  cases hfree : s.free with
  | nil => exact getD_length_le s.entries s.entries.length none (Nat.le_refl _)
  | cons i fs => exact hv i (by rw [hfree]; exact List.mem_cons_self i fs)

/-! ### Well-formedness predicate -/

/-- A handle resting at a given side and price resolves in the arena to an
order with matching side and price, positive remaining quantity bounded by its
original quantity, and a `by_id` entry pointing back at the handle. -/
structure WFSide (arena : Slab) (by_id : List (Nat × Nat)) (side : Side)
    (m : List (Nat × List Nat)) : Prop where
  sorted : keysSorted m
  nonempty : ∀ pq ∈ m, pq.2 ≠ []
  inRange : ∀ pq ∈ m, MIN_PRICE ≤ pq.1 ∧ pq.1 ≤ MAX_PRICE
  resolve : ∀ pq ∈ m, ∀ idx ∈ pq.2, ∃ o, arena.getO idx = some o ∧ o.side = side ∧
    o.price = pq.1 ∧ 0 < o.remaining ∧ o.remaining ≤ o.qty ∧ alLookup by_id o.id = some idx

/-- Well-formedness of a book state: both sides well formed, all resting
handles distinct, `by_id` sound (hence, with `WFSide.resolve`, bijective with
the resting handles), association-list keys distinct, and the arena free list
consisting of distinct vacant in-range slots. -/
structure WF (b : OrderBook) : Prop where
  bidsWF : WFSide b.orders b.by_id Side.Bid b.bids
  asksWF : WFSide b.orders b.by_id Side.Ask b.asks
  handlesNodup : (bookHandles b).Nodup
  byIdSound : ∀ kv ∈ b.by_id, kv.2 ∈ bookHandles b ∧
    ∃ o, b.orders.getO kv.2 = some o ∧ o.id = kv.1
  byIdKeys : (b.by_id.map Prod.fst).Nodup
  freeVacant : ∀ i ∈ b.orders.free, b.orders.getO i = none
  freeLt : ∀ i ∈ b.orders.free, i < b.orders.entries.length
  freeNodup : b.orders.free.Nodup

instance decidableExOptionOrder {p : Order → Prop} [DecidablePred p] :
    (x : Option Order) → Decidable (∃ o, x = some o ∧ p o)
  | none => isFalse (by rintro ⟨o, h, _⟩; cases h)
  | some o =>
    if h : p o then isTrue ⟨o, rfl, h⟩
    else
      isFalse (by
        rintro ⟨o', ho', hp⟩
        injection ho' with he
        subst he
        exact h hp)

instance {β : Type} (m : List (Nat × β)) : Decidable (keysSorted m) := by
  unfold keysSorted
  infer_instance

instance (arena : Slab) (by_id : List (Nat × Nat)) (side : Side) (m : List (Nat × List Nat)) :
    Decidable (WFSide arena by_id side m) :=
  decidable_of_iff (keysSorted m ∧ (∀ pq ∈ m, pq.2 ≠ []) ∧
    (∀ pq ∈ m, MIN_PRICE ≤ pq.1 ∧ pq.1 ≤ MAX_PRICE) ∧
    (∀ pq ∈ m, ∀ idx ∈ pq.2, ∃ o, arena.getO idx = some o ∧ o.side = side ∧
      o.price = pq.1 ∧ 0 < o.remaining ∧ o.remaining ≤ o.qty ∧
      alLookup by_id o.id = some idx))
    ⟨fun h => ⟨h.1, h.2.1, h.2.2.1, h.2.2.2⟩,
     fun h => ⟨h.sorted, h.nonempty, h.inRange, h.resolve⟩⟩

instance (b : OrderBook) : Decidable (WF b) :=
  decidable_of_iff (WFSide b.orders b.by_id Side.Bid b.bids ∧
    WFSide b.orders b.by_id Side.Ask b.asks ∧
    (bookHandles b).Nodup ∧
    (∀ kv ∈ b.by_id, kv.2 ∈ bookHandles b ∧
      ∃ o, b.orders.getO kv.2 = some o ∧ o.id = kv.1) ∧
    (b.by_id.map Prod.fst).Nodup ∧
    (∀ i ∈ b.orders.free, b.orders.getO i = none) ∧
    (∀ i ∈ b.orders.free, i < b.orders.entries.length) ∧
    b.orders.free.Nodup)
    ⟨fun h => ⟨h.1, h.2.1, h.2.2.1, h.2.2.2.1, h.2.2.2.2.1, h.2.2.2.2.2.1,
      h.2.2.2.2.2.2.1, h.2.2.2.2.2.2.2⟩,
     fun h => ⟨h.bidsWF, h.asksWF, h.handlesNodup, h.byIdSound, h.byIdKeys, h.freeVacant,
      h.freeLt, h.freeNodup⟩⟩

theorem wf_emptyBook : WF emptyBook := by decide

theorem keysSorted_iff {β : Type} (m : List (Nat × β)) :
    keysSorted m ↔ (m.map Prod.fst).Pairwise (fun a b => a < b) := by
  rw [keysSorted, List.pairwise_map]

theorem keysSorted_map_nodup {β : Type} (m : List (Nat × β)) (hs : keysSorted m) :
    (m.map Prod.fst).Nodup := by
  have h : (m.map Prod.fst).Pairwise (fun a b => a ≠ b) := by
    rw [List.pairwise_map]
    rw [keysSorted] at hs
    exact hs.imp (fun h => Nat.ne_of_lt h)
  exact h

theorem keysSorted_sublist {β : Type} {m m' : List (Nat × β)} (hsub : m'.Sublist m)
    (hs : keysSorted m) : keysSorted m' :=
  hs.sublist hsub

theorem keysSorted_alInsert_present {β : Type} (m : List (Nat × β)) (k : Nat) (v w : β)
    (h : alLookup m k = some w) (hs : keysSorted m) : keysSorted (alInsert m k v) := by
  rw [keysSorted_iff] at hs ⊢
  rw [alInsert_map_fst_present m k v w h]
  exact hs

theorem keysSorted_queueEraseLevel (m : List (Nat × List Nat)) (p i : Nat)
    (hs : keysSorted m) : keysSorted (queueEraseLevel m p i) := by
  unfold queueEraseLevel
  cases h : alLookup m p with
  | none => exact hs
  | some q =>
    show keysSorted (if (removeFirst q i).isEmpty = true then alRemove m p
      else alInsert m p (removeFirst q i))
    by_cases he : (removeFirst q i).isEmpty
    · rw [if_pos he]
      exact keysSorted_sublist (alRemove_sublist m p) hs
    · rw [if_neg he]
      exact keysSorted_alInsert_present m p _ q h hs

theorem alLookup_queueEraseLevel_ne (m : List (Nat × List Nat)) (p i p' : Nat) (h : p' ≠ p) :
    alLookup (queueEraseLevel m p i) p' = alLookup m p' := by
  unfold queueEraseLevel
  cases hq : alLookup m p with
  | none => rfl
  | some q =>
    show alLookup (if (removeFirst q i).isEmpty = true then alRemove m p
      else alInsert m p (removeFirst q i)) p' = alLookup m p'
    by_cases he : (removeFirst q i).isEmpty
    · rw [if_pos he]
      exact alLookup_alRemove_ne m p p' h
    · rw [if_neg he]
      exact alLookup_alInsert_ne m p p' _ h

theorem cancel_found (b : OrderBook) (id idx : Nat) (o : Order)
    (hl : alLookup b.by_id id = some idx) (ho : b.orders.getO idx = some o) :
    b.cancel id = (some o,
      removeOrder (match o.side with
        | Side.Bid => { b with bids := queueEraseLevel b.bids o.price idx }
        | Side.Ask => { b with asks := queueEraseLevel b.asks o.price idx }) id) := by
  unfold OrderBook.cancel
  rw [hl]
  simp only [ho, Option.getD_some]

theorem cancel_not_found (b : OrderBook) (id : Nat) (h : alLookup b.by_id id = none) :
    b.cancel id = (none, b) := by
  unfold OrderBook.cancel
  rw [h]

theorem modify_found (b : OrderBook) (id : Nat) (np nq : Option Nat) (o : Order)
    (cb : OrderBook) (hc : b.cancel id = (some o, cb)) :
    b.modify id np nq = addToBook cb
      { o with
          price := np.getD o.price
          qty := nq.getD o.qty
          remaining := nq.getD o.remaining } := by
  unfold OrderBook.modify
  rw [hc]
  cases np <;> cases nq <;> rfl

theorem modify_not_found (b : OrderBook) (id : Nat) (np nq : Option Nat)
    (h : alLookup b.by_id id = none) : b.modify id np nq = b := by
  unfold OrderBook.modify
  rw [cancel_not_found b id h]

/-- The order that `modify` re-adds: price updated when `new_price` is
supplied; `qty` and `remaining` both reset when `new_qty` is supplied. -/
def modOrder (o : Order) (np nq : Option Nat) : Order :=
  { o with
      price := np.getD o.price
      qty := nq.getD o.qty
      remaining := nq.getD o.remaining }

theorem addToBook_orders (b : OrderBook) (o : Order) :
    (addToBook b o).orders = (b.orders.insert o).2 := by
  unfold addToBook
  cases o.side <;> rfl

theorem addToBook_by_id (b : OrderBook) (o : Order) :
    (addToBook b o).by_id = alInsert b.by_id o.id (b.orders.insert o).1 := by
  unfold addToBook
  cases o.side <;> rfl

theorem addToBook_bids_of_bid (b : OrderBook) (o : Order) (h : o.side = Side.Bid) :
    (addToBook b o).bids = levelPush b.bids o.price (b.orders.insert o).1 := by
  unfold addToBook
  rw [h]

theorem addToBook_asks_of_ask (b : OrderBook) (o : Order) (h : o.side = Side.Ask) :
    (addToBook b o).asks = levelPush b.asks o.price (b.orders.insert o).1 := by
  unfold addToBook
  rw [h]

/-- C7: `modify` of a non-resting id is a no-op; otherwise the resting order
is cancelled and a fresh order is re-added directly via `add_to_book` — the
risk engine is not an argument of `modify`, so no risk gate or validation can
run, and no matching is attempted: the opposite side of the book is untouched
even if the new price would cross it.  The fresh order preserves `id`,
`user_id` and `side` (and `price`/`qty` when the corresponding argument is
absent), has both `qty` and `remaining` set to `new_qty` when supplied, and is
appended at the tail of its (possibly new) price level under a fresh handle,
so time priority is always reset. -/
theorem claim_C7_modify (b : OrderBook) (id : Nat) (np nq : Option Nat) (hwf : WF b) :
    (alLookup b.by_id id = none → b.modify id np nq = b) ∧
    (∀ idx o, alLookup b.by_id id = some idx → b.orders.getO idx = some o →
      b.modify id np nq = addToBook (b.cancel id).2 (modOrder o np nq) ∧
      (modOrder o np nq).id = o.id ∧
      (modOrder o np nq).user_id = o.user_id ∧
      (modOrder o np nq).side = o.side ∧
      (np = none → (modOrder o np nq).price = o.price) ∧
      (nq = none → (modOrder o np nq).qty = o.qty ∧
        (modOrder o np nq).remaining = o.remaining) ∧
      (∀ q, nq = some q → (modOrder o np nq).qty = q ∧ (modOrder o np nq).remaining = q) ∧
      (o.side = Side.Bid → (b.modify id np nq).asks = b.asks) ∧
      (o.side = Side.Ask → (b.modify id np nq).bids = b.bids) ∧
      (b.cancel id).2.orders.getO ((b.cancel id).2.orders.insert (modOrder o np nq)).1 = none ∧
      (b.modify id np nq).orders.getO ((b.cancel id).2.orders.insert (modOrder o np nq)).1 =
        some (modOrder o np nq) ∧
      alLookup (b.modify id np nq).by_id id =
        some ((b.cancel id).2.orders.insert (modOrder o np nq)).1 ∧
      (o.side = Side.Bid →
        alLookup (b.modify id np nq).bids (modOrder o np nq).price =
          some ((alLookup (b.cancel id).2.bids (modOrder o np nq).price).getD [] ++
            [((b.cancel id).2.orders.insert (modOrder o np nq)).1])) ∧
      (o.side = Side.Ask →
        alLookup (b.modify id np nq).asks (modOrder o np nq).price =
          some ((alLookup (b.cancel id).2.asks (modOrder o np nq).price).getD [] ++
            [((b.cancel id).2.orders.insert (modOrder o np nq)).1]))) := by
  constructor
  · intro h
    exact modify_not_found b id np nq h
  · intro idx o hl ho
    have hoid : o.id = id := by
      obtain ⟨-, o2, ho2, hid2⟩ := hwf.byIdSound (id, idx) (alLookup_mem _ _ _ hl)
      have : o2 = o := by
        rw [ho] at ho2
        injection ho2 with h2
        exact h2.symm
      rw [← this]
      exact hid2
    have hcancel := cancel_found b id idx o hl ho
    have hpair : b.cancel id = (some o, (b.cancel id).2) := by rw [hcancel]
    have hmod : b.modify id np nq = addToBook (b.cancel id).2 (modOrder o np nq) :=
      modify_found b id np nq o (b.cancel id).2 hpair
    have hlt_idx : idx < b.orders.entries.length := Slab.getO_some_lt _ _ _ ho
    have hmos : (modOrder o np nq).side = o.side := rfl
    have hmoid : (modOrder o np nq).id = o.id := rfl
    -- the cancelled book, explicitly
    have hcb : (b.cancel id).2 = (match o.side with
        | Side.Bid => OrderBook.mk (queueEraseLevel b.bids o.price idx) b.asks
            (b.orders.removeAt idx) (alRemove b.by_id id)
        | Side.Ask => OrderBook.mk b.bids (queueEraseLevel b.asks o.price idx)
            (b.orders.removeAt idx) (alRemove b.by_id id)) := by
      rw [hcancel]
      cases o.side
      · show removeOrder { b with bids := queueEraseLevel b.bids o.price idx } id = _
        unfold removeOrder
        show (match alLookup b.by_id id with
          | some idx2 => { { b with bids := queueEraseLevel b.bids o.price idx } with
              by_id := alRemove b.by_id id, orders := b.orders.removeAt idx2 }
          | none => { b with bids := queueEraseLevel b.bids o.price idx }) = _
        rw [hl]
      · show removeOrder { b with asks := queueEraseLevel b.asks o.price idx } id = _
        unfold removeOrder
        show (match alLookup b.by_id id with
          | some idx2 => { { b with asks := queueEraseLevel b.asks o.price idx } with
              by_id := alRemove b.by_id id, orders := b.orders.removeAt idx2 }
          | none => { b with asks := queueEraseLevel b.asks o.price idx }) = _
        rw [hl]
    have hcbo : (b.cancel id).2.orders = b.orders.removeAt idx := by
      rw [hcb]
      cases o.side <;> rfl
    have hcbid : (b.cancel id).2.by_id = alRemove b.by_id id := by
      rw [hcb]
      cases o.side <;> rfl
    have hflt : ∀ j ∈ (b.cancel id).2.orders.free, j < (b.cancel id).2.orders.entries.length := by
      rw [hcbo]
      intro j hj
      rw [Slab.removeAt_free] at hj
      rw [Slab.removeAt_length]
      rcases List.mem_cons.mp hj with h | h
      · rw [h]; exact hlt_idx
      · exact hwf.freeLt j h
    have hfvac : ∀ j ∈ (b.cancel id).2.orders.free, (b.cancel id).2.orders.getO j = none := by
      rw [hcbo]
      intro j hj
      rw [Slab.removeAt_free] at hj
      rcases List.mem_cons.mp hj with h | h
      · rw [h]; exact Slab.getO_removeAt_self _ _
      · have hne : j ≠ idx := by
          intro hc
          rw [hc] at h
          rw [hwf.freeVacant idx h] at ho
          cases ho
        rw [Slab.getO_removeAt_ne _ _ _ hne]
        exact hwf.freeVacant j h
    refine ⟨hmod, rfl, rfl, rfl, ?_, ?_, ?_, ?_, ?_, ?_, ?_, ?_, ?_, ?_⟩
    · intro h; rw [modOrder, h]; rfl
    · intro h; rw [modOrder, h]; exact ⟨rfl, rfl⟩
    · intro q h; rw [modOrder, h]; exact ⟨rfl, rfl⟩
    · intro hsd
      rw [hmod, addToBook_asks_of_bid _ _ (hmos.trans hsd), hcb, hsd]
    · intro hsd
      rw [hmod, addToBook_bids_of_ask _ _ (hmos.trans hsd), hcb, hsd]
    · exact Slab.insert_fresh_none _ _ hfvac
    · rw [hmod, addToBook_orders]
      exact Slab.getO_insert_self _ _ hflt
    · rw [hmod, addToBook_by_id, hmoid, hoid]
      exact alLookup_alInsert_self _ _ _
    · intro hsd
      rw [hmod, addToBook_bids_of_bid _ _ (hmos.trans hsd)]
      apply alLookup_levelPush_self
      rw [hcb, hsd]
      exact keysSorted_queueEraseLevel _ _ _ hwf.bidsWF.sorted
    · intro hsd
      rw [hmod, addToBook_asks_of_ask _ _ (hmos.trans hsd)]
      apply alLookup_levelPush_self
      rw [hcb, hsd]
      exact keysSorted_queueEraseLevel _ _ _ hwf.asksWF.sorted

/-- Witness book for C7: one resting bid, id 9, user 2, price 100·P, qty 5·P. -/
def c7Book : OrderBook :=
  ⟨[(10000000000, [0])], [],
    ⟨[some ⟨9, 2, Side.Bid, 10000000000, 500000000, 500000000, OrderType.Limit⟩], []⟩,
    [(9, 0)]⟩

theorem claim_C7_witness :
    c7Book.modify 10 none none = c7Book ∧
    c7Book.modify 9 none none =
      addToBook (c7Book.cancel 9).2
        (modOrder ⟨9, 2, Side.Bid, 10000000000, 500000000, 500000000, OrderType.Limit⟩
          none none) := by
  have h := claim_C7_modify c7Book 9 none none (by decide)
  have h10 := claim_C7_modify c7Book 10 none none (by decide)
  exact ⟨h10.1 (by decide),
    (h.2 0 ⟨9, 2, Side.Bid, 10000000000, 500000000, 500000000, OrderType.Limit⟩
      (by decide) (by decide)).1⟩

/-! ### Quantity accounting in the queue and level walks -/

theorem matchQueue_rem_le_sum (incoming : Order) (p : Nat) :
    ∀ (queue : List Nat) (arena : Slab) (rem : Nat),
    (matchQueue arena incoming rem p queue).rem ≤ rem ∧
    ((matchQueue arena incoming rem p queue).fills.map Fill.qty).sum =
      rem - (matchQueue arena incoming rem p queue).rem := by
  intro queue
  induction queue with
  | nil => intro arena rem; simp [matchQueue]
  | cons idx rest ih =>
    intro arena rem
    by_cases h0 : rem = 0
    · simp [matchQueue, if_pos h0]
    · by_cases hstp : incoming.user_id = ((arena.getO idx).getD dummyOrder).user_id
      · simp only [matchQueue, if_neg h0, if_pos hstp]
        exact ih arena rem
      · simp only [matchQueue, if_neg h0, if_neg hstp]
        have hle : min rem ((arena.getO idx).getD dummyOrder).remaining ≤ rem :=
          Nat.min_le_left _ _
        have h2 := ih (arena.setEntry idx
            { (arena.getO idx).getD dummyOrder with
                remaining := ((arena.getO idx).getD dummyOrder).remaining -
                  min rem ((arena.getO idx).getD dummyOrder).remaining })
            (rem - min rem ((arena.getO idx).getD dummyOrder).remaining)
        dsimp only at h2
        split
        · dsimp only
          simp only [List.map_cons, List.sum_cons]
          omega
        · dsimp only
          simp only [List.map_cons, List.sum_cons]
          omega

theorem matchQueue_arena_frame (incoming : Order) (p : Nat) :
    ∀ (queue : List Nat) (arena : Slab) (rem : Nat),
    (matchQueue arena incoming rem p queue).arena.free = arena.free ∧
    (matchQueue arena incoming rem p queue).arena.entries.length = arena.entries.length ∧
    (∀ j, j ∉ queue → (matchQueue arena incoming rem p queue).arena.getO j = arena.getO j) := by
  intro queue
  induction queue with
  | nil => intro arena rem; exact ⟨rfl, rfl, fun j _ => rfl⟩
  | cons idx rest ih =>
    intro arena rem
    by_cases h0 : rem = 0
    · simp [matchQueue, if_pos h0]
    · by_cases hstp : incoming.user_id = ((arena.getO idx).getD dummyOrder).user_id
      · simp only [matchQueue, if_neg h0, if_pos hstp]
        obtain ⟨h1, h2, h3⟩ := ih arena rem
        refine ⟨h1, h2, ?_⟩
        intro j hj
        simp only [List.mem_cons, not_or] at hj
        exact h3 j hj.2
      · simp only [matchQueue, if_neg h0, if_neg hstp]
        have h2 := ih (arena.setEntry idx
            { (arena.getO idx).getD dummyOrder with
                remaining := ((arena.getO idx).getD dummyOrder).remaining -
                  min rem ((arena.getO idx).getD dummyOrder).remaining })
            (rem - min rem ((arena.getO idx).getD dummyOrder).remaining)
        dsimp only at h2
        split
        · dsimp only
          refine ⟨h2.1, ?_, ?_⟩
          · rw [h2.2.1]
            exact Slab.setEntry_length _ _ _
          · intro j hj
            simp only [List.mem_cons, not_or] at hj
            rw [h2.2.2 j hj.2]
            exact Slab.getO_setEntry_ne _ _ _ _ hj.1
        · dsimp only
          refine ⟨h2.1, ?_, ?_⟩
          · rw [h2.2.1]
            exact Slab.setEntry_length _ _ _
          · intro j hj
            simp only [List.mem_cons, not_or] at hj
            rw [h2.2.2 j hj.2]
            exact Slab.getO_setEntry_ne _ _ _ _ hj.1

theorem matchQueue_rem_noSTP (incoming : Order) (p : Nat) :
    ∀ (queue : List Nat) (arena : Slab) (rem : Nat), queue.Nodup →
    (∀ j ∈ queue, ((arena.getO j).getD dummyOrder).user_id ≠ incoming.user_id) →
    (matchQueue arena incoming rem p queue).rem =
      rem - (queue.map (fun j => ((arena.getO j).getD dummyOrder).remaining)).sum := by
  intro queue
  induction queue with
  | nil => intro arena rem _ _; simp [matchQueue]
  | cons idx rest ih =>
    intro arena rem hnd hns
    simp only [List.nodup_cons] at hnd
    by_cases h0 : rem = 0
    · simp [matchQueue, if_pos h0, h0]
    · by_cases hstp : incoming.user_id = ((arena.getO idx).getD dummyOrder).user_id
      · exact absurd hstp.symm (hns idx (List.mem_cons_self idx rest))
      · simp only [matchQueue, if_neg h0, if_neg hstp]
        have hmapeq : rest.map (fun j =>
            (((arena.setEntry idx
              { (arena.getO idx).getD dummyOrder with
                  remaining := ((arena.getO idx).getD dummyOrder).remaining -
                    min rem ((arena.getO idx).getD dummyOrder).remaining }).getO j).getD
                dummyOrder).remaining) =
            rest.map (fun j => ((arena.getO j).getD dummyOrder).remaining) := by
          apply List.map_congr_left
          intro j hj
          have hne : j ≠ idx := by
            intro hc
            rw [hc] at hj
            exact hnd.1 hj
          rw [Slab.getO_setEntry_ne _ _ _ _ hne]
        have h2 := ih (arena.setEntry idx
            { (arena.getO idx).getD dummyOrder with
                remaining := ((arena.getO idx).getD dummyOrder).remaining -
                  min rem ((arena.getO idx).getD dummyOrder).remaining })
            (rem - min rem ((arena.getO idx).getD dummyOrder).remaining)
            hnd.2 (by
              intro j hj
              have hne : j ≠ idx := by
                intro hc
                rw [hc] at hj
                exact hnd.1 hj
              rw [Slab.getO_setEntry_ne _ _ _ _ hne]
              exact hns j (List.mem_cons_of_mem idx hj))
        rw [hmapeq] at h2
        dsimp only at h2
        split
        · dsimp only
          simp only [List.map_cons, List.sum_cons]
          omega
        · dsimp only
          simp only [List.map_cons, List.sum_cons]
          omega

theorem sideHandles_cons (p : Nat) (q : List Nat) (t : List (Nat × List Nat)) :
    sideHandles ((p, q) :: t) = q ++ sideHandles t := by
  simp [sideHandles]

theorem canFullMatchLevels_congr (g : Nat → Bool) :
    ∀ (ls : List (Nat × List Nat)) (a a' : Slab) (rem : Nat),
    (∀ pq ∈ ls, ∀ j ∈ pq.2, a'.getO j = a.getO j) →
    canFullMatchLevels g a' rem ls = canFullMatchLevels g a rem ls := by
  intro ls
  induction ls with
  | nil => intro a a' rem _; rfl
  | cons pq t ih =>
    intro a a' rem hco
    rcases pq with ⟨p, q⟩
    have hlq : levelQty a' q = levelQty a q := by
      unfold levelQty
      rw [List.map_congr_left (fun j hj => by
        rw [hco (p, q) (List.mem_cons_self _ _) j hj])]
    simp only [canFullMatchLevels, hlq]
    split
    · rfl
    · split
      · rfl
      · exact ih a a' _ (fun pq2 hpq2 j hj => hco pq2 (List.mem_cons_of_mem _ hpq2) j hj)

theorem canFullMatchLevels_mono (g : Nat → Bool) :
    ∀ (ls : List (Nat × List Nat)) (a : Slab) (r r' : Nat), r' ≤ r →
    canFullMatchLevels g a r ls = true → canFullMatchLevels g a r' ls = true := by
  intro ls
  induction ls with
  | nil => intro a r r' _ hc; simp [canFullMatchLevels] at hc
  | cons pq t ih =>
    intro a r r' hle hc
    rcases pq with ⟨p, q⟩
    simp only [canFullMatchLevels] at hc ⊢
    by_cases hg : g p = true
    · rw [if_pos hg] at hc
      cases hc
    · rw [if_neg hg] at hc ⊢
      by_cases h1 : r' - levelQty a q = 0
      · rw [if_pos h1]
      · rw [if_neg h1]
        by_cases h2 : r - levelQty a q = 0
        · omega
        · rw [if_neg h2] at hc
          exact ih a _ _ (Nat.sub_le_sub_right hle _) hc

theorem matchLevels_rem_le_sum (incoming : Order) (g : Nat → Bool) :
    ∀ (levels : List (Nat × List Nat)) (arena : Slab) (rem : Nat),
    (matchLevels incoming g arena rem levels).rem ≤ rem ∧
    ((matchLevels incoming g arena rem levels).fills.map Fill.qty).sum =
      rem - (matchLevels incoming g arena rem levels).rem := by
  intro levels
  induction levels with
  | nil => intro arena rem; simp [matchLevels]
  | cons pq t ih =>
    intro arena rem
    rcases pq with ⟨p, q⟩
    by_cases h0 : rem = 0
    · simp [matchLevels, if_pos h0]
    · by_cases hg : g p = true
      · simp [matchLevels, if_neg h0, if_pos hg]
      · simp only [matchLevels, if_neg h0, if_neg hg]
        have hq := matchQueue_rem_le_sum incoming p q arena rem
        have hr := ih (matchQueue arena incoming rem p q).arena
          (matchQueue arena incoming rem p q).rem
        simp only [List.map_append, List.sum_append]
        omega

theorem matchLevels_rem_zero_of_canFull (incoming : Order) (g : Nat → Bool) :
    ∀ (levels : List (Nat × List Nat)) (arena : Slab) (rem : Nat),
    (sideHandles levels).Nodup →
    (∀ pq ∈ levels, ∀ j ∈ pq.2, ((arena.getO j).getD dummyOrder).user_id ≠ incoming.user_id) →
    canFullMatchLevels g arena rem levels = true →
    (matchLevels incoming g arena rem levels).rem = 0 := by
  intro levels
  induction levels with
  | nil => intro arena rem _ _ hc; simp [canFullMatchLevels] at hc
  | cons pq t ih =>
    intro arena rem hnd hns hc
    rcases pq with ⟨p, q⟩
    by_cases h0 : rem = 0
    · simp only [matchLevels, if_pos h0]
      exact h0
    · by_cases hg : g p = true
      · simp only [canFullMatchLevels, if_pos hg] at hc
        cases hc
      · simp only [canFullMatchLevels, if_neg hg] at hc
        simp only [matchLevels, if_neg h0, if_neg hg]
        rw [sideHandles_cons, List.nodup_append] at hnd
        obtain ⟨hqnd, htnd, hdisj⟩ := hnd
        have hq0 := matchQueue_rem_noSTP incoming p q arena rem hqnd
          (fun j hj => hns (p, q) (List.mem_cons_self _ _) j hj)
        have hframe := (matchQueue_arena_frame incoming p q arena rem).2.2
        have hlq : levelQty arena q ≤
            (q.map (fun j => ((arena.getO j).getD dummyOrder).remaining)).sum := by
          unfold levelQty
          exact Nat.mod_le _ _
        by_cases h1 : rem - levelQty arena q = 0
        · have hz : (matchQueue arena incoming rem p q).rem = 0 := by
            rw [hq0]; omega
          have hle := (matchLevels_rem_le_sum incoming g t
            (matchQueue arena incoming rem p q).arena (matchQueue arena incoming rem p q).rem).1
          omega
        · rw [if_neg h1] at hc
          have hcongr := canFullMatchLevels_congr g t arena
            (matchQueue arena incoming rem p q).arena (rem - levelQty arena q) (by
              intro pq2 hpq2 j hj
              apply hframe
              intro hjq
              exact hdisj hjq ((mem_sideHandles t j).mpr ⟨pq2, hpq2, hj⟩))
          have hq_le : (matchQueue arena incoming rem p q).rem ≤ rem - levelQty arena q := by
            rw [hq0]; omega
          have hc2 : canFullMatchLevels g (matchQueue arena incoming rem p q).arena
              (matchQueue arena incoming rem p q).rem t = true :=
            canFullMatchLevels_mono g t _ _ _ hq_le (by rw [hcongr]; exact hc)
          exact ih (matchQueue arena incoming rem p q).arena
            (matchQueue arena incoming rem p q).rem htnd (by
              intro pq2 hpq2 j hj
              rw [hframe j (fun hjq => hdisj hjq ((mem_sideHandles t j).mpr ⟨pq2, hpq2, hj⟩))]
              exact hns pq2 (List.mem_cons_of_mem _ hpq2) j hj) hc2

theorem matchOrder_bid (b : OrderBook) (incoming : Order) (ip : Bool)
    (h : incoming.side = Side.Bid) :
    (matchOrder b incoming ip).2.1 =
      (matchLevels incoming (fun bp => !ip && decide (incoming.price < bp))
        b.orders incoming.remaining b.asks).rem ∧
    (matchOrder b incoming ip).2.2 =
      (matchLevels incoming (fun bp => !ip && decide (incoming.price < bp))
        b.orders incoming.remaining b.asks).fills := by
  unfold matchOrder
  rw [h]
  exact ⟨rfl, rfl⟩

theorem matchOrder_ask (b : OrderBook) (incoming : Order) (ip : Bool)
    (h : incoming.side = Side.Ask) :
    (matchOrder b incoming ip).2.1 =
      (matchLevels incoming (fun bp => !ip && decide (bp < incoming.price))
        b.orders incoming.remaining b.bids.reverse).rem ∧
    (matchOrder b incoming ip).2.2 =
      (matchLevels incoming (fun bp => !ip && decide (bp < incoming.price))
        b.orders incoming.remaining b.bids.reverse).fills := by
  unfold matchOrder
  rw [h]
  exact ⟨rfl, rfl⟩

theorem guard_noignore_bid (incoming : Order) :
    (fun bp => !false && decide (incoming.price < bp)) =
      (fun p => decide (incoming.price < p)) := by
  funext bp
  simp

theorem guard_noignore_ask (incoming : Order) :
    (fun bp => !false && decide (bp < incoming.price)) =
      (fun p => decide (p < incoming.price)) := by
  funext bp
  simp

theorem sideHandles_append (l1 l2 : List (Nat × List Nat)) :
    sideHandles (l1 ++ l2) = sideHandles l1 ++ sideHandles l2 := by
  simp [sideHandles]

theorem sideHandles_reverse_perm (m : List (Nat × List Nat)) :
    (sideHandles m.reverse).Perm (sideHandles m) := by
  induction m with
  | nil => exact List.Perm.refl _
  | cons pq t ih =>
    rcases pq with ⟨p, q⟩
    rw [List.reverse_cons, sideHandles_append, sideHandles_cons]
    have h1 : (sideHandles t.reverse ++ sideHandles [(p, q)]).Perm
        (sideHandles [(p, q)] ++ sideHandles t.reverse) := List.perm_append_comm
    refine h1.trans ?_
    have h2 : sideHandles [(p, q)] = q := by simp [sideHandles]
    rw [h2]
    exact List.Perm.append_left q ih

/-- The side map a taker walks: `asks` for a Bid taker, `bids` for an Ask
taker. -/
def oppositeLevels (b : OrderBook) (side : Side) : List (Nat × List Nat) :=
  match side with
  | Side.Bid => b.asks
  | Side.Ask => b.bids

instance exceptDecidableEq {e a : Type} [DecidableEq e] [DecidableEq a] :
    DecidableEq (Except e a)
  | Except.error x, Except.error y =>
    if h : x = y then isTrue (by rw [h]) else
      isFalse (by intro hc; injection hc with h2; exact h h2)
  | Except.error x, Except.ok y => isFalse (by intro hc; cases hc)
  | Except.ok x, Except.error y => isFalse (by intro hc; cases hc)
  | Except.ok x, Except.ok y =>
    if h : x = y then isTrue (by rw [h]) else
      isFalse (by intro hc; injection hc with h2; exact h h2)

/-- C2: for an FOK submission that passes validation and the risk gate, the
Limit-style match runs if and only if the `can_full_match` pre-scan accepts;
on pre-scan failure no fills are emitted and the book is unchanged; and on
pre-scan success in a well-formed book whose opposite side holds no order of
the taker's user (the STP pre-scan caveat), the emitted fills total exactly
`qty`. -/
theorem claim_C2_fok (b : OrderBook) (r : RiskEngine) (id user_id : Nat) (side : Side)
    (price qty : Nat) (hv : ¬ badPriceQty price qty)
    (hp : checkPositionLimit r user_id qty = false)
    (hr : (checkRateLimit r user_id).1 = false) :
    (canFullMatch b (mkOrder id user_id OrderType.FOK side price qty) = false →
      (b.submit id user_id OrderType.FOK side price qty r).1 = Except.ok [] ∧
      (b.submit id user_id OrderType.FOK side price qty r).2.1 = b) ∧
    (canFullMatch b (mkOrder id user_id OrderType.FOK side price qty) = true →
      (b.submit id user_id OrderType.FOK side price qty r).1 =
        Except.ok (matchOrder b (mkOrder id user_id OrderType.FOK side price qty) false).2.2 ∧
      (b.submit id user_id OrderType.FOK side price qty r).2.1 =
        (matchOrder b (mkOrder id user_id OrderType.FOK side price qty) false).1) ∧
    (canFullMatch b (mkOrder id user_id OrderType.FOK side price qty) = true → WF b →
      (∀ pq ∈ oppositeLevels b side, ∀ j ∈ pq.2,
        ((b.orders.getO j).getD dummyOrder).user_id ≠ user_id) →
      ∀ fills, (b.submit id user_id OrderType.FOK side price qty r).1 = Except.ok fills →
        (fills.map Fill.qty).sum = qty) := by
  have hsub := submit_fok b r id user_id side price qty hv hp hr
  refine ⟨?_, ?_, ?_⟩
  · intro hc
    rw [hsub, if_neg (by rw [hc]; exact Bool.false_ne_true)]
    exact ⟨rfl, rfl⟩
  · intro hc
    rw [hsub, if_pos hc]
    exact ⟨rfl, rfl⟩
  · intro hc hwf hns fills hfills
    rw [hsub, if_pos hc] at hfills
    injection hfills with hfills
    rw [← hfills]
    cases side with
    | Bid =>
      have hm := (matchOrder_bid b (mkOrder id user_id OrderType.FOK Side.Bid price qty)
        false rfl)
      rw [hm.2]
      have hsum := matchLevels_rem_le_sum (mkOrder id user_id OrderType.FOK Side.Bid price qty)
        (fun bp => !false &&
          decide ((mkOrder id user_id OrderType.FOK Side.Bid price qty).price < bp))
        b.asks b.orders (mkOrder id user_id OrderType.FOK Side.Bid price qty).remaining
      have hzero : (matchLevels (mkOrder id user_id OrderType.FOK Side.Bid price qty)
          (fun bp => !false &&
            decide ((mkOrder id user_id OrderType.FOK Side.Bid price qty).price < bp))
          b.orders (mkOrder id user_id OrderType.FOK Side.Bid price qty).remaining
          b.asks).rem = 0 := by
        apply matchLevels_rem_zero_of_canFull
        · have := hwf.handlesNodup
          rw [bookHandles, List.nodup_append] at this
          exact this.2.1
        · exact hns
        · rw [guard_noignore_bid]
          exact hc
      exact hsum.2.trans (by rw [hzero]; exact Nat.sub_zero _)
    | Ask =>
      have hm := (matchOrder_ask b (mkOrder id user_id OrderType.FOK Side.Ask price qty)
        false rfl)
      rw [hm.2]
      have hsum := matchLevels_rem_le_sum (mkOrder id user_id OrderType.FOK Side.Ask price qty)
        (fun bp => !false &&
          decide (bp < (mkOrder id user_id OrderType.FOK Side.Ask price qty).price))
        b.bids.reverse b.orders (mkOrder id user_id OrderType.FOK Side.Ask price qty).remaining
      have hzero : (matchLevels (mkOrder id user_id OrderType.FOK Side.Ask price qty)
          (fun bp => !false &&
            decide (bp < (mkOrder id user_id OrderType.FOK Side.Ask price qty).price))
          b.orders (mkOrder id user_id OrderType.FOK Side.Ask price qty).remaining
          b.bids.reverse).rem = 0 := by
        apply matchLevels_rem_zero_of_canFull
        · have h1 := hwf.handlesNodup
          rw [bookHandles, List.nodup_append] at h1
          exact ((sideHandles_reverse_perm b.bids).nodup_iff).mpr h1.1
        · intro pq hpq j hj
          exact hns pq (List.mem_reverse.mp hpq) j hj
        · rw [guard_noignore_ask]
          exact hc
      exact hsum.2.trans (by rw [hzero]; exact Nat.sub_zero _)

theorem claim_C2_witness :
    (c5Book.submit 2 5 OrderType.FOK Side.Bid 10000000000 300000000 ⟨[], []⟩).1 =
        Except.ok [] ∧
    (c5Book.submit 2 5 OrderType.FOK Side.Bid 10000000000 300000000 ⟨[], []⟩).2.1 = c5Book ∧
    (([⟨1, 2, 10000000000, 100000000⟩] : List Fill).map Fill.qty).sum = 100000000 := by
  have hfail := (claim_C2_fok c5Book ⟨[], []⟩ 2 5 Side.Bid 10000000000 300000000
    (by decide) (by decide) (by decide)).1 (by decide)
  have hfull := (claim_C2_fok c5Book ⟨[], []⟩ 2 5 Side.Bid 10000000000 100000000
    (by decide) (by decide) (by decide)).2.2 (by decide) (by decide) (by decide)
    [⟨1, 2, 10000000000, 100000000⟩] (by decide)
  exact ⟨hfail.1, hfail.2, hfull⟩

/-- The side map an order rests on. -/
def sideLevels (b : OrderBook) (s : Side) : List (Nat × List Nat) :=
  match s with
  | Side.Bid => b.bids
  | Side.Ask => b.asks

theorem removeFirst_append_self (q0 : List Nat) (i : Nat) (h : i ∉ q0) :
    removeFirst (q0 ++ [i]) i = q0 := by
  induction q0 with
  | nil => simp [removeFirst]
  | cons x t ih =>
    simp only [List.mem_cons, not_or] at h
    simp only [List.cons_append, removeFirst, if_neg (Ne.symm h.1)]
    exact congrArg (List.cons x) (ih h.2)

theorem matchLevels_guard_all (incoming : Order) (g : Nat → Bool) :
    ∀ (levels : List (Nat × List Nat)) (arena : Slab) (rem : Nat),
    (∀ pq ∈ levels, g pq.1 = true) →
    matchLevels incoming g arena rem levels = ⟨arena, rem, [], levels, [], []⟩ := by
  intro levels
  cases levels with
  | nil => intro arena rem _; rfl
  | cons pq t =>
    intro arena rem hg
    rcases pq with ⟨p, q⟩
    by_cases h0 : rem = 0
    · simp only [matchLevels, if_pos h0]
    · simp only [matchLevels, if_neg h0,
        if_pos (hg (p, q) (List.mem_cons_self _ _))]

theorem matchOrder_no_accept (b : OrderBook) (incoming : Order)
    (hg : ∀ pq ∈ oppositeLevels b incoming.side,
      (match incoming.side with
       | Side.Bid => incoming.price < pq.1
       | Side.Ask => pq.1 < incoming.price)) :
    matchOrder b incoming false = (b, incoming.remaining, []) := by
  cases hs : incoming.side with
  | Bid =>
    unfold matchOrder
    rw [hs]
    rw [matchLevels_guard_all incoming _ b.asks b.orders incoming.remaining (by
      intro pq hpq
      have h1 := hg pq (by rw [hs]; exact hpq)
      rw [hs] at h1
      have h2 : incoming.price < pq.1 := h1
      simp [h2])]
    rfl
  | Ask =>
    unfold matchOrder
    rw [hs]
    rw [matchLevels_guard_all incoming _ b.bids.reverse b.orders incoming.remaining (by
      intro pq hpq
      have h1 := hg pq (by rw [hs]; exact List.mem_reverse.mp hpq)
      rw [hs] at h1
      have h2 : pq.1 < incoming.price := h1
      simp [h2])]
    simp

theorem resting_location (b : OrderBook) (hwf : WF b) (id h : Nat) (o : Order)
    (hl : alLookup b.by_id id = some h) (ho : b.orders.getO h = some o) :
    ∃ q0, alLookup (sideLevels b o.side) o.price = some q0 ∧ h ∈ q0 := by
  obtain ⟨hmem, o2, ho2, -⟩ := hwf.byIdSound (id, h) (alLookup_mem _ _ _ hl)
  rw [bookHandles, List.mem_append] at hmem
  rcases hmem with hmem | hmem
  · obtain ⟨pq, hpq, hq⟩ := (mem_sideHandles _ _).mp hmem
    obtain ⟨o3, ho3, hside, hprice, -, -, -⟩ := hwf.bidsWF.resolve pq hpq h hq
    have he : o3 = o := by
      rw [ho] at ho3
      injection ho3 with he
      exact he.symm
    rw [he] at hside hprice
    refine ⟨pq.2, ?_, hq⟩
    rw [hside]
    show alLookup b.bids o.price = some pq.2
    rw [hprice]
    exact mem_alLookup b.bids pq.1 pq.2 (by simpa using hpq)
      (keysSorted_map_nodup _ hwf.bidsWF.sorted)
  · obtain ⟨pq, hpq, hq⟩ := (mem_sideHandles _ _).mp hmem
    obtain ⟨o3, ho3, hside, hprice, -, -, -⟩ := hwf.asksWF.resolve pq hpq h hq
    have he : o3 = o := by
      rw [ho] at ho3
      injection ho3 with he
      exact he.symm
    rw [he] at hside hprice
    refine ⟨pq.2, ?_, hq⟩
    rw [hside]
    show alLookup b.asks o.price = some pq.2
    rw [hprice]
    exact mem_alLookup b.asks pq.1 pq.2 (by simpa using hpq)
      (keysSorted_map_nodup _ hwf.asksWF.sorted)

theorem wf_sideLevels_sorted (b : OrderBook) (hwf : WF b) (s : Side) :
    keysSorted (sideLevels b s) := by
  cases s
  · exact hwf.bidsWF.sorted
  · exact hwf.asksWF.sorted

theorem addToBook_queue_lookup (b : OrderBook) (o : Order) (s0 : Side) (p0 : Nat)
    (q0 : List Nat) (hsorted : keysSorted (sideLevels b o.side))
    (hlk : alLookup (sideLevels b s0) p0 = some q0) :
    alLookup (sideLevels (addToBook b o) s0) p0 =
      some (if o.side = s0 ∧ o.price = p0 then q0 ++ [(b.orders.insert o).1] else q0) := by
  cases hside : o.side with
  | Bid =>
    have hsort' : keysSorted b.bids := by rw [hside] at hsorted; exact hsorted
    cases s0 with
    | Bid =>
      have hlk' : alLookup b.bids p0 = some q0 := hlk
      have hmap : sideLevels (addToBook b o) Side.Bid =
          levelPush b.bids o.price (b.orders.insert o).1 := addToBook_bids_of_bid b o hside
      rw [hmap]
      by_cases hp : o.price = p0
      · rw [← hp] at hlk' ⊢
        rw [alLookup_levelPush_self _ _ _ hsort', hlk', if_pos ⟨rfl, rfl⟩]
        rfl
      · rw [alLookup_levelPush_ne _ _ _ _ (fun hc => hp hc.symm), hlk',
          if_neg (fun hc => hp hc.2)]
    | Ask =>
      have hlk' : alLookup b.asks p0 = some q0 := hlk
      have hmap : sideLevels (addToBook b o) Side.Ask = b.asks := addToBook_asks_of_bid b o hside
      rw [hmap, hlk', if_neg (fun hc => absurd hc.1 (by decide))]
  | Ask =>
    have hsort' : keysSorted b.asks := by rw [hside] at hsorted; exact hsorted
    cases s0 with
    | Bid =>
      have hlk' : alLookup b.bids p0 = some q0 := hlk
      have hmap : sideLevels (addToBook b o) Side.Bid = b.bids := addToBook_bids_of_ask b o hside
      rw [hmap, hlk', if_neg (fun hc => absurd hc.1 (by decide))]
    | Ask =>
      have hlk' : alLookup b.asks p0 = some q0 := hlk
      have hmap : sideLevels (addToBook b o) Side.Ask =
          levelPush b.asks o.price (b.orders.insert o).1 := addToBook_asks_of_ask b o hside
      rw [hmap]
      by_cases hp : o.price = p0
      · rw [← hp] at hlk' ⊢
        rw [alLookup_levelPush_self _ _ _ hsort', hlk', if_pos ⟨rfl, rfl⟩]
        rfl
      · rw [alLookup_levelPush_ne _ _ _ _ (fun hc => hp hc.symm), hlk',
          if_neg (fun hc => hp hc.2)]

theorem cancel_found_orders (B : OrderBook) (cid cidx : Nat) (co : Order)
    (hl : alLookup B.by_id cid = some cidx) (ho : B.orders.getO cidx = some co) :
    (B.cancel cid).2.orders = B.orders.removeAt cidx := by
  rw [cancel_found B cid cidx co hl ho]
  cases hcs : co.side
  · show (removeOrder { B with bids := queueEraseLevel B.bids co.price cidx } cid).orders = _
    unfold removeOrder
    rw [show alLookup ({ B with bids := queueEraseLevel B.bids co.price cidx }
      : OrderBook).by_id cid = some cidx from hl]
  · show (removeOrder { B with asks := queueEraseLevel B.asks co.price cidx } cid).orders = _
    unfold removeOrder
    rw [show alLookup ({ B with asks := queueEraseLevel B.asks co.price cidx }
      : OrderBook).by_id cid = some cidx from hl]

theorem cancel_found_by_id (B : OrderBook) (cid cidx : Nat) (co : Order)
    (hl : alLookup B.by_id cid = some cidx) (ho : B.orders.getO cidx = some co) :
    (B.cancel cid).2.by_id = alRemove B.by_id cid := by
  rw [cancel_found B cid cidx co hl ho]
  cases hcs : co.side
  · show (removeOrder { B with bids := queueEraseLevel B.bids co.price cidx } cid).by_id = _
    unfold removeOrder
    rw [show alLookup ({ B with bids := queueEraseLevel B.bids co.price cidx }
      : OrderBook).by_id cid = some cidx from hl]
  · show (removeOrder { B with asks := queueEraseLevel B.asks co.price cidx } cid).by_id = _
    unfold removeOrder
    rw [show alLookup ({ B with asks := queueEraseLevel B.asks co.price cidx }
      : OrderBook).by_id cid = some cidx from hl]

theorem cancel_preserves_queue (B : OrderBook) (cid cidx : Nat) (co : Order)
    (hl : alLookup B.by_id cid = some cidx) (ho : B.orders.getO cidx = some co)
    (s0 : Side) (p0 h : Nat) (q : List Nat)
    (hlk : alLookup (sideLevels B s0) p0 = some q) (hmem : h ∈ q) (hne : h ≠ cidx) :
    ∃ q2, alLookup (sideLevels (B.cancel cid).2 s0) p0 = some q2 ∧ h ∈ q2 := by
  rw [cancel_found B cid cidx co hl ho]
  cases hcs : co.side with
  | Bid =>
    have hXbids : sideLevels (removeOrder { B with
        bids := queueEraseLevel B.bids co.price cidx } cid) Side.Bid =
        queueEraseLevel B.bids co.price cidx := by
      unfold removeOrder
      rw [show alLookup ({ B with bids := queueEraseLevel B.bids co.price cidx }
        : OrderBook).by_id cid = some cidx from hl]
      rfl
    have hXasks : sideLevels (removeOrder { B with
        bids := queueEraseLevel B.bids co.price cidx } cid) Side.Ask = B.asks := by
      unfold removeOrder
      rw [show alLookup ({ B with bids := queueEraseLevel B.bids co.price cidx }
        : OrderBook).by_id cid = some cidx from hl]
      rfl
    show ∃ q2, alLookup (sideLevels (removeOrder { B with
      bids := queueEraseLevel B.bids co.price cidx } cid) s0) p0 = some q2 ∧ h ∈ q2
    cases s0 with
    | Ask =>
      rw [hXasks]
      exact ⟨q, hlk, hmem⟩
    | Bid =>
      rw [hXbids]
      have hlk' : alLookup B.bids p0 = some q := hlk
      by_cases hpp : p0 = co.price
      · subst hpp
        refine ⟨removeFirst q cidx, ?_, mem_removeFirst_of_ne q cidx h hmem hne⟩
        have hie : (removeFirst q cidx).isEmpty = false := by
          cases hrf : removeFirst q cidx with
          | nil =>
            have hm2 := mem_removeFirst_of_ne q cidx h hmem hne
            rw [hrf] at hm2
            cases hm2
          | cons a t => rfl
        unfold queueEraseLevel
        rw [hlk']
        show alLookup (if (removeFirst q cidx).isEmpty = true then alRemove B.bids co.price
          else alInsert B.bids co.price (removeFirst q cidx)) co.price =
          some (removeFirst q cidx)
        rw [hie, if_neg Bool.false_ne_true]
        exact alLookup_alInsert_self _ _ _
      · rw [alLookup_queueEraseLevel_ne _ _ _ _ hpp]
        exact ⟨q, hlk', hmem⟩
  | Ask =>
    have hXasks : sideLevels (removeOrder { B with
        asks := queueEraseLevel B.asks co.price cidx } cid) Side.Ask =
        queueEraseLevel B.asks co.price cidx := by
      unfold removeOrder
      rw [show alLookup ({ B with asks := queueEraseLevel B.asks co.price cidx }
        : OrderBook).by_id cid = some cidx from hl]
      rfl
    have hXbids : sideLevels (removeOrder { B with
        asks := queueEraseLevel B.asks co.price cidx } cid) Side.Bid = B.bids := by
      unfold removeOrder
      rw [show alLookup ({ B with asks := queueEraseLevel B.asks co.price cidx }
        : OrderBook).by_id cid = some cidx from hl]
      rfl
    show ∃ q2, alLookup (sideLevels (removeOrder { B with
      asks := queueEraseLevel B.asks co.price cidx } cid) s0) p0 = some q2 ∧ h ∈ q2
    cases s0 with
    | Bid =>
      rw [hXbids]
      exact ⟨q, hlk, hmem⟩
    | Ask =>
      rw [hXasks]
      have hlk' : alLookup B.asks p0 = some q := hlk
      by_cases hpp : p0 = co.price
      · subst hpp
        refine ⟨removeFirst q cidx, ?_, mem_removeFirst_of_ne q cidx h hmem hne⟩
        have hie : (removeFirst q cidx).isEmpty = false := by
          cases hrf : removeFirst q cidx with
          | nil =>
            have hm2 := mem_removeFirst_of_ne q cidx h hmem hne
            rw [hrf] at hm2
            cases hm2
          | cons a t => rfl
        unfold queueEraseLevel
        rw [hlk']
        show alLookup (if (removeFirst q cidx).isEmpty = true then alRemove B.asks co.price
          else alInsert B.asks co.price (removeFirst q cidx)) co.price =
          some (removeFirst q cidx)
        rw [hie, if_neg Bool.false_ne_true]
        exact alLookup_alInsert_self _ _ _
      · rw [alLookup_queueEraseLevel_ne _ _ _ _ hpp]
        exact ⟨q, hlk', hmem⟩

/-- C10: `submit` never checks order-id uniqueness.  With an order of some id
resting (handle `hOld`, order `oOld`) in a well-formed book, a second valid
Limit submission reusing that id (here non-crossing, so it fully rests) is not
rejected; `add_to_book` overwrites `by_id[id]` with the fresh handle while the
earlier order stays in its price-level queue with its arena entry intact (so
it is still matchable and still counted in the L2 snapshot, which sums exactly
these queues); a subsequent `cancel(id)` removes only the newer order, after
which the earlier order is still resting but `by_id` has no entry for the id,
so a further `cancel(id)` is a no-op. -/
theorem claim_C10_duplicate_id (b : OrderBook) (r : RiskEngine) (id user_id hOld : Nat)
    (oOld : Order) (s : Side) (price qty : Nat)
    (hwf : WF b) (hlOld : alLookup b.by_id id = some hOld)
    (hoOld : b.orders.getO hOld = some oOld)
    (hv : ¬ badPriceQty price qty) (hq : 0 < qty)
    (hp : checkPositionLimit r user_id qty = false)
    (hr : (checkRateLimit r user_id).1 = false)
    (hnc : ∀ pq ∈ oppositeLevels b s,
      (match s with
       | Side.Bid => price < pq.1
       | Side.Ask => pq.1 < price)) :
    (b.submit id user_id OrderType.Limit s price qty r).1 = Except.ok [] ∧
    (b.submit id user_id OrderType.Limit s price qty r).2.1 =
      addToBook b (mkOrder id user_id OrderType.Limit s price qty) ∧
    (b.orders.insert (mkOrder id user_id OrderType.Limit s price qty)).1 ≠ hOld ∧
    alLookup (addToBook b (mkOrder id user_id OrderType.Limit s price qty)).by_id id =
      some (b.orders.insert (mkOrder id user_id OrderType.Limit s price qty)).1 ∧
    (addToBook b (mkOrder id user_id OrderType.Limit s price qty)).orders.getO hOld =
      some oOld ∧
    (∃ q', alLookup (sideLevels (addToBook b (mkOrder id user_id OrderType.Limit s price qty))
      oOld.side) oOld.price = some q' ∧ hOld ∈ q') ∧
    ((addToBook b (mkOrder id user_id OrderType.Limit s price qty)).cancel id).1 =
      some (mkOrder id user_id OrderType.Limit s price qty) ∧
    ((addToBook b (mkOrder id user_id OrderType.Limit s price qty)).cancel id).2.orders.getO
      hOld = some oOld ∧
    (∃ q', alLookup (sideLevels
      ((addToBook b (mkOrder id user_id OrderType.Limit s price qty)).cancel id).2
      oOld.side) oOld.price = some q' ∧ hOld ∈ q') ∧
    alLookup ((addToBook b (mkOrder id user_id OrderType.Limit s price qty)).cancel id).2.by_id
      id = none ∧
    ((addToBook b (mkOrder id user_id OrderType.Limit s price qty)).cancel id).2.cancel id =
      (none, ((addToBook b (mkOrder id user_id OrderType.Limit s price qty)).cancel id).2) := by
  have hmo : matchOrder b (mkOrder id user_id OrderType.Limit s price qty) false =
      (b, qty, []) := matchOrder_no_accept b _ hnc
  have hsub := submit_limit b r id user_id s price qty hv hp hr
  have hfills : (b.submit id user_id OrderType.Limit s price qty r).1 = Except.ok [] := by
    rw [hsub, hmo]
  have hnb : (b.submit id user_id OrderType.Limit s price qty r).2.1 =
      addToBook b (mkOrder id user_id OrderType.Limit s price qty) := by
    rw [hsub, hmo]
    dsimp only
    rw [if_pos hq]
    rfl
  have hfresh : b.orders.getO
      ((b.orders.insert (mkOrder id user_id OrderType.Limit s price qty)).1) = none :=
    Slab.insert_fresh_none _ _ hwf.freeVacant
  have hne : (b.orders.insert (mkOrder id user_id OrderType.Limit s price qty)).1 ≠ hOld := by
    intro hc
    rw [hc] at hfresh
    rw [hfresh] at hoOld
    cases hoOld
  have hbyid : (addToBook b (mkOrder id user_id OrderType.Limit s price qty)).by_id =
      alInsert b.by_id id
        (b.orders.insert (mkOrder id user_id OrderType.Limit s price qty)).1 :=
    addToBook_by_id b _
  have h2 : alLookup (addToBook b (mkOrder id user_id OrderType.Limit s price qty)).by_id id =
      some (b.orders.insert (mkOrder id user_id OrderType.Limit s price qty)).1 := by
    rw [hbyid]
    exact alLookup_alInsert_self _ _ _
  have h4 : (addToBook b (mkOrder id user_id OrderType.Limit s price qty)).orders.getO hOld =
      some oOld := by
    rw [addToBook_orders]
    rw [Slab.getO_insert_ne _ _ _ (Ne.symm hne)]
    exact hoOld
  obtain ⟨q0, hq0, hmemq0⟩ := resting_location b hwf id hOld oOld hlOld hoOld
  have hsorted : keysSorted (sideLevels b
      (mkOrder id user_id OrderType.Limit s price qty).side) :=
    wf_sideLevels_sorted b hwf s
  have h5look := addToBook_queue_lookup b (mkOrder id user_id OrderType.Limit s price qty)
    oOld.side oOld.price q0 hsorted hq0
  have h5 : ∃ q', alLookup (sideLevels
      (addToBook b (mkOrder id user_id OrderType.Limit s price qty)) oOld.side)
      oOld.price = some q' ∧ hOld ∈ q' := by
    refine ⟨_, h5look, ?_⟩
    by_cases hcond : (mkOrder id user_id OrderType.Limit s price qty).side = oOld.side ∧
        (mkOrder id user_id OrderType.Limit s price qty).price = oOld.price
    · rw [if_pos hcond]
      exact List.mem_append_left _ hmemq0
    · rw [if_neg hcond]
      exact hmemq0
  have hoNew : (addToBook b (mkOrder id user_id OrderType.Limit s price qty)).orders.getO
      (b.orders.insert (mkOrder id user_id OrderType.Limit s price qty)).1 =
      some (mkOrder id user_id OrderType.Limit s price qty) := by
    rw [addToBook_orders]
    exact Slab.getO_insert_self _ _ hwf.freeLt
  have h6 : ((addToBook b (mkOrder id user_id OrderType.Limit s price qty)).cancel id).1 =
      some (mkOrder id user_id OrderType.Limit s price qty) := by
    rw [cancel_found _ id _ _ h2 hoNew]
  have h7 : ((addToBook b (mkOrder id user_id OrderType.Limit s price qty)).cancel
      id).2.orders.getO hOld = some oOld := by
    rw [cancel_found_orders _ id _ _ h2 hoNew, Slab.getO_removeAt_ne _ _ _ (Ne.symm hne)]
    exact h4
  have h9 : alLookup ((addToBook b (mkOrder id user_id OrderType.Limit s price qty)).cancel
      id).2.by_id id = none := by
    rw [cancel_found_by_id _ id _ _ h2 hoNew, hbyid]
    exact alLookup_alRemove_self _ _ (alInsert_keys_nodup _ _ _ hwf.byIdKeys)
  obtain ⟨qn, hqn, hmemqn⟩ := h5
  have h8 := cancel_preserves_queue
    (addToBook b (mkOrder id user_id OrderType.Limit s price qty)) id
    (b.orders.insert (mkOrder id user_id OrderType.Limit s price qty)).1
    (mkOrder id user_id OrderType.Limit s price qty) h2 hoNew
    oOld.side oOld.price hOld qn hqn hmemqn (Ne.symm hne)
  exact ⟨hfills, hnb, hne, h2, h4, ⟨qn, hqn, hmemqn⟩, h6, h7, h8, h9,
    cancel_not_found _ _ h9⟩

theorem claim_C10_witness :
    (c5Book.submit 1 5 OrderType.Limit Side.Bid 5000000000 100000000 ⟨[], []⟩).1 =
      Except.ok [] ∧
    alLookup (addToBook c5Book
      (mkOrder 1 5 OrderType.Limit Side.Bid 5000000000 100000000)).by_id 1 = some 1 ∧
    alLookup ((addToBook c5Book
      (mkOrder 1 5 OrderType.Limit Side.Bid 5000000000 100000000)).cancel 1).2.by_id 1 =
      none := by
  have h := claim_C10_duplicate_id c5Book ⟨[], []⟩ 1 5 0
    ⟨1, 2, Side.Ask, 10000000000, 100000000, 100000000, OrderType.Limit⟩ Side.Bid
    5000000000 100000000 (by decide) (by decide) (by decide) (by decide) (by decide)
    (by decide) (by decide) (by decide)
  exact ⟨h.1, h.2.2.2.1, h.2.2.2.2.2.2.2.2.2.1⟩

/-- Counterexample book for C9: one ask level holding two resting orders of
9.3·10^18 units each (both quantities are valid `u64` multiples of
`PRECISION`), whose remaining quantities sum to 1.86·10^19 > 2^64 - 1. -/
def c9Book : OrderBook :=
  ⟨[], [(10000000000, [0, 1])],
    ⟨[some ⟨1, 2, Side.Ask, 10000000000, 9300000000000000000, 9300000000000000000,
        OrderType.Limit⟩,
      some ⟨2, 3, Side.Ask, 10000000000, 9300000000000000000, 9300000000000000000,
        OrderType.Limit⟩], []⟩,
    [(1, 0), (2, 1)]⟩

/-- C9 counterexample: `c9Book` is well formed and reachable from the empty
book by two valid Limit submissions, yet the L2 snapshot reports the `u64`
`sum()` of the level — which wraps at `2^64` — and not the arithmetic sum of
the resting remainders (1.86·10^19). -/
theorem claim_C9_counterexample :
    WF c9Book ∧
    (runOps (emptyBook, ⟨[], []⟩)
      [Op.submit 1 2 OrderType.Limit Side.Ask 10000000000 9300000000000000000,
       Op.submit 2 3 OrderType.Limit Side.Ask 10000000000 9300000000000000000]).1 = c9Book ∧
    (getL2Snapshot c9Book 1).2 = [(10000000000, 153255926290448384)] ∧
    (([0, 1].map (fun j => ((c9Book.orders.getO j).getD dummyOrder).remaining)).sum =
      18600000000000000000) ∧
    (153255926290448384 : Nat) ≠ 18600000000000000000 := by
  refine ⟨by decide, by decide, by decide, by decide, by decide⟩

/-- C9 (amended): `get_l2_snapshot` returns at most `depth` levels per side,
bids strictly decreasing from the best bid and asks strictly increasing from
the best ask, and each emitted level carries the `u64` `sum()` of `remaining`
over the level's queue of resting orders — i.e. the arithmetic sum reduced
modulo `2^64`, which equals the arithmetic sum whenever that sum fits in a
`u64`.  The snapshot is a pure function of the book and mutates nothing. -/
theorem claim_C9_l2_snapshot (b : OrderBook) (depth : Nat) (hwf : WF b) :
    (getL2Snapshot b depth).1.length ≤ depth ∧
    (getL2Snapshot b depth).2.length ≤ depth ∧
    (getL2Snapshot b depth).1.Pairwise (fun x y => y.1 < x.1) ∧
    (getL2Snapshot b depth).2.Pairwise (fun x y => x.1 < y.1) ∧
    (∀ pt ∈ (getL2Snapshot b depth).1, ∃ q, alLookup b.bids pt.1 = some q ∧
      pt.2 = (q.map (fun j => ((b.orders.getO j).getD dummyOrder).remaining)).sum % U64MOD) ∧
    (∀ pt ∈ (getL2Snapshot b depth).2, ∃ q, alLookup b.asks pt.1 = some q ∧
      pt.2 = (q.map (fun j => ((b.orders.getO j).getD dummyOrder).remaining)).sum % U64MOD) := by
  refine ⟨?_, ?_, ?_, ?_, ?_, ?_⟩
  · show ((b.bids.reverse.take depth).map _).length ≤ depth
    rw [List.length_map]
    exact List.length_take_le _ _
  · show ((b.asks.take depth).map _).length ≤ depth
    rw [List.length_map]
    exact List.length_take_le _ _
  · show ((b.bids.reverse.take depth).map _).Pairwise _
    rw [List.pairwise_map]
    have h1 : b.bids.reverse.Pairwise (fun x y => y.1 < x.1) := by
      rw [List.pairwise_reverse]
      exact hwf.bidsWF.sorted
    exact h1.sublist (List.take_sublist depth _)
  · show ((b.asks.take depth).map _).Pairwise _
    rw [List.pairwise_map]
    exact hwf.asksWF.sorted.sublist (List.take_sublist depth _)
  · intro pt hpt
    rcases List.mem_map.mp hpt with ⟨pq, hpq, hf⟩
    have hmem1 : pq ∈ b.bids.reverse := (List.take_sublist depth _).subset hpq
    have hmem : pq ∈ b.bids := List.mem_reverse.mp hmem1
    refine ⟨pq.2, ?_, ?_⟩
    · rw [← hf]
      exact mem_alLookup b.bids pq.1 pq.2 (by simpa using hmem)
        (keysSorted_map_nodup _ hwf.bidsWF.sorted)
    · rw [← hf]
      rfl
  · intro pt hpt
    rcases List.mem_map.mp hpt with ⟨pq, hpq, hf⟩
    have hmem : pq ∈ b.asks := (List.take_sublist depth _).subset hpq
    refine ⟨pq.2, ?_, ?_⟩
    · rw [← hf]
      exact mem_alLookup b.asks pq.1 pq.2 (by simpa using hmem)
        (keysSorted_map_nodup _ hwf.asksWF.sorted)
    · rw [← hf]
      rfl

theorem claim_C9_witness :
    (getL2Snapshot c5Book 2).2.length ≤ 2 ∧
    (getL2Snapshot c5Book 2).2.Pairwise (fun x y => x.1 < y.1) := by
  have h := claim_C9_l2_snapshot c5Book 2 (by decide)
  exact ⟨h.2.1, h.2.2.2.1⟩

/-! ### Structure of the queue walk -/

theorem matchQueue_queue_sublist (incoming : Order) (p : Nat) :
    ∀ (queue : List Nat) (arena : Slab) (rem : Nat),
    (matchQueue arena incoming rem p queue).queue.Sublist queue := by
  intro queue
  induction queue with
  | nil => intro arena rem; simp [matchQueue]
  | cons idx rest ih =>
    intro arena rem
    by_cases h0 : rem = 0
    · simp [matchQueue, if_pos h0]
    · by_cases hstp : incoming.user_id = ((arena.getO idx).getD dummyOrder).user_id
      · simp only [matchQueue, if_neg h0, if_pos hstp]
        exact (ih arena rem).cons₂ idx
      · simp only [matchQueue, if_neg h0, if_neg hstp]
        split
        · dsimp only
          exact (ih _ _).trans (List.sublist_cons_self idx rest)
        · dsimp only
          exact (ih _ _).cons₂ idx

theorem matchQueue_skip (incoming : Order) (p : Nat) :
    ∀ (queue : List Nat) (arena : Slab) (rem : Nat), queue.Nodup →
    ∀ j ∈ queue, ((arena.getO j).getD dummyOrder).user_id = incoming.user_id →
    j ∈ (matchQueue arena incoming rem p queue).queue ∧
    (matchQueue arena incoming rem p queue).arena.getO j = arena.getO j := by
  intro queue
  induction queue with
  | nil => intro arena rem _ j hj; cases hj
  | cons idx rest ih =>
    intro arena rem hnd j hj hu
    simp only [List.nodup_cons] at hnd
    by_cases h0 : rem = 0
    · simp only [matchQueue, if_pos h0]
      exact ⟨hj, by trivial⟩
    · by_cases hstp : incoming.user_id = ((arena.getO idx).getD dummyOrder).user_id
      · simp only [matchQueue, if_pos hstp, if_neg h0]
        rcases List.mem_cons.mp hj with hje | hjr
        · subst hje
          refine ⟨List.mem_cons_self _ _, ?_⟩
          exact (matchQueue_arena_frame incoming p rest arena rem).2.2 j hnd.1
        · obtain ⟨hin, hget⟩ := ih arena rem hnd.2 j hjr hu
          exact ⟨List.mem_cons_of_mem idx hin, hget⟩
      · simp only [matchQueue, if_neg h0, if_neg hstp]
        have hjne : j ≠ idx := by
          intro hc
          subst hc
          exact hstp hu.symm
        rcases List.mem_cons.mp hj with hje | hjr
        · exact absurd hje hjne
        · have hu' : (((arena.setEntry idx
              { (arena.getO idx).getD dummyOrder with
                  remaining := ((arena.getO idx).getD dummyOrder).remaining -
                    min rem ((arena.getO idx).getD dummyOrder).remaining }).getO j).getD
              dummyOrder).user_id = incoming.user_id := by
            rw [Slab.getO_setEntry_ne _ _ _ _ hjne]
            exact hu
          have h2 := ih (arena.setEntry idx
              { (arena.getO idx).getD dummyOrder with
                  remaining := ((arena.getO idx).getD dummyOrder).remaining -
                    min rem ((arena.getO idx).getD dummyOrder).remaining })
            (rem - min rem ((arena.getO idx).getD dummyOrder).remaining) hnd.2 j hjr hu'
          dsimp only at h2
          have hgj : (matchQueue (arena.setEntry idx
              { (arena.getO idx).getD dummyOrder with
                  remaining := ((arena.getO idx).getD dummyOrder).remaining -
                    min rem ((arena.getO idx).getD dummyOrder).remaining }) incoming
              (rem - min rem ((arena.getO idx).getD dummyOrder).remaining) p rest).arena.getO j
              = arena.getO j := by
            rw [h2.2]
            exact Slab.getO_setEntry_ne _ _ _ _ hjne
          split
          · dsimp only
            exact ⟨h2.1, hgj⟩
          · dsimp only
            exact ⟨List.mem_cons_of_mem idx h2.1, hgj⟩

theorem matchQueue_removed_src (incoming : Order) (p : Nat) :
    ∀ (queue : List Nat) (arena : Slab) (rem : Nat), queue.Nodup →
    ∀ rid ∈ (matchQueue arena incoming rem p queue).removed,
    ∃ jr ∈ queue, jr ∉ (matchQueue arena incoming rem p queue).queue ∧
      rid = ((arena.getO jr).getD dummyOrder).id := by
  intro queue
  induction queue with
  | nil => intro arena rem _ rid hrid; cases hrid
  | cons idx rest ih =>
    intro arena rem hnd rid hrid
    simp only [List.nodup_cons] at hnd
    by_cases h0 : rem = 0
    · simp only [matchQueue, if_pos h0] at hrid
      cases hrid
    · by_cases hstp : incoming.user_id = ((arena.getO idx).getD dummyOrder).user_id
      · simp only [matchQueue, if_pos hstp, if_neg h0] at hrid ⊢
        obtain ⟨jr, hjr, hnotin, hid⟩ := ih arena rem hnd.2 rid hrid
        refine ⟨jr, List.mem_cons_of_mem idx hjr, ?_, hid⟩
        intro hc
        rcases List.mem_cons.mp hc with hc | hc
        · rw [hc] at hjr
          exact hnd.1 hjr
        · exact hnotin hc
      · simp only [matchQueue, if_neg h0, if_neg hstp] at hrid ⊢
        have hframe : ∀ jr ∈ rest, ((arena.setEntry idx
            { (arena.getO idx).getD dummyOrder with
                remaining := ((arena.getO idx).getD dummyOrder).remaining -
                  min rem ((arena.getO idx).getD dummyOrder).remaining }).getO jr) =
            arena.getO jr := by
          intro jr hjr
          have : jr ≠ idx := by
            intro hc
            rw [hc] at hjr
            exact hnd.1 hjr
          exact Slab.getO_setEntry_ne _ _ _ _ this
        revert hrid
        split
        · dsimp only
          intro hrid
          rcases List.mem_cons.mp hrid with hre | hrr
          · refine ⟨idx, List.mem_cons_self _ _, ?_, hre⟩
            intro hc
            have hsub := matchQueue_queue_sublist incoming p rest
              (arena.setEntry idx
                { (arena.getO idx).getD dummyOrder with
                    remaining := ((arena.getO idx).getD dummyOrder).remaining -
                      min rem ((arena.getO idx).getD dummyOrder).remaining })
              (rem - min rem ((arena.getO idx).getD dummyOrder).remaining)
            exact hnd.1 (hsub.subset hc)
          · obtain ⟨jr, hjr, hnotin, hid⟩ := ih _ _ hnd.2 rid hrr
            refine ⟨jr, List.mem_cons_of_mem idx hjr, hnotin, ?_⟩
            rw [hid, hframe jr hjr]
        · dsimp only
          intro hrid
          obtain ⟨jr, hjr, hnotin, hid⟩ := ih _ _ hnd.2 rid hrid
          refine ⟨jr, List.mem_cons_of_mem idx hjr, ?_, ?_⟩
          · intro hc
            rcases List.mem_cons.mp hc with hc | hc
            · rw [hc] at hjr
              exact hnd.1 hjr
            · exact hnotin hc
          · rw [hid, hframe jr hjr]

theorem matchLevels_arena_frame (incoming : Order) (g : Nat → Bool) :
    ∀ (levels : List (Nat × List Nat)) (arena : Slab) (rem : Nat),
    (matchLevels incoming g arena rem levels).arena.free = arena.free ∧
    (matchLevels incoming g arena rem levels).arena.entries.length = arena.entries.length ∧
    ∀ j, j ∉ sideHandles levels →
      (matchLevels incoming g arena rem levels).arena.getO j = arena.getO j := by
  intro levels
  induction levels with
  | nil => intro arena rem; exact ⟨rfl, rfl, fun j _ => rfl⟩
  | cons pq t ih =>
    intro arena rem
    rcases pq with ⟨p, q⟩
    by_cases h0 : rem = 0
    · simp only [matchLevels, if_pos h0]
      simp
    · by_cases hg : g p = true
      · simp only [matchLevels, if_neg h0, if_pos hg]
        simp
      · simp only [matchLevels, if_neg h0, if_neg hg]
        obtain ⟨hqf, hql, hqg⟩ := matchQueue_arena_frame incoming p q arena rem
        obtain ⟨hrf, hrl, hrg⟩ := ih (matchQueue arena incoming rem p q).arena
          (matchQueue arena incoming rem p q).rem
        refine ⟨hrf.trans hqf, hrl.trans hql, ?_⟩
        intro j hj
        rw [sideHandles_cons, List.mem_append] at hj
        push_neg at hj
        rw [hrg j (by
          intro hc
          exact hj.2 hc)]
        exact hqg j hj.1

theorem matchLevels_levels_struct (incoming : Order) (g : Nat → Bool) :
    ∀ (levels : List (Nat × List Nat)) (arena : Slab) (rem : Nat),
    List.Forall₂ (fun a c => c.1 = a.1 ∧ c.2.Sublist a.2) levels
      (matchLevels incoming g arena rem levels).levels := by
  intro levels
  induction levels with
  | nil => intro arena rem; simp [matchLevels]
  | cons pq t ih =>
    intro arena rem
    rcases pq with ⟨p, q⟩
    by_cases h0 : rem = 0
    · simp only [matchLevels, if_pos h0]
      rw [List.forall₂_same]
      intro a _
      exact ⟨rfl, List.Sublist.refl _⟩
    · by_cases hg : g p = true
      · simp only [matchLevels, if_neg h0, if_pos hg]
        rw [List.forall₂_same]
        intro a _
        exact ⟨rfl, List.Sublist.refl _⟩
      · simp only [matchLevels, if_neg h0, if_neg hg]
        exact List.Forall₂.cons ⟨rfl, matchQueue_queue_sublist incoming p q arena rem⟩
          (ih _ _)

theorem forall2_struct_map_fst {l l' : List (Nat × List Nat)}
    (h : List.Forall₂ (fun a c => c.1 = a.1 ∧ c.2.Sublist a.2) l l') :
    l'.map Prod.fst = l.map Prod.fst := by
  induction h with
  | nil => rfl
  | cons hr _ ih => simp [ih, hr.1]

theorem forall2_struct_handles {l l' : List (Nat × List Nat)}
    (h : List.Forall₂ (fun a c => c.1 = a.1 ∧ c.2.Sublist a.2) l l') :
    ∀ j ∈ sideHandles l', j ∈ sideHandles l := by
  induction h with
  | nil => intro j hj; cases hj
  | @cons a c la lc hr _ ih =>
    intro j hj
    rcases a with ⟨pa, qa⟩
    rcases c with ⟨pc, qc⟩
    rw [sideHandles_cons] at hj ⊢
    rw [List.mem_append] at hj ⊢
    rcases hj with hj | hj
    · left
      exact hr.2.subset hj
    · right
      exact ih j hj

theorem keysNodup_mem_unique {β : Type} {m : List (Nat × β)} (hnd : (m.map Prod.fst).Nodup)
    {p : Nat} {a b : β} (ha : (p, a) ∈ m) (hb : (p, b) ∈ m) : a = b := by
  have h1 := mem_alLookup m p a ha hnd
  have h2 := mem_alLookup m p b hb hnd
  rw [h1] at h2
  injection h2 with h3

theorem matchLevels_clean_src (incoming : Order) (g : Nat → Bool) :
    ∀ (levels : List (Nat × List Nat)) (arena : Slab) (rem : Nat),
    ∀ p0 ∈ (matchLevels incoming g arena rem levels).clean,
    ∃ qc, (p0, qc) ∈ (matchLevels incoming g arena rem levels).levels ∧ qc.isEmpty = true := by
  intro levels
  induction levels with
  | nil => intro arena rem p0 hp0; cases hp0
  | cons pq t ih =>
    intro arena rem p0 hp0
    rcases pq with ⟨p, q⟩
    by_cases h0 : rem = 0
    · simp only [matchLevels, if_pos h0] at hp0
      cases hp0
    · by_cases hg : g p = true
      · simp only [matchLevels, if_neg h0, if_pos hg] at hp0
        cases hp0
      · simp only [matchLevels, if_neg h0, if_neg hg] at hp0 ⊢
        rw [List.mem_append] at hp0
        rcases hp0 with hp0 | hp0
        · by_cases he : (matchQueue arena incoming rem p q).queue.isEmpty = true
          · rw [if_pos he] at hp0
            rcases List.mem_cons.mp hp0 with hp0 | hp0
            · rw [hp0]
              exact ⟨(matchQueue arena incoming rem p q).queue,
                List.mem_cons_self _ _, he⟩
            · cases hp0
          · rw [if_neg he] at hp0
            cases hp0
        · obtain ⟨qc, hqc, hqce⟩ := ih (matchQueue arena incoming rem p q).arena
            (matchQueue arena incoming rem p q).rem p0 hp0
          exact ⟨qc, List.mem_cons_of_mem _ hqc, hqce⟩

theorem matchQueue_fills_src (incoming : Order) (p : Nat) :
    ∀ (queue : List Nat) (arena : Slab) (rem : Nat), queue.Nodup →
    ∀ f ∈ (matchQueue arena incoming rem p queue).fills,
    f.price = p ∧ f.taker_id = incoming.id ∧
    ∃ j ∈ queue, f.maker_id = ((arena.getO j).getD dummyOrder).id ∧
      ((arena.getO j).getD dummyOrder).user_id ≠ incoming.user_id := by
  intro queue
  induction queue with
  | nil => intro arena rem _ f hf; cases hf
  | cons idx rest ih =>
    intro arena rem hnd f hf
    simp only [List.nodup_cons] at hnd
    by_cases h0 : rem = 0
    · simp only [matchQueue, if_pos h0] at hf
      cases hf
    · by_cases hstp : incoming.user_id = ((arena.getO idx).getD dummyOrder).user_id
      · simp only [matchQueue, if_pos hstp, if_neg h0] at hf
        obtain ⟨hp, ht, j, hj, hmk, hus⟩ := ih arena rem hnd.2 f hf
        exact ⟨hp, ht, j, List.mem_cons_of_mem idx hj, hmk, hus⟩
      · simp only [matchQueue, if_neg h0, if_neg hstp] at hf
        have hframe : ∀ jr ∈ rest, ((arena.setEntry idx
            { (arena.getO idx).getD dummyOrder with
                remaining := ((arena.getO idx).getD dummyOrder).remaining -
                  min rem ((arena.getO idx).getD dummyOrder).remaining }).getO jr) =
            arena.getO jr := by
          intro jr hjr
          have : jr ≠ idx := by
            intro hc
            rw [hc] at hjr
            exact hnd.1 hjr
          exact Slab.getO_setEntry_ne _ _ _ _ this
        revert hf
        split
        all_goals
          dsimp only
          intro hf
          rcases List.mem_cons.mp hf with hfe | hfr
        · refine hfe ▸ ⟨rfl, rfl, idx, List.mem_cons_self _ _, rfl, Ne.symm hstp⟩
        · obtain ⟨hp, ht, j, hj, hmk, hus⟩ := ih _ _ hnd.2 f hfr
          rw [hframe j hj] at hmk hus
          exact ⟨hp, ht, j, List.mem_cons_of_mem idx hj, hmk, hus⟩
        · refine hfe ▸ ⟨rfl, rfl, idx, List.mem_cons_self _ _, rfl, Ne.symm hstp⟩
        · obtain ⟨hp, ht, j, hj, hmk, hus⟩ := ih _ _ hnd.2 f hfr
          rw [hframe j hj] at hmk hus
          exact ⟨hp, ht, j, List.mem_cons_of_mem idx hj, hmk, hus⟩

theorem matchLevels_fills_src (incoming : Order) (g : Nat → Bool) :
    ∀ (levels : List (Nat × List Nat)) (arena : Slab) (rem : Nat),
    (sideHandles levels).Nodup →
    ∀ f ∈ (matchLevels incoming g arena rem levels).fills,
    f.taker_id = incoming.id ∧ f.price ∈ levels.map Prod.fst ∧
    ∃ j ∈ sideHandles levels, f.maker_id = ((arena.getO j).getD dummyOrder).id ∧
      ((arena.getO j).getD dummyOrder).user_id ≠ incoming.user_id := by
  intro levels
  induction levels with
  | nil => intro arena rem _ f hf; cases hf
  | cons pq t ih =>
    intro arena rem hnd f hf
    rcases pq with ⟨p, q⟩
    rw [sideHandles_cons, List.nodup_append] at hnd
    obtain ⟨hndq, hndt, hdisj⟩ := hnd
    by_cases h0 : rem = 0
    · simp only [matchLevels, if_pos h0] at hf
      cases hf
    · by_cases hg : g p = true
      · simp only [matchLevels, if_neg h0, if_pos hg] at hf
        cases hf
      · simp only [matchLevels, if_neg h0, if_neg hg] at hf
        rw [List.mem_append] at hf
        rcases hf with hf | hf
        · obtain ⟨hp, ht, j, hj, hmk, hus⟩ :=
            matchQueue_fills_src incoming p q arena rem hndq f hf
          refine ⟨ht, ?_, j, ?_, hmk, hus⟩
          · rw [hp]
            exact List.mem_cons_self _ _
          · rw [sideHandles_cons, List.mem_append]
            exact Or.inl hj
        · obtain ⟨ht, hpk, j, hj, hmk, hus⟩ := ih (matchQueue arena incoming rem p q).arena
            (matchQueue arena incoming rem p q).rem hndt f hf
          have hjq : j ∉ q := fun hc => hdisj hc hj
          have hfr := (matchQueue_arena_frame incoming p q arena rem).2.2 j hjq
          rw [hfr] at hmk hus
          refine ⟨ht, List.mem_cons_of_mem _ hpk, j, ?_, hmk, hus⟩
          rw [sideHandles_cons, List.mem_append]
          exact Or.inr hj

theorem matchLevels_skip (incoming : Order) (g : Nat → Bool) :
    ∀ (levels : List (Nat × List Nat)) (arena : Slab) (rem : Nat),
    (sideHandles levels).Nodup →
    ∀ pq ∈ levels, ∀ j ∈ pq.2,
    ((arena.getO j).getD dummyOrder).user_id = incoming.user_id →
    (matchLevels incoming g arena rem levels).arena.getO j = arena.getO j ∧
    ∃ q', (pq.1, q') ∈ (matchLevels incoming g arena rem levels).levels ∧
      j ∈ q' ∧ q'.Sublist pq.2 := by
  intro levels
  induction levels with
  | nil => intro arena rem _ pq hpq; cases hpq
  | cons hd t ih =>
    intro arena rem hnd pq hpq j hj huser
    rcases hd with ⟨p0, q0⟩
    rw [sideHandles_cons, List.nodup_append] at hnd
    obtain ⟨hndq, hndt, hdisj⟩ := hnd
    by_cases h0 : rem = 0
    · simp only [matchLevels, if_pos h0]
      exact ⟨trivial, pq.2, by rw [← @Prod.mk.eta _ _ pq] at hpq; exact hpq,
        hj, List.Sublist.refl _⟩
    · by_cases hg : g p0 = true
      · simp only [matchLevels, if_neg h0, if_pos hg]
        exact ⟨trivial, pq.2, by rw [← @Prod.mk.eta _ _ pq] at hpq; exact hpq,
          hj, List.Sublist.refl _⟩
      · simp only [matchLevels, if_neg h0, if_neg hg]
        rcases List.mem_cons.mp hpq with hpe | hpt
        · have hjq0 : j ∈ q0 := by rw [hpe] at hj; exact hj
          obtain ⟨hqmem, hqarena⟩ :=
            matchQueue_skip incoming p0 q0 arena rem hndq j hjq0 huser
          have hjnt : j ∉ sideHandles t := fun hc => hdisj hjq0 hc
          have hfr := (matchLevels_arena_frame incoming g t
            (matchQueue arena incoming rem p0 q0).arena
            (matchQueue arena incoming rem p0 q0).rem).2.2 j hjnt
          refine ⟨hfr.trans hqarena, (matchQueue arena incoming rem p0 q0).queue, ?_, hqmem, ?_⟩
          · rw [hpe]
            exact List.mem_cons_self _ _
          · rw [hpe]
            exact matchQueue_queue_sublist incoming p0 q0 arena rem
        · have hjt : j ∈ sideHandles t := by
            rw [mem_sideHandles]
            exact ⟨pq, hpt, hj⟩
          have hjq0 : j ∉ q0 := fun hc => hdisj hc hjt
          have hqfr := (matchQueue_arena_frame incoming p0 q0 arena rem).2.2 j hjq0
          have huser' : (((matchQueue arena incoming rem p0 q0).arena.getO j).getD
              dummyOrder).user_id = incoming.user_id := by
            rw [hqfr]; exact huser
          obtain ⟨harena, q', hq'mem, hjq', hsub⟩ := ih
            (matchQueue arena incoming rem p0 q0).arena
            (matchQueue arena incoming rem p0 q0).rem hndt pq hpt j hj huser'
          exact ⟨harena.trans hqfr, q', List.mem_cons_of_mem _ hq'mem, hjq', hsub⟩

theorem matchLevels_removed_lift (incoming : Order) (g : Nat → Bool) :
    ∀ (levels : List (Nat × List Nat)) (arena : Slab) (rem : Nat),
    (sideHandles levels).Nodup →
    ∀ rid ∈ (matchLevels incoming g arena rem levels).removed,
    ∃ jr ∈ sideHandles levels,
      jr ∉ sideHandles (matchLevels incoming g arena rem levels).levels ∧
      rid = ((arena.getO jr).getD dummyOrder).id := by
  intro levels
  induction levels with
  | nil => intro arena rem _ rid hrid; cases hrid
  | cons hd t ih =>
    intro arena rem hnd rid hrid
    rcases hd with ⟨p0, q0⟩
    rw [sideHandles_cons, List.nodup_append] at hnd
    obtain ⟨hndq, hndt, hdisj⟩ := hnd
    by_cases h0 : rem = 0
    · simp only [matchLevels, if_pos h0] at hrid
      cases hrid
    · by_cases hg : g p0 = true
      · simp only [matchLevels, if_neg h0, if_pos hg] at hrid
        cases hrid
      · simp only [matchLevels, if_neg h0, if_neg hg] at hrid ⊢
        rw [List.mem_append] at hrid
        have hsubh := forall2_struct_handles (matchLevels_levels_struct incoming g t
          (matchQueue arena incoming rem p0 q0).arena
          (matchQueue arena incoming rem p0 q0).rem)
        rcases hrid with hrid | hrid
        · obtain ⟨jr, hjr, hnotin, hid⟩ :=
            matchQueue_removed_src incoming p0 q0 arena rem hndq rid hrid
          refine ⟨jr, ?_, ?_, hid⟩
          · rw [sideHandles_cons, List.mem_append]
            exact Or.inl hjr
          · rw [sideHandles_cons, List.mem_append]
            rintro (hc | hc)
            · exact hnotin hc
            · exact hdisj hjr (hsubh jr hc)
        · obtain ⟨jr, hjr, hnotin, hid⟩ := ih (matchQueue arena incoming rem p0 q0).arena
            (matchQueue arena incoming rem p0 q0).rem hndt rid hrid
          have hjq0 : jr ∉ q0 := fun hc => hdisj hc hjr
          have hqfr := (matchQueue_arena_frame incoming p0 q0 arena rem).2.2 jr hjq0
          refine ⟨jr, ?_, ?_, by rw [hid, hqfr]⟩
          · rw [sideHandles_cons, List.mem_append]
            exact Or.inr hjr
          · rw [sideHandles_cons, List.mem_append]
            rintro (hc | hc)
            · exact hjq0 ((matchQueue_queue_sublist incoming p0 q0 arena rem).subset hc)
            · exact hnotin hc

theorem removeOrder_sides (b : OrderBook) (rid : Nat) :
    (removeOrder b rid).bids = b.bids ∧ (removeOrder b rid).asks = b.asks := by
  unfold removeOrder
  split <;> exact ⟨rfl, rfl⟩

theorem removeOrder_by_id_mem (b : OrderBook) (rid : Nat) :
    ∀ kv ∈ (removeOrder b rid).by_id, kv ∈ b.by_id := by
  unfold removeOrder
  split
  · intro kv hkv
    exact (alRemove_sublist b.by_id rid).subset hkv
  · intro kv hkv
    exact hkv

theorem removeOrder_keys_sub (b : OrderBook) (rid : Nat) :
    ((removeOrder b rid).by_id.map Prod.fst).Sublist (b.by_id.map Prod.fst) := by
  unfold removeOrder
  split
  · exact alRemove_keys_sublist b.by_id rid
  · exact List.Sublist.refl _

theorem removeOrder_getO_ne (b : OrderBook) (rid j : Nat)
    (h : ∀ idx, alLookup b.by_id rid = some idx → idx ≠ j) :
    (removeOrder b rid).orders.getO j = b.orders.getO j := by
  unfold removeOrder
  cases hl : alLookup b.by_id rid with
  | none => rfl
  | some idx => exact Slab.getO_removeAt_ne b.orders idx j (Ne.symm (h idx hl))

theorem removeOrderFold (rids : List Nat) :
    ∀ (b : OrderBook),
    ((rids.foldl removeOrder b).bids = b.bids ∧
     (rids.foldl removeOrder b).asks = b.asks) ∧
    (∀ kv ∈ (rids.foldl removeOrder b).by_id, kv ∈ b.by_id) ∧
    (((rids.foldl removeOrder b).by_id.map Prod.fst).Sublist (b.by_id.map Prod.fst)) ∧
    ∀ j, (b.by_id.map Prod.fst).Nodup →
      (∀ rid ∈ rids, ∀ idx, alLookup b.by_id rid = some idx → idx ≠ j) →
      (rids.foldl removeOrder b).orders.getO j = b.orders.getO j := by
  induction rids with
  | nil =>
    intro b
    exact ⟨⟨rfl, rfl⟩, fun kv hkv => hkv, List.Sublist.refl _, fun j _ _ => rfl⟩
  | cons rid rest ih =>
    intro b
    obtain ⟨⟨hbids, hasks⟩, hmem, hkeys, hget⟩ := ih (removeOrder b rid)
    refine ⟨⟨hbids.trans (removeOrder_sides b rid).1,
      hasks.trans (removeOrder_sides b rid).2⟩, ?_, hkeys.trans (removeOrder_keys_sub b rid), ?_⟩
    · intro kv hkv
      exact removeOrder_by_id_mem b rid kv (hmem kv hkv)
    · intro j hnd hcond
      have hnd' : ((removeOrder b rid).by_id.map Prod.fst).Nodup :=
        hnd.sublist (removeOrder_keys_sub b rid)
      have hcond' : ∀ rid' ∈ rest, ∀ idx,
          alLookup (removeOrder b rid).by_id rid' = some idx → idx ≠ j := by
        intro rid' hr' idx hl
        have hkvmem := removeOrder_by_id_mem b rid (rid', idx) (alLookup_mem _ _ _ hl)
        exact hcond rid' (List.mem_cons_of_mem _ hr') idx (mem_alLookup _ _ _ hkvmem hnd)
      have h1 := hget j hnd' hcond'
      have h2 := removeOrder_getO_ne b rid j
        (fun idx hl => hcond rid (List.mem_cons_self _ _) idx hl)
      rw [List.foldl_cons, h1, h2]

theorem cleanFoldAsks (clean : List Nat) :
    ∀ (b : OrderBook),
    (clean.foldl (fun bb p => { bb with asks := alRemove bb.asks p }) b).bids = b.bids ∧
    (clean.foldl (fun bb p => { bb with asks := alRemove bb.asks p }) b).orders = b.orders ∧
    (clean.foldl (fun bb p => { bb with asks := alRemove bb.asks p }) b).by_id = b.by_id ∧
    (clean.foldl (fun bb p => { bb with asks := alRemove bb.asks p }) b).asks =
      clean.foldl alRemove b.asks := by
  induction clean with
  | nil => intro b; exact ⟨rfl, rfl, rfl, rfl⟩
  | cons p rest ih =>
    intro b
    obtain ⟨h1, h2, h3, h4⟩ := ih { b with asks := alRemove b.asks p }
    exact ⟨h1, h2, h3, h4⟩

theorem cleanFoldBids (clean : List Nat) :
    ∀ (b : OrderBook),
    (clean.foldl (fun bb p => { bb with bids := alRemove bb.bids p }) b).asks = b.asks ∧
    (clean.foldl (fun bb p => { bb with bids := alRemove bb.bids p }) b).orders = b.orders ∧
    (clean.foldl (fun bb p => { bb with bids := alRemove bb.bids p }) b).by_id = b.by_id ∧
    (clean.foldl (fun bb p => { bb with bids := alRemove bb.bids p }) b).bids =
      clean.foldl alRemove b.bids := by
  induction clean with
  | nil => intro b; exact ⟨rfl, rfl, rfl, rfl⟩
  | cons p rest ih =>
    intro b
    obtain ⟨h1, h2, h3, h4⟩ := ih { b with bids := alRemove b.bids p }
    exact ⟨h1, h2, h3, h4⟩

theorem alLookup_foldl_alRemove {β : Type} (clean : List Nat) :
    ∀ (m : List (Nat × β)) (p : Nat), p ∉ clean →
    alLookup (clean.foldl alRemove m) p = alLookup m p := by
  induction clean with
  | nil => intro m p _; rfl
  | cons c rest ih =>
    intro m p hp
    rw [List.mem_cons] at hp
    push_neg at hp
    rw [List.foldl_cons, ih (alRemove m c) p hp.2, alLookup_alRemove_ne m c p hp.1]

theorem matchOrder_book_bid (b : OrderBook) (incoming : Order) (ip : Bool)
    (h : incoming.side = Side.Bid) :
    (matchOrder b incoming ip).1 =
      ((matchLevels incoming (fun bp => !ip && decide (incoming.price < bp))
          b.orders incoming.remaining b.asks).clean.foldl
        (fun bb p => { bb with asks := alRemove bb.asks p })
        ((matchLevels incoming (fun bp => !ip && decide (incoming.price < bp))
            b.orders incoming.remaining b.asks).removed.foldl removeOrder
          { b with
              orders := (matchLevels incoming (fun bp => !ip && decide (incoming.price < bp))
                b.orders incoming.remaining b.asks).arena
              asks := (matchLevels incoming (fun bp => !ip && decide (incoming.price < bp))
                b.orders incoming.remaining b.asks).levels })) := by
  unfold matchOrder
  rw [h]

theorem matchOrder_book_ask (b : OrderBook) (incoming : Order) (ip : Bool)
    (h : incoming.side = Side.Ask) :
    (matchOrder b incoming ip).1 =
      ((matchLevels incoming (fun bp => !ip && decide (bp < incoming.price))
          b.orders incoming.remaining b.bids.reverse).clean.foldl
        (fun bb p => { bb with bids := alRemove bb.bids p })
        ((matchLevels incoming (fun bp => !ip && decide (bp < incoming.price))
            b.orders incoming.remaining b.bids.reverse).removed.foldl removeOrder
          { b with
              orders := (matchLevels incoming (fun bp => !ip && decide (bp < incoming.price))
                b.orders incoming.remaining b.bids.reverse).arena
              bids := (matchLevels incoming (fun bp => !ip && decide (bp < incoming.price))
                b.orders incoming.remaining b.bids.reverse).levels.reverse })) := by
  unfold matchOrder
  rw [h]

theorem resting_lookup (b : OrderBook) (hwf : WF b) :
    ∀ jr ∈ bookHandles b,
    ∃ o, b.orders.getO jr = some o ∧ alLookup b.by_id o.id = some jr := by
  intro jr hjr
  unfold bookHandles at hjr
  rw [List.mem_append] at hjr
  rcases hjr with hjr | hjr
  · rw [mem_sideHandles] at hjr
    obtain ⟨pq, hpq, hin⟩ := hjr
    obtain ⟨o, h1, _, _, _, _, h6⟩ := hwf.bidsWF.resolve pq hpq jr hin
    exact ⟨o, h1, h6⟩
  · rw [mem_sideHandles] at hjr
    obtain ⟨pq, hpq, hin⟩ := hjr
    obtain ⟨o, h1, _, _, _, _, h6⟩ := hwf.asksWF.resolve pq hpq jr hin
    exact ⟨o, h1, h6⟩

theorem matchOrder_stp (b : OrderBook) (hwf : WF b) (incoming : Order) (ign : Bool) :
    (∀ f ∈ (matchOrder b incoming ign).2.2,
      f.taker_id = incoming.id ∧
      ∃ j ∈ sideHandles (oppositeLevels b incoming.side),
        f.maker_id = ((b.orders.getO j).getD dummyOrder).id ∧
        ((b.orders.getO j).getD dummyOrder).user_id ≠ incoming.user_id) ∧
    (∀ pq ∈ oppositeLevels b incoming.side, ∀ j ∈ pq.2,
      ((b.orders.getO j).getD dummyOrder).user_id = incoming.user_id →
      (matchOrder b incoming ign).1.orders.getO j = b.orders.getO j ∧
      ∃ q', alLookup (oppositeLevels (matchOrder b incoming ign).1 incoming.side) pq.1 =
          some q' ∧ j ∈ q' ∧ q'.Sublist pq.2) := by
  have hhn := hwf.handlesNodup
  unfold bookHandles at hhn
  rw [List.nodup_append] at hhn
  obtain ⟨hbidsN, hasksN, hdisjbn⟩ := hhn
  cases hs : incoming.side with
  | Bid =>
    have hfills := (matchOrder_bid b incoming ign hs).2
    have hbook := matchOrder_book_bid b incoming ign hs
    set g := fun bp => !ign && decide (incoming.price < bp) with hg
    set L := matchLevels incoming g b.orders incoming.remaining b.asks with hLdef
    constructor
    · intro f hf
      rw [hfills] at hf
      obtain ⟨ht, hpk, j, hj, hmk, hus⟩ :=
        matchLevels_fills_src incoming g b.asks b.orders incoming.remaining hasksN f hf
      exact ⟨ht, j, hj, hmk, hus⟩
    · intro pq hpq j hj huser
      obtain ⟨harena, q', hq'mem, hjq', hsub⟩ :=
        matchLevels_skip incoming g b.asks b.orders incoming.remaining hasksN pq hpq j hj huser
      have hkeysasks : (b.asks.map Prod.fst).Nodup :=
        keysSorted_map_nodup _ hwf.asksWF.sorted
      have hkeysL : L.levels.map Prod.fst = b.asks.map Prod.fst :=
        forall2_struct_map_fst
          (matchLevels_levels_struct incoming g b.asks b.orders incoming.remaining)
      have hkeysLN : (L.levels.map Prod.fst).Nodup := by
        rw [hkeysL]; exact hkeysasks
      have hjmemL : j ∈ sideHandles L.levels :=
        (mem_sideHandles _ _).mpr ⟨(pq.1, q'), hq'mem, hjq'⟩
      have hcond : ∀ rid ∈ L.removed, ∀ idx,
          alLookup b.by_id rid = some idx → idx ≠ j := by
        intro rid hrid idx hl
        obtain ⟨jr, hjrmem, hjrnot, hride⟩ :=
          matchLevels_removed_lift incoming g b.asks b.orders incoming.remaining hasksN rid hrid
        obtain ⟨o, ho, hbid⟩ := resting_lookup b hwf jr
          (by unfold bookHandles; exact List.mem_append.mpr (Or.inr hjrmem))
        have hrid_o : rid = o.id := by rw [hride, ho]; rfl
        rw [hrid_o, hbid] at hl
        injection hl with hl'
        intro hc
        apply hjrnot
        rw [hl', hc]
        exact hjmemL
      have hfold := removeOrderFold L.removed { b with orders := L.arena, asks := L.levels }
      have hgetO := hfold.2.2.2 j hwf.byIdKeys hcond
      have hcf := cleanFoldAsks L.clean
        (L.removed.foldl removeOrder { b with orders := L.arena, asks := L.levels })
      rw [hbook]
      constructor
      · rw [hcf.2.1, hgetO]
        exact harena
      · refine ⟨q', ?_, hjq', hsub⟩
        have hnotclean : pq.1 ∉ L.clean := by
          intro hc
          obtain ⟨qc, hqc, hqce⟩ :=
            matchLevels_clean_src incoming g b.asks b.orders incoming.remaining pq.1 hc
          have hqe : qc = q' := keysNodup_mem_unique hkeysLN hqc hq'mem
          rw [hqe, List.isEmpty_iff] at hqce
          rw [hqce] at hjq'
          cases hjq'
        show alLookup (L.clean.foldl (fun bb p => { bb with asks := alRemove bb.asks p })
          (L.removed.foldl removeOrder
            { b with orders := L.arena, asks := L.levels })).asks pq.1 = some q'
        rw [hcf.2.2.2, hfold.1.2]
        rw [alLookup_foldl_alRemove L.clean _ pq.1 hnotclean]
        exact mem_alLookup L.levels pq.1 q' hq'mem hkeysLN
  | Ask =>
    have hfills := (matchOrder_ask b incoming ign hs).2
    have hbook := matchOrder_book_ask b incoming ign hs
    set g := fun bp => !ign && decide (bp < incoming.price) with hg
    set L := matchLevels incoming g b.orders incoming.remaining b.bids.reverse with hLdef
    have hrevN : (sideHandles b.bids.reverse).Nodup :=
      ((sideHandles_reverse_perm b.bids).nodup_iff).mpr hbidsN
    constructor
    · intro f hf
      rw [hfills] at hf
      obtain ⟨ht, hpk, j, hj, hmk, hus⟩ :=
        matchLevels_fills_src incoming g b.bids.reverse b.orders incoming.remaining hrevN f hf
      exact ⟨ht, j, (sideHandles_reverse_perm b.bids).mem_iff.mp hj, hmk, hus⟩
    · intro pq hpq j hj huser
      have hpqr : pq ∈ b.bids.reverse := List.mem_reverse.mpr hpq
      obtain ⟨harena, q', hq'mem, hjq', hsub⟩ :=
        matchLevels_skip incoming g b.bids.reverse b.orders incoming.remaining hrevN
          pq hpqr j hj huser
      have hkeysbids : (b.bids.map Prod.fst).Nodup :=
        keysSorted_map_nodup _ hwf.bidsWF.sorted
      have hkeysL : L.levels.map Prod.fst = b.bids.reverse.map Prod.fst :=
        forall2_struct_map_fst
          (matchLevels_levels_struct incoming g b.bids.reverse b.orders incoming.remaining)
      have hkeysLN : (L.levels.map Prod.fst).Nodup := by
        rw [hkeysL, List.map_reverse]
        exact List.nodup_reverse.mpr hkeysbids
      have hjmemL : j ∈ sideHandles L.levels :=
        (mem_sideHandles _ _).mpr ⟨(pq.1, q'), hq'mem, hjq'⟩
      have hcond : ∀ rid ∈ L.removed, ∀ idx,
          alLookup b.by_id rid = some idx → idx ≠ j := by
        intro rid hrid idx hl
        obtain ⟨jr, hjrmem, hjrnot, hride⟩ :=
          matchLevels_removed_lift incoming g b.bids.reverse b.orders incoming.remaining
            hrevN rid hrid
        obtain ⟨o, ho, hbid⟩ := resting_lookup b hwf jr
          (by
            unfold bookHandles
            exact List.mem_append.mpr
              (Or.inl ((sideHandles_reverse_perm b.bids).mem_iff.mp hjrmem)))
        have hrid_o : rid = o.id := by rw [hride, ho]; rfl
        rw [hrid_o, hbid] at hl
        injection hl with hl'
        intro hc
        apply hjrnot
        rw [hl', hc]
        exact hjmemL
      have hfold := removeOrderFold L.removed
        { b with orders := L.arena, bids := L.levels.reverse }
      have hgetO := hfold.2.2.2 j hwf.byIdKeys hcond
      have hcf := cleanFoldBids L.clean
        (L.removed.foldl removeOrder { b with orders := L.arena, bids := L.levels.reverse })
      rw [hbook]
      constructor
      · rw [hcf.2.1, hgetO]
        exact harena
      · refine ⟨q', ?_, hjq', hsub⟩
        have hnotclean : pq.1 ∉ L.clean := by
          intro hc
          obtain ⟨qc, hqc, hqce⟩ :=
            matchLevels_clean_src incoming g b.bids.reverse b.orders incoming.remaining pq.1 hc
          have hqe : qc = q' := keysNodup_mem_unique hkeysLN hqc hq'mem
          rw [hqe, List.isEmpty_iff] at hqce
          rw [hqce] at hjq'
          cases hjq'
        show alLookup (L.clean.foldl (fun bb p => { bb with bids := alRemove bb.bids p })
          (L.removed.foldl removeOrder
            { b with orders := L.arena, bids := L.levels.reverse })).bids pq.1 = some q'
        rw [hcf.2.2.2, hfold.1.1]
        rw [alLookup_foldl_alRemove L.clean _ pq.1 hnotclean]
        have hmemrev : (pq.1, q') ∈ L.levels.reverse := List.mem_reverse.mpr hq'mem
        have hkeysrevN : (L.levels.reverse.map Prod.fst).Nodup := by
          rw [List.map_reverse]
          exact List.nodup_reverse.mpr hkeysLN
        exact mem_alLookup L.levels.reverse pq.1 q' hmemrev hkeysrevN

/-- C4: self-trade prevention.  (1) Every fill emitted by a `submit` call has
the incoming order as taker, and its maker id is the id of a pre-call resting
order on the opposite side whose user differs from the submitting user.
(2) Whenever the queue walk of `match_order` encounters a resting maker owned
by the taker's user, that maker is skipped: its arena entry (hence its
`remaining`) is unchanged and it keeps its position in its price level's
queue — the level still resolves to a queue that contains the maker and is a
subsequence of the original queue (a skip, not a cancel). -/
theorem claim_C4 (b : OrderBook) (r : RiskEngine) (hwf : WF b)
    (id user_id : Nat) (ot : OrderType) (side : Side) (price qty : Nat) :
    (∀ fills, (b.submit id user_id ot side price qty r).1 = Except.ok fills →
      ∀ f ∈ fills, f.taker_id = id ∧
        ∃ j ∈ sideHandles (oppositeLevels b side),
          f.maker_id = ((b.orders.getO j).getD dummyOrder).id ∧
          ((b.orders.getO j).getD dummyOrder).user_id ≠ user_id) ∧
    (∀ ign : Bool, ∀ pq ∈ oppositeLevels b side, ∀ j ∈ pq.2,
      ((b.orders.getO j).getD dummyOrder).user_id = user_id →
      (matchOrder b (mkOrder id user_id ot side price qty) ign).1.orders.getO j =
        b.orders.getO j ∧
      ∃ q', alLookup (oppositeLevels
          (matchOrder b (mkOrder id user_id ot side price qty) ign).1 side) pq.1 = some q' ∧
        j ∈ q' ∧ q'.Sublist pq.2) := by
  constructor
  · intro fills hok f hf
    by_cases hv : badPriceQty price qty
    · rw [submit_invalid b r id user_id ot side price qty hv] at hok
      simp at hok
    · by_cases hp : checkPositionLimit r user_id qty = true
      · rw [submit_poslimit b r id user_id ot side price qty hv hp] at hok
        simp at hok
      · simp only [Bool.not_eq_true] at hp
        by_cases hr : (checkRateLimit r user_id).1 = true
        · rw [submit_ratelimit b r id user_id ot side price qty hv hp hr] at hok
          simp at hok
        · simp only [Bool.not_eq_true] at hr
          cases ot with
          | Market =>
            rw [submit_market b r id user_id side price qty hv hp hr] at hok
            injection hok with hfe
            subst hfe
            obtain ⟨ht, j, hjmem, hmk, hus⟩ :=
              (matchOrder_stp b hwf (mkOrder id user_id OrderType.Market side price qty)
                true).1 f hf
            exact ⟨ht, j, hjmem, hmk, hus⟩
          | Limit =>
            rw [submit_limit b r id user_id side price qty hv hp hr] at hok
            injection hok with hfe
            subst hfe
            obtain ⟨ht, j, hjmem, hmk, hus⟩ :=
              (matchOrder_stp b hwf (mkOrder id user_id OrderType.Limit side price qty)
                false).1 f hf
            exact ⟨ht, j, hjmem, hmk, hus⟩
          | IOC =>
            rw [submit_ioc b r id user_id side price qty hv hp hr] at hok
            injection hok with hfe
            subst hfe
            obtain ⟨ht, j, hjmem, hmk, hus⟩ :=
              (matchOrder_stp b hwf (mkOrder id user_id OrderType.IOC side price qty)
                false).1 f hf
            exact ⟨ht, j, hjmem, hmk, hus⟩
          | FOK =>
            rw [submit_fok b r id user_id side price qty hv hp hr] at hok
            by_cases hc : canFullMatch b (mkOrder id user_id OrderType.FOK side price qty) = true
            · rw [if_pos hc] at hok
              injection hok with hfe
              subst hfe
              obtain ⟨ht, j, hjmem, hmk, hus⟩ :=
                (matchOrder_stp b hwf (mkOrder id user_id OrderType.FOK side price qty)
                  false).1 f hf
              exact ⟨ht, j, hjmem, hmk, hus⟩
            · rw [if_neg hc] at hok
              injection hok with hfe
              subst hfe
              cases hf
          | PostOnly =>
            rw [submit_postonly b r id user_id side price qty hv hp hr] at hok
            injection hok with hfe
            subst hfe
            cases hf
          | MakerOnly =>
            rw [submit_makeronly b r id user_id side price qty hv hp hr] at hok
            injection hok with hfe
            subst hfe
            cases hf
  · intro ign pq hpq j hj huser
    exact (matchOrder_stp b hwf (mkOrder id user_id ot side price qty) ign).2 pq hpq j hj huser

def c4Book : OrderBook :=
  ⟨[], [(20000000000, [0, 1])],
    ⟨[some ⟨10, 7, Side.Ask, 20000000000, 100000000, 100000000, OrderType.Limit⟩,
      some ⟨11, 5, Side.Ask, 20000000000, 100000000, 100000000, OrderType.Limit⟩], []⟩,
    [(10, 0), (11, 1)]⟩

theorem claim_C4_witness :
    WF c4Book ∧
    (c4Book.submit 2 5 OrderType.Limit Side.Bid 20000000000 100000000 ⟨[], []⟩).1 =
      Except.ok [⟨10, 2, 20000000000, 100000000⟩] ∧
    (∀ f ∈ [(⟨10, 2, 20000000000, 100000000⟩ : Fill)], f.taker_id = 2 ∧
      ∃ j ∈ sideHandles (oppositeLevels c4Book Side.Bid),
        f.maker_id = ((c4Book.orders.getO j).getD dummyOrder).id ∧
        ((c4Book.orders.getO j).getD dummyOrder).user_id ≠ 5) ∧
    ((matchOrder c4Book (mkOrder 2 5 OrderType.Limit Side.Bid 20000000000 100000000)
        false).1.orders.getO 1 = c4Book.orders.getO 1 ∧
      ∃ q', alLookup (oppositeLevels (matchOrder c4Book
          (mkOrder 2 5 OrderType.Limit Side.Bid 20000000000 100000000) false).1 Side.Bid)
          20000000000 = some q' ∧ 1 ∈ q' ∧ q'.Sublist [0, 1]) := by
  have hwf : WF c4Book := by decide
  have h := claim_C4 c4Book ⟨[], []⟩ hwf 2 5 OrderType.Limit Side.Bid 20000000000 100000000
  refine ⟨hwf, by decide, ?_, ?_⟩
  · intro f hf
    exact h.1 [⟨10, 2, 20000000000, 100000000⟩] (by decide) f hf
  · have h2 := h.2 false (20000000000, [0, 1]) (by decide) 1 (by decide) (by decide)
    exact h2

theorem matchQueue_fills_price (incoming : Order) (p : Nat) :
    ∀ (queue : List Nat) (arena : Slab) (rem : Nat),
    ∀ f ∈ (matchQueue arena incoming rem p queue).fills, f.price = p := by
  intro queue
  induction queue with
  | nil => intro arena rem f hf; cases hf
  | cons idx rest ih =>
    intro arena rem f hf
    by_cases h0 : rem = 0
    · simp only [matchQueue, if_pos h0] at hf
      cases hf
    · by_cases hstp : incoming.user_id = ((arena.getO idx).getD dummyOrder).user_id
      · simp only [matchQueue, if_pos hstp, if_neg h0] at hf
        exact ih arena rem f hf
      · simp only [matchQueue, if_neg h0, if_neg hstp] at hf
        revert hf
        split
        all_goals
          dsimp only
          intro hf
          rcases List.mem_cons.mp hf with hfe | hfr
        · rw [hfe]
        · exact ih _ _ f hfr
        · rw [hfe]
        · exact ih _ _ f hfr

theorem matchQueue_fills_sublist (incoming : Order) (p : Nat) :
    ∀ (queue : List Nat) (arena : Slab) (rem : Nat), queue.Nodup →
    ((matchQueue arena incoming rem p queue).fills.map Fill.maker_id).Sublist
      (queue.map (fun j => ((arena.getO j).getD dummyOrder).id)) := by
  intro queue
  induction queue with
  | nil => intro arena rem _; simp [matchQueue]
  | cons idx rest ih =>
    intro arena rem hnd
    simp only [List.nodup_cons] at hnd
    by_cases h0 : rem = 0
    · simp only [matchQueue, if_pos h0]
      exact List.nil_sublist _
    · by_cases hstp : incoming.user_id = ((arena.getO idx).getD dummyOrder).user_id
      · simp only [matchQueue, if_pos hstp, if_neg h0, List.map_cons]
        exact (ih arena rem hnd.2).cons _
      · simp only [matchQueue, if_neg h0, if_neg hstp]
        have hmapeq : rest.map (fun j => (((arena.setEntry idx
            { (arena.getO idx).getD dummyOrder with
                remaining := ((arena.getO idx).getD dummyOrder).remaining -
                  min rem ((arena.getO idx).getD dummyOrder).remaining }).getO j).getD
              dummyOrder).id) =
            rest.map (fun j => ((arena.getO j).getD dummyOrder).id) := by
          apply List.map_congr_left
          intro jr hjr
          have hne : jr ≠ idx := by
            intro hc
            rw [hc] at hjr
            exact hnd.1 hjr
          rw [Slab.getO_setEntry_ne _ _ _ _ hne]
        have hr := ih (arena.setEntry idx
            { (arena.getO idx).getD dummyOrder with
                remaining := ((arena.getO idx).getD dummyOrder).remaining -
                  min rem ((arena.getO idx).getD dummyOrder).remaining })
          (rem - min rem ((arena.getO idx).getD dummyOrder).remaining) hnd.2
        rw [hmapeq] at hr
        split
        · dsimp only
          rw [List.map_cons, List.map_cons]
          exact hr.cons₂ _
        · dsimp only
          rw [List.map_cons, List.map_cons]
          exact hr.cons₂ _

theorem matchLevels_fills_price_mem (incoming : Order) (g : Nat → Bool) :
    ∀ (levels : List (Nat × List Nat)) (arena : Slab) (rem : Nat),
    ∀ f ∈ (matchLevels incoming g arena rem levels).fills,
    f.price ∈ levels.map Prod.fst := by
  intro levels
  induction levels with
  | nil => intro arena rem f hf; cases hf
  | cons pq t ih =>
    intro arena rem f hf
    rcases pq with ⟨p, q⟩
    by_cases h0 : rem = 0
    · simp only [matchLevels, if_pos h0] at hf
      cases hf
    · by_cases hg : g p = true
      · simp only [matchLevels, if_neg h0, if_pos hg] at hf
        cases hf
      · simp only [matchLevels, if_neg h0, if_neg hg] at hf
        rw [List.mem_append] at hf
        rcases hf with hf | hf
        · rw [matchQueue_fills_price incoming p q arena rem f hf]
          exact List.mem_cons_self _ _
        · exact List.mem_cons_of_mem _ (ih _ _ f hf)

theorem matchLevels_fills_sorted (incoming : Order) (g : Nat → Bool)
    (R : Nat → Nat → Prop) (hrefl : ∀ p, R p p) :
    ∀ (levels : List (Nat × List Nat)) (arena : Slab) (rem : Nat),
    (levels.map Prod.fst).Pairwise R →
    ((matchLevels incoming g arena rem levels).fills.map Fill.price).Pairwise R := by
  intro levels
  induction levels with
  | nil => intro arena rem _; simp [matchLevels]
  | cons pq t ih =>
    intro arena rem hpw
    rcases pq with ⟨p, q⟩
    rw [List.map_cons, List.pairwise_cons] at hpw
    by_cases h0 : rem = 0
    · simp only [matchLevels, if_pos h0]
      exact List.Pairwise.nil
    · by_cases hg : g p = true
      · simp only [matchLevels, if_neg h0, if_pos hg]
        exact List.Pairwise.nil
      · simp only [matchLevels, if_neg h0, if_neg hg]
        rw [List.map_append, List.pairwise_append]
        refine ⟨?_, ?_, ?_⟩
        · rw [List.pairwise_map]
          apply List.Pairwise.imp_of_mem
          · intro a b ha hb _
            rw [matchQueue_fills_price incoming p q arena rem a ha,
              matchQueue_fills_price incoming p q arena rem b hb]
            exact hrefl p
          · exact List.pairwise_of_forall (fun _ _ => trivial)
        · exact ih _ _ hpw.2
        · intro a ha b hb
          rw [List.mem_map] at ha hb
          obtain ⟨fa, hfa, hae⟩ := ha
          obtain ⟨fb, hfb, hbe⟩ := hb
          rw [← hae, ← hbe, matchQueue_fills_price incoming p q arena rem fa hfa]
          exact hpw.1 fb.price (matchLevels_fills_price_mem incoming g t _ _ fb hfb)

theorem matchLevels_time_priority (incoming : Order) (g : Nat → Bool) :
    ∀ (levels : List (Nat × List Nat)) (arena : Slab) (rem : Nat),
    (sideHandles levels).Nodup → (levels.map Prod.fst).Nodup →
    ∀ p : Nat,
    (((matchLevels incoming g arena rem levels).fills.filter
        (fun f => decide (f.price = p))).map Fill.maker_id).Sublist
      (((alLookup levels p).getD []).map (fun j => ((arena.getO j).getD dummyOrder).id)) := by
  intro levels
  induction levels with
  | nil =>
    intro arena rem _ _ p
    simp [matchLevels, alLookup]
  | cons pq t ih =>
    intro arena rem hhn hkn p
    rcases pq with ⟨p0, q0⟩
    rw [sideHandles_cons, List.nodup_append] at hhn
    obtain ⟨hndq, hndt, hdisj⟩ := hhn
    rw [List.map_cons, List.nodup_cons] at hkn
    by_cases h0 : rem = 0
    · simp only [matchLevels, if_pos h0]
      exact List.nil_sublist _
    · by_cases hg : g p0 = true
      · simp only [matchLevels, if_neg h0, if_pos hg]
        exact List.nil_sublist _
      · simp only [matchLevels, if_neg h0, if_neg hg]
        rw [List.filter_append]
        by_cases hp : p0 = p
        · have hfq : (matchQueue arena incoming rem p0 q0).fills.filter
              (fun f => decide (f.price = p)) =
              (matchQueue arena incoming rem p0 q0).fills := by
            rw [List.filter_eq_self]
            intro f hf
            rw [decide_eq_true_eq, matchQueue_fills_price incoming p0 q0 arena rem f hf]
            exact hp
          have hfr : (matchLevels incoming g (matchQueue arena incoming rem p0 q0).arena
              (matchQueue arena incoming rem p0 q0).rem t).fills.filter
              (fun f => decide (f.price = p)) = [] := by
            rw [List.filter_eq_nil_iff]
            intro f hf
            rw [decide_eq_true_eq]
            intro hc
            apply hkn.1
            rw [hp, ← hc]
            exact matchLevels_fills_price_mem incoming g t _ _ f hf
          rw [hfq, hfr, List.append_nil]
          show ((matchQueue arena incoming rem p0 q0).fills.map Fill.maker_id).Sublist
            (((alLookup ((p0, q0) :: t) p).getD []).map
              (fun j => ((arena.getO j).getD dummyOrder).id))
          rw [show alLookup ((p0, q0) :: t) p = some q0 from by
            simp only [alLookup, if_pos hp]]
          exact matchQueue_fills_sublist incoming p0 q0 arena rem hndq
        · have hfq : (matchQueue arena incoming rem p0 q0).fills.filter
              (fun f => decide (f.price = p)) = [] := by
            rw [List.filter_eq_nil_iff]
            intro f hf
            rw [decide_eq_true_eq]
            intro hc
            apply hp
            rw [← hc, matchQueue_fills_price incoming p0 q0 arena rem f hf]
          rw [hfq, List.nil_append]
          have hih := ih (matchQueue arena incoming rem p0 q0).arena
            (matchQueue arena incoming rem p0 q0).rem hndt hkn.2 p
          have hmapeq : (((alLookup t p).getD []).map
              (fun j => (((matchQueue arena incoming rem p0 q0).arena.getO j).getD
                dummyOrder).id)) =
              (((alLookup t p).getD []).map
                (fun j => ((arena.getO j).getD dummyOrder).id)) := by
            apply List.map_congr_left
            intro j hj
            have hjt : j ∈ sideHandles t := by
              rw [mem_sideHandles]
              cases hl : alLookup t p with
              | none => rw [hl] at hj; cases hj
              | some q1 =>
                rw [hl] at hj
                exact ⟨(p, q1), alLookup_mem t p q1 hl, hj⟩
            have hjq0 : j ∉ q0 := fun hc => hdisj hc hjt
            rw [(matchQueue_arena_frame incoming p0 q0 arena rem).2.2 j hjq0]
          rw [hmapeq] at hih
          show (((matchLevels incoming g (matchQueue arena incoming rem p0 q0).arena
              (matchQueue arena incoming rem p0 q0).rem t).fills.filter
                (fun f => decide (f.price = p))).map Fill.maker_id).Sublist
            (((alLookup ((p0, q0) :: t) p).getD []).map
              (fun j => ((arena.getO j).getD dummyOrder).id))
          rw [show alLookup ((p0, q0) :: t) p = alLookup t p from by
            simp only [alLookup, if_neg hp]]
          exact hih

theorem alLookup_reverse {β : Type} (m : List (Nat × β)) (hnd : (m.map Prod.fst).Nodup)
    (k : Nat) : alLookup m.reverse k = alLookup m k := by
  cases hl : alLookup m k with
  | some v =>
    have hmem : (k, v) ∈ m.reverse := List.mem_reverse.mpr (alLookup_mem m k v hl)
    have hndrev : (m.reverse.map Prod.fst).Nodup := by
      rw [List.map_reverse]
      exact List.nodup_reverse.mpr hnd
    exact mem_alLookup m.reverse k v hmem hndrev
  | none =>
    rw [alLookup_eq_none_iff] at hl
    rw [alLookup_eq_none_iff, List.map_reverse]
    intro hc
    exact hl (List.mem_reverse.mp hc)

/-- C1: price-time priority.  For any match performed by `match_order` on a
well-formed book: the emitted fills carry non-decreasing prices for a Bid
taker (best = lowest ask first) and non-increasing prices for an Ask taker
(best = highest bid first); and, for every price `p`, the maker ids of the
fills emitted at `p`, in emission order, form a subsequence of the resting
order ids of the pre-match queue of the level `p` on the opposite side in
queue order — so among makers at the same price the earliest-queued
non-skipped maker is matched first. -/
theorem claim_C1 (b : OrderBook) (hwf : WF b) (incoming : Order) (ign : Bool) :
    (incoming.side = Side.Bid →
      ((matchOrder b incoming ign).2.2.map Fill.price).Pairwise (· ≤ ·)) ∧
    (incoming.side = Side.Ask →
      ((matchOrder b incoming ign).2.2.map Fill.price).Pairwise (fun a c => c ≤ a)) ∧
    (∀ p : Nat,
      (((matchOrder b incoming ign).2.2.filter (fun f => decide (f.price = p))).map
          Fill.maker_id).Sublist
        (((alLookup (oppositeLevels b incoming.side) p).getD []).map
          (fun j => ((b.orders.getO j).getD dummyOrder).id))) := by
  have hhn := hwf.handlesNodup
  unfold bookHandles at hhn
  rw [List.nodup_append] at hhn
  obtain ⟨hbidsN, hasksN, hdisjbn⟩ := hhn
  refine ⟨?_, ?_, ?_⟩
  · intro hs
    rw [(matchOrder_bid b incoming ign hs).2]
    apply matchLevels_fills_sorted _ _ _ (fun p => le_refl p)
    exact ((keysSorted_iff _).mp hwf.asksWF.sorted).imp le_of_lt
  · intro hs
    rw [(matchOrder_ask b incoming ign hs).2]
    apply matchLevels_fills_sorted _ _ (fun a c => c ≤ a) (fun p => le_refl p)
    rw [List.map_reverse, List.pairwise_reverse]
    exact ((keysSorted_iff _).mp hwf.bidsWF.sorted).imp le_of_lt
  · intro p
    cases hs : incoming.side with
    | Bid =>
      rw [(matchOrder_bid b incoming ign hs).2]
      exact matchLevels_time_priority incoming _ b.asks b.orders incoming.remaining hasksN
        (keysSorted_map_nodup _ hwf.asksWF.sorted) p
    | Ask =>
      rw [(matchOrder_ask b incoming ign hs).2]
      have hrevN : (sideHandles b.bids.reverse).Nodup :=
        ((sideHandles_reverse_perm b.bids).nodup_iff).mpr hbidsN
      have hkrevN : (b.bids.reverse.map Prod.fst).Nodup := by
        rw [List.map_reverse]
        exact List.nodup_reverse.mpr (keysSorted_map_nodup _ hwf.bidsWF.sorted)
      have h := matchLevels_time_priority incoming
        (fun bp => !ign && decide (bp < incoming.price)) b.bids.reverse b.orders
        incoming.remaining hrevN hkrevN p
      rw [alLookup_reverse b.bids (keysSorted_map_nodup _ hwf.bidsWF.sorted) p] at h
      exact h

def c1Book : OrderBook :=
  ⟨[], [(10000000000, [0, 1]), (10100000000, [2])],
    ⟨[some ⟨10, 7, Side.Ask, 10000000000, 100000000, 100000000, OrderType.Limit⟩,
      some ⟨11, 8, Side.Ask, 10000000000, 100000000, 100000000, OrderType.Limit⟩,
      some ⟨12, 7, Side.Ask, 10100000000, 100000000, 100000000, OrderType.Limit⟩], []⟩,
    [(10, 0), (11, 1), (12, 2)]⟩

theorem claim_C1_witness :
    WF c1Book ∧
    ((matchOrder c1Book (mkOrder 2 5 OrderType.Limit Side.Bid 10100000000 250000000)
        false).2.2.map Fill.price).Pairwise (· ≤ ·) ∧
    ((((matchOrder c1Book (mkOrder 2 5 OrderType.Limit Side.Bid 10100000000 250000000)
        false).2.2.filter (fun f => decide (f.price = 10000000000))).map
        Fill.maker_id).Sublist
      (((alLookup (oppositeLevels c1Book Side.Bid) 10000000000).getD []).map
        (fun j => ((c1Book.orders.getO j).getD dummyOrder).id))) := by
  have hwf : WF c1Book := by decide
  have h := claim_C1 c1Book hwf
    (mkOrder 2 5 OrderType.Limit Side.Bid 10100000000 250000000) false
  exact ⟨hwf, h.1 rfl, h.2.2 10000000000⟩

theorem sideHandles_sublist {l l' : List (Nat × List Nat)} (h : l'.Sublist l) :
    (sideHandles l').Sublist (sideHandles l) := by
  induction h with
  | slnil => exact List.Sublist.refl _
  | cons pq _ ih =>
    rw [sideHandles_cons]
    exact ih.trans (List.sublist_append_right _ _)
  | cons₂ pq _ ih =>
    rw [sideHandles_cons, sideHandles_cons]
    exact ih.append_left _

theorem forall2_struct_handles_sublist {l l' : List (Nat × List Nat)}
    (h : List.Forall₂ (fun a c => c.1 = a.1 ∧ c.2.Sublist a.2) l l') :
    (sideHandles l').Sublist (sideHandles l) := by
  induction h with
  | nil => exact List.Sublist.refl _
  | @cons a c la lc hr _ ih =>
    rw [sideHandles_cons, sideHandles_cons]
    exact List.Sublist.append hr.2 ih

theorem forall2_struct_mem {l l' : List (Nat × List Nat)}
    (h : List.Forall₂ (fun a c => c.1 = a.1 ∧ c.2.Sublist a.2) l l') :
    ∀ c ∈ l', ∃ a ∈ l, c.1 = a.1 ∧ c.2.Sublist a.2 := by
  induction h with
  | nil => intro c hc; cases hc
  | @cons a c la lc hr _ ih =>
    intro c' hc'
    rcases List.mem_cons.mp hc' with hce | hct
    · exact ⟨a, List.mem_cons_self _ _, hce ▸ hr⟩
    · obtain ⟨a', ha', hp⟩ := ih c' hct
      exact ⟨a', List.mem_cons_of_mem _ ha', hp⟩

theorem foldl_alRemove_sublist {β : Type} (clean : List Nat) :
    ∀ (m : List (Nat × β)), (clean.foldl alRemove m).Sublist m := by
  induction clean with
  | nil => intro m; exact List.Sublist.refl _
  | cons c rest ih =>
    intro m
    exact (ih (alRemove m c)).trans (alRemove_sublist m c)

theorem alLookup_foldl_alRemove_mem {β : Type} (clean : List Nat) :
    ∀ (m : List (Nat × β)), (m.map Prod.fst).Nodup → ∀ p ∈ clean,
    alLookup (clean.foldl alRemove m) p = none := by
  induction clean with
  | nil => intro m _ p hp; cases hp
  | cons c rest ih =>
    intro m hnd p hp
    rw [List.foldl_cons]
    by_cases hpc : p = c
    · subst hpc
      rw [alLookup_eq_none_iff]
      intro hc
      have hsub := ((foldl_alRemove_sublist rest (alRemove m p)).map Prod.fst).subset hc
      have hnone := alLookup_alRemove_self m p hnd
      rw [alLookup_eq_none_iff] at hnone
      exact hnone hsub
    · rcases List.mem_cons.mp hp with hpe | hpr
      · exact absurd hpe hpc
      · exact ih (alRemove m c) (hnd.sublist (alRemove_keys_sublist m c)) p hpr

theorem mem_foldl_alRemove {β : Type} (clean : List Nat) (m : List (Nat × β))
    (hnd : (m.map Prod.fst).Nodup) (p : Nat) (v : β)
    (hmem : (p, v) ∈ m) (hp : p ∉ clean) : (p, v) ∈ clean.foldl alRemove m := by
  have hl : alLookup (clean.foldl alRemove m) p = alLookup m p :=
    alLookup_foldl_alRemove clean m p hp
  rw [mem_alLookup m p v hmem hnd] at hl
  exact alLookup_mem _ _ _ hl

theorem matchQueue_entries (incoming : Order) (p : Nat) :
    ∀ (queue : List Nat) (arena : Slab) (rem : Nat), queue.Nodup →
    (∀ j ∈ queue, ∃ o, arena.getO j = some o ∧ 0 < o.remaining) →
    ∀ j ∈ queue, ∃ o o', arena.getO j = some o ∧
      (matchQueue arena incoming rem p queue).arena.getO j = some o' ∧
      o'.id = o.id ∧ o'.user_id = o.user_id ∧ o'.side = o.side ∧
      o'.price = o.price ∧ o'.qty = o.qty ∧ o'.remaining ≤ o.remaining ∧
      (j ∈ (matchQueue arena incoming rem p queue).queue → 0 < o'.remaining) := by
  intro queue
  induction queue with
  | nil => intro arena rem _ _ j hj; cases hj
  | cons idx rest ih =>
    intro arena rem hnd hres j hj
    simp only [List.nodup_cons] at hnd
    obtain ⟨oi, hoi, hoipos⟩ := hres idx (List.mem_cons_self _ _)
    by_cases h0 : rem = 0
    · simp only [matchQueue, if_pos h0]
      obtain ⟨o, ho, hpos⟩ := hres j hj
      exact ⟨o, o, ho, ho, rfl, rfl, rfl, rfl, rfl, le_refl _, fun _ => hpos⟩
    · by_cases hstp : incoming.user_id = ((arena.getO idx).getD dummyOrder).user_id
      · simp only [matchQueue, if_pos hstp, if_neg h0]
        rcases List.mem_cons.mp hj with hje | hjr
        · subst hje
          obtain ⟨hf, _, hfr⟩ := matchQueue_arena_frame incoming p rest arena rem
          refine ⟨oi, oi, hoi, ?_, rfl, rfl, rfl, rfl, rfl, le_refl _, fun _ => hoipos⟩
          rw [hfr j hnd.1]
          exact hoi
        · obtain ⟨o, o', ho, ho', he⟩ := ih arena rem hnd.2
            (fun j' hj' => hres j' (List.mem_cons_of_mem _ hj')) j hjr
          refine ⟨o, o', ho, ho', he.1, he.2.1, he.2.2.1, he.2.2.2.1, he.2.2.2.2.1,
            he.2.2.2.2.2.1, ?_⟩
          intro hmem
          apply he.2.2.2.2.2.2
          rcases List.mem_cons.mp hmem with hc | hc
          · exact absurd (hc ▸ hjr) hnd.1
          · exact hc
      · simp only [matchQueue, if_neg h0, if_neg hstp]
        have hlt : idx < arena.entries.length := Slab.getO_some_lt arena idx oi hoi
        have haren' : ∀ j' ∈ rest, (arena.setEntry idx
            { (arena.getO idx).getD dummyOrder with
                remaining := ((arena.getO idx).getD dummyOrder).remaining -
                  min rem ((arena.getO idx).getD dummyOrder).remaining }).getO j' =
            arena.getO j' := by
          intro j' hj'
          have : j' ≠ idx := fun hc => hnd.1 (hc ▸ hj')
          exact Slab.getO_setEntry_ne _ _ _ _ this
        have hres' : ∀ j' ∈ rest, ∃ o, (arena.setEntry idx
            { (arena.getO idx).getD dummyOrder with
                remaining := ((arena.getO idx).getD dummyOrder).remaining -
                  min rem ((arena.getO idx).getD dummyOrder).remaining }).getO j' = some o ∧
            0 < o.remaining := by
          intro j' hj'
          rw [haren' j' hj']
          exact hres j' (List.mem_cons_of_mem _ hj')
        have hself : (arena.setEntry idx
            { (arena.getO idx).getD dummyOrder with
                remaining := ((arena.getO idx).getD dummyOrder).remaining -
                  min rem ((arena.getO idx).getD dummyOrder).remaining }).getO idx =
            some { (arena.getO idx).getD dummyOrder with
                remaining := ((arena.getO idx).getD dummyOrder).remaining -
                  min rem ((arena.getO idx).getD dummyOrder).remaining } :=
          Slab.getO_setEntry_self _ _ _ hlt
        obtain ⟨hf2, _, hfr2⟩ := matchQueue_arena_frame incoming p rest
          (arena.setEntry idx
            { (arena.getO idx).getD dummyOrder with
                remaining := ((arena.getO idx).getD dummyOrder).remaining -
                  min rem ((arena.getO idx).getD dummyOrder).remaining })
          (rem - min rem ((arena.getO idx).getD dummyOrder).remaining)
        have hgetj : (matchQueue (arena.setEntry idx
            { (arena.getO idx).getD dummyOrder with
                remaining := ((arena.getO idx).getD dummyOrder).remaining -
                  min rem ((arena.getO idx).getD dummyOrder).remaining })
            incoming (rem - min rem ((arena.getO idx).getD dummyOrder).remaining)
            p rest).arena.getO idx =
            some { (arena.getO idx).getD dummyOrder with
                remaining := ((arena.getO idx).getD dummyOrder).remaining -
                  min rem ((arena.getO idx).getD dummyOrder).remaining } := by
          rw [hfr2 idx hnd.1]
          exact hself
        rcases List.mem_cons.mp hj with hje | hjr
        · subst hje
          split
          · dsimp only
            refine ⟨oi, _, hoi, hgetj, ?_⟩
            simp only [hoi, Option.getD_some]
            refine ⟨trivial, trivial, trivial, trivial, trivial, Nat.sub_le _ _, ?_⟩
            intro hmem
            exact absurd ((matchQueue_queue_sublist incoming p rest _ _).subset hmem) hnd.1
          · dsimp only
            rename_i hkeep
            refine ⟨oi, _, hoi, hgetj, ?_⟩
            simp only [hoi, Option.getD_some]
            refine ⟨trivial, trivial, trivial, trivial, trivial, Nat.sub_le _ _, ?_⟩
            intro _
            simp only [hoi, Option.getD_some] at hkeep
            exact Nat.pos_of_ne_zero hkeep
        · have hih := ih (arena.setEntry idx
            { (arena.getO idx).getD dummyOrder with
                remaining := ((arena.getO idx).getD dummyOrder).remaining -
                  min rem ((arena.getO idx).getD dummyOrder).remaining })
            (rem - min rem ((arena.getO idx).getD dummyOrder).remaining) hnd.2 hres' j hjr
          obtain ⟨o, o', ho, ho', he⟩ := hih
          rw [haren' j hjr] at ho
          split
          · dsimp only
            exact ⟨o, o', ho, ho', he.1, he.2.1, he.2.2.1, he.2.2.2.1, he.2.2.2.2.1,
              he.2.2.2.2.2.1, he.2.2.2.2.2.2⟩
          · dsimp only
            refine ⟨o, o', ho, ho', he.1, he.2.1, he.2.2.1, he.2.2.2.1, he.2.2.2.2.1,
              he.2.2.2.2.2.1, ?_⟩
            intro hmem
            apply he.2.2.2.2.2.2
            rcases List.mem_cons.mp hmem with hc | hc
            · exact absurd (hc ▸ hjr) hnd.1
            · exact hc

theorem matchQueue_dropped (incoming : Order) (p : Nat) :
    ∀ (queue : List Nat) (arena : Slab) (rem : Nat), queue.Nodup →
    ∀ j ∈ queue, j ∉ (matchQueue arena incoming rem p queue).queue →
    ((arena.getO j).getD dummyOrder).id ∈ (matchQueue arena incoming rem p queue).removed := by
  intro queue
  induction queue with
  | nil => intro arena rem _ j hj; cases hj
  | cons idx rest ih =>
    intro arena rem hnd j hj hnot
    simp only [List.nodup_cons] at hnd
    by_cases h0 : rem = 0
    · simp only [matchQueue, if_pos h0] at hnot ⊢
      exact absurd hj hnot
    · by_cases hstp : incoming.user_id = ((arena.getO idx).getD dummyOrder).user_id
      · simp only [matchQueue, if_pos hstp, if_neg h0] at hnot ⊢
        rcases List.mem_cons.mp hj with hje | hjr
        · exact absurd (hje ▸ List.mem_cons_self idx _) hnot
        · exact ih arena rem hnd.2 j hjr (fun hc => hnot (List.mem_cons_of_mem _ hc))
      · simp only [matchQueue, if_neg h0, if_neg hstp] at hnot ⊢
        have hframe : ∀ jr ∈ rest, ((arena.setEntry idx
            { (arena.getO idx).getD dummyOrder with
                remaining := ((arena.getO idx).getD dummyOrder).remaining -
                  min rem ((arena.getO idx).getD dummyOrder).remaining }).getO jr) =
            arena.getO jr := by
          intro jr hjr
          have : jr ≠ idx := fun hc => hnd.1 (hc ▸ hjr)
          exact Slab.getO_setEntry_ne _ _ _ _ this
        revert hnot
        split
        · dsimp only
          intro hnot
          rcases List.mem_cons.mp hj with hje | hjr
          · subst hje
            exact List.mem_cons_self _ _
          · have hd := ih _ _ hnd.2 j hjr hnot
            rw [hframe j hjr] at hd
            exact List.mem_cons_of_mem _ hd
        · dsimp only
          intro hnot
          rcases List.mem_cons.mp hj with hje | hjr
          · exact absurd (hje ▸ List.mem_cons_self idx _) hnot
          · have hd := ih _ _ hnd.2 j hjr (fun hc => hnot (List.mem_cons_of_mem _ hc))
            rw [hframe j hjr] at hd
            exact hd

theorem matchLevels_entries (incoming : Order) (g : Nat → Bool) :
    ∀ (levels : List (Nat × List Nat)) (arena : Slab) (rem : Nat),
    (sideHandles levels).Nodup →
    (∀ j ∈ sideHandles levels, ∃ o, arena.getO j = some o ∧ 0 < o.remaining) →
    ∀ j ∈ sideHandles levels, ∃ o o', arena.getO j = some o ∧
      (matchLevels incoming g arena rem levels).arena.getO j = some o' ∧
      o'.id = o.id ∧ o'.user_id = o.user_id ∧ o'.side = o.side ∧
      o'.price = o.price ∧ o'.qty = o.qty ∧ o'.remaining ≤ o.remaining ∧
      (j ∈ sideHandles (matchLevels incoming g arena rem levels).levels →
        0 < o'.remaining) := by
  intro levels
  induction levels with
  | nil => intro arena rem _ _ j hj; cases hj
  | cons hd t ih =>
    intro arena rem hnd hres j hj
    rcases hd with ⟨p0, q0⟩
    rw [sideHandles_cons, List.nodup_append] at hnd
    obtain ⟨hndq, hndt, hdisj⟩ := hnd
    by_cases h0 : rem = 0
    · simp only [matchLevels, if_pos h0]
      obtain ⟨o, ho, hpos⟩ := hres j hj
      exact ⟨o, o, ho, ho, rfl, rfl, rfl, rfl, rfl, le_refl _, fun _ => hpos⟩
    · by_cases hg : g p0 = true
      · simp only [matchLevels, if_neg h0, if_pos hg]
        obtain ⟨o, ho, hpos⟩ := hres j hj
        exact ⟨o, o, ho, ho, rfl, rfl, rfl, rfl, rfl, le_refl _, fun _ => hpos⟩
      · simp only [matchLevels, if_neg h0, if_neg hg]
        rw [sideHandles_cons, List.mem_append] at hj
        have hsubt := forall2_struct_handles (matchLevels_levels_struct incoming g t
          (matchQueue arena incoming rem p0 q0).arena (matchQueue arena incoming rem p0 q0).rem)
        rcases hj with hjq | hjt
        · have hq := matchQueue_entries incoming p0 q0 arena rem hndq
            (fun j' hj' => hres j' (by
              rw [sideHandles_cons, List.mem_append]
              exact Or.inl hj')) j hjq
          obtain ⟨o, o', ho, ho', he⟩ := hq
          have hjnt : j ∉ sideHandles t := fun hc => hdisj hjq hc
          have hfr := (matchLevels_arena_frame incoming g t
            (matchQueue arena incoming rem p0 q0).arena
            (matchQueue arena incoming rem p0 q0).rem).2.2 j hjnt
          refine ⟨o, o', ho, by rw [hfr]; exact ho', he.1, he.2.1, he.2.2.1, he.2.2.2.1,
            he.2.2.2.2.1, he.2.2.2.2.2.1, ?_⟩
          intro hmem
          apply he.2.2.2.2.2.2
          rw [sideHandles_cons, List.mem_append] at hmem
          rcases hmem with hc | hc
          · exact hc
          · exact absurd (hsubt j hc) hjnt
        · have hjq0 : j ∉ q0 := fun hc => hdisj hc hjt
          have hqfr := (matchQueue_arena_frame incoming p0 q0 arena rem).2.2 j hjq0
          have hres' : ∀ j' ∈ sideHandles t, ∃ o,
              (matchQueue arena incoming rem p0 q0).arena.getO j' = some o ∧
              0 < o.remaining := by
            intro j' hj'
            have : j' ∉ q0 := fun hc => hdisj hc hj'
            rw [(matchQueue_arena_frame incoming p0 q0 arena rem).2.2 j' this]
            exact hres j' (by
              rw [sideHandles_cons, List.mem_append]
              exact Or.inr hj')
          obtain ⟨o, o', ho, ho', he⟩ := ih (matchQueue arena incoming rem p0 q0).arena
            (matchQueue arena incoming rem p0 q0).rem hndt hres' j hjt
          rw [hqfr] at ho
          refine ⟨o, o', ho, ho', he.1, he.2.1, he.2.2.1, he.2.2.2.1, he.2.2.2.2.1,
            he.2.2.2.2.2.1, ?_⟩
          intro hmem
          apply he.2.2.2.2.2.2
          rw [sideHandles_cons, List.mem_append] at hmem
          rcases hmem with hc | hc
          · exact absurd ((matchQueue_queue_sublist incoming p0 q0 arena rem).subset hc) hjq0
          · exact hc

theorem matchLevels_dropped (incoming : Order) (g : Nat → Bool) :
    ∀ (levels : List (Nat × List Nat)) (arena : Slab) (rem : Nat),
    (sideHandles levels).Nodup →
    ∀ j ∈ sideHandles levels,
    j ∉ sideHandles (matchLevels incoming g arena rem levels).levels →
    ((arena.getO j).getD dummyOrder).id ∈ (matchLevels incoming g arena rem levels).removed := by
  intro levels
  induction levels with
  | nil => intro arena rem _ j hj; cases hj
  | cons hd t ih =>
    intro arena rem hnd j hj hnot
    rcases hd with ⟨p0, q0⟩
    rw [sideHandles_cons, List.nodup_append] at hnd
    obtain ⟨hndq, hndt, hdisj⟩ := hnd
    by_cases h0 : rem = 0
    · simp only [matchLevels, if_pos h0] at hnot ⊢
      rw [sideHandles_cons] at hj
      exact absurd hj hnot
    · by_cases hg : g p0 = true
      · simp only [matchLevels, if_neg h0, if_pos hg] at hnot ⊢
        rw [sideHandles_cons] at hj
        exact absurd hj hnot
      · simp only [matchLevels, if_neg h0, if_neg hg] at hnot ⊢
        rw [sideHandles_cons, List.mem_append] at hnot
        push_neg at hnot
        rw [sideHandles_cons, List.mem_append] at hj
        rw [List.mem_append]
        rcases hj with hjq | hjt
        · left
          exact matchQueue_dropped incoming p0 q0 arena rem hndq j hjq hnot.1
        · right
          have hjq0 : j ∉ q0 := fun hc => hdisj hc hjt
          have hqfr := (matchQueue_arena_frame incoming p0 q0 arena rem).2.2 j hjq0
          have hd := ih (matchQueue arena incoming rem p0 q0).arena
            (matchQueue arena incoming rem p0 q0).rem hndt j hjt hnot.2
          rw [hqfr] at hd
          exact hd

/-- The slab/by_id bookkeeping facts that survive every step of the deferred
removal loop of `match_order` (unlike full well-formedness, which is broken
mid-loop). -/
def slabOk (b : OrderBook) : Prop :=
  (∀ kv ∈ b.by_id, ∃ o, b.orders.getO kv.2 = some o ∧ o.id = kv.1) ∧
  (b.by_id.map Prod.fst).Nodup ∧
  (∀ i ∈ b.orders.free, b.orders.getO i = none) ∧
  (∀ i ∈ b.orders.free, i < b.orders.entries.length) ∧
  b.orders.free.Nodup

theorem removeOrder_by_id_some (b : OrderBook) (rid idx : Nat)
    (h : alLookup b.by_id rid = some idx) :
    (removeOrder b rid).by_id = alRemove b.by_id rid ∧
    (removeOrder b rid).orders = b.orders.removeAt idx := by
  unfold removeOrder
  rw [h]
  exact ⟨rfl, rfl⟩

theorem removeOrder_lookup_ne (b : OrderBook) (rid k : Nat) (h : k ≠ rid) :
    alLookup (removeOrder b rid).by_id k = alLookup b.by_id k := by
  unfold removeOrder
  cases hl : alLookup b.by_id rid with
  | none => rfl
  | some idx => exact alLookup_alRemove_ne b.by_id rid k h

theorem removeOrder_slabOk (b : OrderBook) (rid : Nat) (h : slabOk b) :
    slabOk (removeOrder b rid) := by
  obtain ⟨hsound, hkeys, hvac, hlt, hfnd⟩ := h
  cases hl : alLookup b.by_id rid with
  | none =>
    unfold removeOrder
    rw [hl]
    exact ⟨hsound, hkeys, hvac, hlt, hfnd⟩
  | some cidx =>
    obtain ⟨hb, ho⟩ := removeOrder_by_id_some b rid cidx hl
    obtain ⟨oc, hoc, hocid⟩ := hsound (rid, cidx) (alLookup_mem _ _ _ hl)
    have hcl : cidx < b.orders.entries.length := Slab.getO_some_lt _ _ _ hoc
    have hcf : cidx ∉ b.orders.free := by
      intro hc
      rw [hvac cidx hc] at hoc
      cases hoc
    refine ⟨?_, ?_, ?_, ?_, ?_⟩
    · intro kv hkv
      rw [hb] at hkv
      obtain ⟨o, hgo, hid⟩ := hsound kv ((alRemove_sublist _ _).subset hkv)
      have hne : kv.2 ≠ cidx := by
        intro hc
        rw [hc, hoc] at hgo
        injection hgo with hgo'
        have : kv.1 = rid := by rw [← hid, ← hgo', hocid]
        have hgone := alLookup_alRemove_self b.by_id rid hkeys
        rw [alLookup_eq_none_iff] at hgone
        have hmem1 : kv.1 ∈ (alRemove b.by_id rid).map Prod.fst :=
          List.mem_map_of_mem Prod.fst hkv
        rw [this] at hmem1
        exact hgone hmem1
      refine ⟨o, ?_, hid⟩
      rw [ho, Slab.getO_removeAt_ne b.orders cidx kv.2 hne]
      exact hgo
    · rw [hb]
      exact hkeys.sublist (alRemove_keys_sublist _ _)
    · intro i hi
      rw [ho] at hi ⊢
      rw [Slab.removeAt_free] at hi
      rcases List.mem_cons.mp hi with hie | hif
      · rw [hie]
        exact Slab.getO_removeAt_self b.orders cidx
      · have : i ≠ cidx := by
          intro hc
          rw [hc] at hif
          exact hcf hif
        rw [Slab.getO_removeAt_ne b.orders cidx i this]
        exact hvac i hif
    · intro i hi
      rw [ho, Slab.removeAt_free] at hi
      rw [ho, Slab.removeAt_length]
      rcases List.mem_cons.mp hi with hie | hif
      · rw [hie]
        exact hcl
      · exact hlt i hif
    · rw [ho, Slab.removeAt_free]
      exact List.nodup_cons.mpr ⟨hcf, hfnd⟩

theorem removeOrderFold_slabOk (rids : List Nat) :
    ∀ (b : OrderBook), slabOk b → slabOk (rids.foldl removeOrder b) := by
  induction rids with
  | nil => intro b h; exact h
  | cons rid rest ih =>
    intro b h
    exact ih (removeOrder b rid) (removeOrder_slabOk b rid h)

theorem removeOrderFold_lookup (rids : List Nat) :
    ∀ (b : OrderBook) (k : Nat), (∀ rid ∈ rids, k ≠ rid) →
    alLookup (rids.foldl removeOrder b).by_id k = alLookup b.by_id k := by
  induction rids with
  | nil => intro b k _; rfl
  | cons rid rest ih =>
    intro b k hk
    rw [List.foldl_cons, ih (removeOrder b rid) k
      (fun r hr => hk r (List.mem_cons_of_mem _ hr)),
      removeOrder_lookup_ne b rid k (hk rid (List.mem_cons_self _ _))]

theorem removeOrderFold_key_gone (rids : List Nat) :
    ∀ (b : OrderBook), (b.by_id.map Prod.fst).Nodup → ∀ rid ∈ rids,
    (∃ v, alLookup b.by_id rid = some v) →
    alLookup (rids.foldl removeOrder b).by_id rid = none := by
  induction rids with
  | nil => intro b _ rid hrid; cases hrid
  | cons r0 rest ih =>
    intro b hnd rid hrid hv
    obtain ⟨v, hv⟩ := hv
    by_cases hr : rid = r0
    · subst hr
      obtain ⟨hb, _⟩ := removeOrder_by_id_some b rid v hv
      have hgone : alLookup (removeOrder b rid).by_id rid = none := by
        rw [hb]
        exact alLookup_alRemove_self b.by_id rid hnd
      rw [alLookup_eq_none_iff] at hgone
      rw [List.foldl_cons, alLookup_eq_none_iff]
      intro hc
      exact hgone
        (((removeOrderFold rest (removeOrder b rid)).2.2.1).subset hc)
    · rcases List.mem_cons.mp hrid with hre | hrr
      · exact absurd hre hr
      · rw [List.foldl_cons]
        apply ih (removeOrder b r0)
          (hnd.sublist (removeOrder_keys_sub b r0)) rid hrr
        refine ⟨v, ?_⟩
        rw [removeOrder_lookup_ne b r0 rid hr]
        exact hv

theorem matchLevels_empty_clean (incoming : Order) (g : Nat → Bool) :
    ∀ (levels : List (Nat × List Nat)) (arena : Slab) (rem : Nat),
    (∀ pq ∈ levels, pq.2 ≠ []) →
    ∀ pq ∈ (matchLevels incoming g arena rem levels).levels, pq.2 = [] →
    pq.1 ∈ (matchLevels incoming g arena rem levels).clean := by
  intro levels
  induction levels with
  | nil => intro arena rem _ pq hpq; cases hpq
  | cons hd t ih =>
    intro arena rem hne pq hpq hemp
    rcases hd with ⟨p0, q0⟩
    by_cases h0 : rem = 0
    · simp only [matchLevels, if_pos h0] at hpq ⊢
      exact absurd hemp (hne pq hpq)
    · by_cases hg : g p0 = true
      · simp only [matchLevels, if_neg h0, if_pos hg] at hpq ⊢
        exact absurd hemp (hne pq hpq)
      · simp only [matchLevels, if_neg h0, if_neg hg] at hpq ⊢
        rw [List.mem_append]
        rcases List.mem_cons.mp hpq with hpe | hpt
        · left
          have : (matchQueue arena incoming rem p0 q0).queue.isEmpty = true := by
            rw [List.isEmpty_iff]
            have : pq.2 = (matchQueue arena incoming rem p0 q0).queue := by rw [hpe]
            rw [← this]
            exact hemp
          rw [if_pos this]
          have : pq.1 = p0 := by rw [hpe]
          rw [this]
          exact List.mem_cons_self _ _
        · right
          exact ih (matchQueue arena incoming rem p0 q0).arena
            (matchQueue arena incoming rem p0 q0).rem
            (fun pq' hpq' => hne pq' (List.mem_cons_of_mem _ hpq')) pq hpt hemp

theorem resting_entries (b : OrderBook) (hwf : WF b) :
    ∀ j ∈ bookHandles b, ∃ o, b.orders.getO j = some o ∧ 0 < o.remaining := by
  intro j hj
  unfold bookHandles at hj
  rw [List.mem_append] at hj
  rcases hj with hj | hj
  · rw [mem_sideHandles] at hj
    obtain ⟨pq, hpq, hin⟩ := hj
    obtain ⟨o, h1, _, _, h4, _, _⟩ := hwf.bidsWF.resolve pq hpq j hin
    exact ⟨o, h1, h4⟩
  · rw [mem_sideHandles] at hj
    obtain ⟨pq, hpq, hin⟩ := hj
    obtain ⟨o, h1, _, _, h4, _, _⟩ := hwf.asksWF.resolve pq hpq j hin
    exact ⟨o, h1, h4⟩

theorem matchOrder_wf (b : OrderBook) (hwf : WF b) (incoming : Order) (ign : Bool) :
    WF (matchOrder b incoming ign).1 := by
  have hhn := hwf.handlesNodup
  unfold bookHandles at hhn
  rw [List.nodup_append] at hhn
  obtain ⟨hbidsN, hasksN, hdisjbn⟩ := hhn
  cases hs : incoming.side with
  | Bid =>
    have hbook := matchOrder_book_bid b incoming ign hs
    set g := fun bp => !ign && decide (incoming.price < bp) with hg
    set L := matchLevels incoming g b.orders incoming.remaining b.asks with hLdef
    rw [hbook]
    set b1 : OrderBook := { b with orders := L.arena, asks := L.levels } with hb1
    set B2 := L.removed.foldl removeOrder b1 with hB2
    set B3 := L.clean.foldl (fun bb p => { bb with asks := alRemove bb.asks p }) B2 with hB3
    have hcf := cleanFoldAsks L.clean B2
    have hfold := removeOrderFold L.removed b1
    have hstruct := matchLevels_levels_struct incoming g b.asks b.orders incoming.remaining
    have hkeysasks := keysSorted_map_nodup _ hwf.asksWF.sorted
    have hkeysL : L.levels.map Prod.fst = b.asks.map Prod.fst := forall2_struct_map_fst hstruct
    have hkeysLN : (L.levels.map Prod.fst).Nodup := by rw [hkeysL]; exact hkeysasks
    have hsortedL : keysSorted L.levels := by
      rw [keysSorted_iff, hkeysL]
      exact (keysSorted_iff _).mp hwf.asksWF.sorted
    have hSsub : (sideHandles L.levels).Sublist (sideHandles b.asks) :=
      forall2_struct_handles_sublist hstruct
    have hres : ∀ j ∈ sideHandles b.asks, ∃ o, b.orders.getO j = some o ∧ 0 < o.remaining := by
      intro j hj
      exact resting_entries b hwf j (by
        unfold bookHandles
        exact List.mem_append.mpr (Or.inr hj))
    have hentries := matchLevels_entries incoming g b.asks b.orders incoming.remaining
      hasksN hres
    have harenaframe := matchLevels_arena_frame incoming g b.asks b.orders incoming.remaining
    have hremfact : ∀ rid ∈ L.removed, ∃ jr, alLookup b.by_id rid = some jr ∧
        jr ∈ sideHandles b.asks ∧ jr ∉ sideHandles L.levels := by
      intro rid hrid
      obtain ⟨jr, hjrmem, hjrnot, hride⟩ := matchLevels_removed_lift incoming g b.asks
        b.orders incoming.remaining hasksN rid hrid
      obtain ⟨o, ho, hlk⟩ := resting_lookup b hwf jr (by
        unfold bookHandles
        exact List.mem_append.mpr (Or.inr hjrmem))
      refine ⟨jr, ?_, hjrmem, hjrnot⟩
      rw [hride, ho]
      exact hlk
    have hcond : ∀ j, (j ∈ sideHandles b.bids ∨ j ∈ sideHandles L.levels) →
        ∀ rid ∈ L.removed, ∀ k, alLookup b.by_id rid = some k → k ≠ j := by
      intro j hj rid hrid k hk hc
      obtain ⟨jr, hlk, hjrmem, hjrnot⟩ := hremfact rid hrid
      rw [hlk] at hk
      have hkj : jr = j := by rw [← hc]; exact Option.some.inj hk
      rcases hj with hjb | hjL
      · exact hdisjbn hjb (hkj ▸ hjrmem)
      · exact hjrnot (hkj ▸ hjL)
    have hslab1 : slabOk b1 := by
      refine ⟨?_, hwf.byIdKeys, ?_, ?_, ?_⟩
      · intro kv hkv
        obtain ⟨hmem, o, ho, hid⟩ := hwf.byIdSound kv hkv
        unfold bookHandles at hmem
        rw [List.mem_append] at hmem
        rcases hmem with hm | hm
        · refine ⟨o, ?_, hid⟩
          show L.arena.getO kv.2 = some o
          rw [harenaframe.2.2 kv.2 (fun hc => hdisjbn hm hc)]
          exact ho
        · obtain ⟨o₂, o', ho₂, ho', he⟩ := hentries kv.2 hm
          rw [ho] at ho₂
          injection ho₂ with hoe
          subst hoe
          exact ⟨o', ho', by rw [he.1, hid]⟩
      · intro i hi
        show L.arena.getO i = none
        have hib : i ∈ b.orders.free := by rw [← harenaframe.1]; exact hi
        have hnotash : i ∉ sideHandles b.asks := by
          intro hc
          obtain ⟨o, ho, _⟩ := hres i hc
          rw [hwf.freeVacant i hib] at ho
          cases ho
        rw [harenaframe.2.2 i hnotash]
        exact hwf.freeVacant i hib
      · intro i hi
        show i < L.arena.entries.length
        rw [harenaframe.2.1]
        exact hwf.freeLt i (by rw [← harenaframe.1]; exact hi)
      · show L.arena.free.Nodup
        rw [harenaframe.1]
        exact hwf.freeNodup
    have hslab2 : slabOk B2 := removeOrderFold_slabOk L.removed b1 hslab1
    have hpres : ∀ j, (j ∈ sideHandles b.bids ∨ j ∈ sideHandles L.levels) →
        B2.orders.getO j = b1.orders.getO j := by
      intro j hj
      exact hfold.2.2.2 j hwf.byIdKeys (fun rid hrid k hk => hcond j hj rid hrid k hk)
    have hlkpres : ∀ (oid j : Nat), alLookup b.by_id oid = some j →
        (j ∈ sideHandles b.bids ∨ j ∈ sideHandles L.levels) →
        alLookup B2.by_id oid = some j := by
      intro oid j hlk hj
      have hne : ∀ rid ∈ L.removed, oid ≠ rid := by
        intro rid hrid hc
        obtain ⟨jr, hlk2, hjrmem, hjrnot⟩ := hremfact rid hrid
        rw [hc, hlk2] at hlk
        have hkj : jr = j := Option.some.inj hlk
        rcases hj with hjb | hjL
        · exact hdisjbn hjb (hkj ▸ hjrmem)
        · exact hjrnot (hkj ▸ hjL)
      rw [removeOrderFold_lookup L.removed b1 oid hne]
      exact hlk
    have hb3bids : B3.bids = b.bids := hcf.1.trans hfold.1.1
    have hb3orders : B3.orders = B2.orders := hcf.2.1
    have hb3byid : B3.by_id = B2.by_id := hcf.2.2.1
    have hb3asks : B3.asks = L.clean.foldl alRemove L.levels := by
      rw [hcf.2.2.2, hfold.1.2]
    have hasks3subL : B3.asks.Sublist L.levels := by
      rw [hb3asks]
      exact foldl_alRemove_sublist L.clean L.levels
    have hb3keysN : (B3.asks.map Prod.fst).Nodup := hkeysLN.sublist (hasks3subL.map _)
    have hsurvive : ∀ p' q', (p', q') ∈ L.levels → q' ≠ [] → (p', q') ∈ B3.asks := by
      intro p' q' hmem hne
      rw [hb3asks]
      apply mem_foldl_alRemove L.clean L.levels hkeysLN p' q' hmem
      intro hc
      obtain ⟨qc, hqc, hqce⟩ := matchLevels_clean_src incoming g b.asks b.orders
        incoming.remaining p' hc
      have hqe := keysNodup_mem_unique hkeysLN hqc hmem
      rw [hqe, List.isEmpty_iff] at hqce
      exact hne hqce
    refine ⟨⟨?_, ?_, ?_, ?_⟩, ⟨?_, ?_, ?_, ?_⟩, ?_, ?_, ?_, ?_, ?_, ?_⟩
    · rw [hb3bids]
      exact hwf.bidsWF.sorted
    · rw [hb3bids]
      exact hwf.bidsWF.nonempty
    · rw [hb3bids]
      exact hwf.bidsWF.inRange
    · intro pq hpq j hj
      rw [hb3bids] at hpq
      obtain ⟨o, ho, hside, hprice, hpos, hqty, hlk⟩ := hwf.bidsWF.resolve pq hpq j hj
      have hjb : j ∈ sideHandles b.bids := (mem_sideHandles _ _).mpr ⟨pq, hpq, hj⟩
      refine ⟨o, ?_, hside, hprice, hpos, hqty, ?_⟩
      · rw [hb3orders, hpres j (Or.inl hjb)]
        show L.arena.getO j = some o
        rw [harenaframe.2.2 j (fun hc => hdisjbn hjb hc)]
        exact ho
      · rw [hb3byid]
        exact hlkpres o.id j hlk (Or.inl hjb)
    · exact keysSorted_sublist hasks3subL hsortedL
    · intro pq hpq hempty
      have hmemL : pq ∈ L.levels := hasks3subL.subset hpq
      have hclean := matchLevels_empty_clean incoming g b.asks b.orders incoming.remaining
        hwf.asksWF.nonempty pq hmemL hempty
      have hnone : alLookup B3.asks pq.1 = none := by
        rw [hb3asks]
        exact alLookup_foldl_alRemove_mem L.clean L.levels hkeysLN pq.1 hclean
      have hpq' : (pq.1, pq.2) ∈ B3.asks := by rw [Prod.mk.eta]; exact hpq
      rw [mem_alLookup B3.asks pq.1 pq.2 hpq' hb3keysN] at hnone
      cases hnone
    · intro pq hpq
      have hmemL : pq ∈ L.levels := hasks3subL.subset hpq
      have hk : pq.1 ∈ b.asks.map Prod.fst := by
        rw [← hkeysL]
        exact List.mem_map_of_mem Prod.fst hmemL
      rw [List.mem_map] at hk
      obtain ⟨a, ha, hae⟩ := hk
      have hr := hwf.asksWF.inRange a ha
      rw [hae] at hr
      exact hr
    · intro pq hpq j hj
      have hmemL : pq ∈ L.levels := hasks3subL.subset hpq
      obtain ⟨a, haa, hkey, hsubq⟩ := forall2_struct_mem hstruct pq hmemL
      have hja : j ∈ a.2 := hsubq.subset hj
      obtain ⟨o, ho, hside, hprice, hpos, hqty, hlk⟩ := hwf.asksWF.resolve a haa j hja
      have hjS : j ∈ sideHandles b.asks := (mem_sideHandles _ _).mpr ⟨a, haa, hja⟩
      have hjL : j ∈ sideHandles L.levels := (mem_sideHandles _ _).mpr ⟨pq, hmemL, hj⟩
      obtain ⟨o₂, o', ho₂, ho', he⟩ := hentries j hjS
      rw [ho] at ho₂
      injection ho₂ with hoe
      subst hoe
      refine ⟨o', ?_, ?_, ?_, ?_, ?_, ?_⟩
      · rw [hb3orders, hpres j (Or.inr hjL)]
        exact ho'
      · rw [he.2.2.1]
        exact hside
      · rw [he.2.2.2.1, hprice]
        exact hkey.symm
      · exact he.2.2.2.2.2.2 hjL
      · rw [he.2.2.2.2.1]
        exact le_trans he.2.2.2.2.2.1 hqty
      · rw [hb3byid, he.1]
        exact hlkpres o.id j hlk (Or.inr hjL)
    · show (bookHandles B3).Nodup
      unfold bookHandles
      rw [hb3bids, List.nodup_append]
      have hsubchain : (sideHandles B3.asks).Sublist (sideHandles b.asks) :=
        (sideHandles_sublist hasks3subL).trans hSsub
      exact ⟨hbidsN, hasksN.sublist hsubchain,
        fun x hx hx' => hdisjbn hx (hsubchain.subset hx')⟩
    · intro kv hkv
      rw [hb3byid] at hkv
      have hkvb : kv ∈ b.by_id := hfold.2.1 kv hkv
      obtain ⟨hmem, o, ho, hid⟩ := hwf.byIdSound kv hkvb
      obtain ⟨o', ho', hid'⟩ := hslab2.1 kv hkv
      refine ⟨?_, o', by rw [hb3orders]; exact ho', hid'⟩
      unfold bookHandles at hmem ⊢
      rw [List.mem_append] at hmem
      rw [hb3bids, List.mem_append]
      rcases hmem with hm | hm
      · exact Or.inl hm
      · right
        have hin : kv.2 ∈ sideHandles L.levels := by
          by_contra hdrop
          have hidd := matchLevels_dropped incoming g b.asks b.orders incoming.remaining
            hasksN kv.2 hm hdrop
          have hide : ((b.orders.getO kv.2).getD dummyOrder).id = kv.1 := by
            rw [ho]
            exact hid
          rw [hide] at hidd
          have hkvmk : (kv.1, kv.2) ∈ b.by_id := by rw [Prod.mk.eta]; exact hkvb
          have hlkq : alLookup b.by_id kv.1 = some kv.2 :=
            mem_alLookup b.by_id kv.1 kv.2 hkvmk hwf.byIdKeys
          have hgone := removeOrderFold_key_gone L.removed b1 hwf.byIdKeys kv.1 hidd
            ⟨kv.2, hlkq⟩
          have hkvmk2 : (kv.1, kv.2) ∈ B2.by_id := by rw [Prod.mk.eta]; exact hkv
          have hsome : alLookup B2.by_id kv.1 = some kv.2 :=
            mem_alLookup _ _ _ hkvmk2 hslab2.2.1
          rw [hgone] at hsome
          cases hsome
        rw [mem_sideHandles] at hin
        obtain ⟨pq, hpql, hjq⟩ := hin
        have hneq : pq.2 ≠ [] := by
          intro hc
          rw [hc] at hjq
          cases hjq
        have hsv := hsurvive pq.1 pq.2 (by rw [Prod.mk.eta]; exact hpql) hneq
        rw [mem_sideHandles]
        exact ⟨(pq.1, pq.2), hsv, hjq⟩
    · rw [hb3byid]
      exact hslab2.2.1
    · intro i hi
      rw [hb3orders] at hi ⊢
      exact hslab2.2.2.1 i hi
    · intro i hi
      rw [hb3orders] at hi ⊢
      exact hslab2.2.2.2.1 i hi
    · rw [hb3orders]
      exact hslab2.2.2.2.2
  | Ask =>
    have hbook := matchOrder_book_ask b incoming ign hs
    set g := fun bp => !ign && decide (bp < incoming.price) with hg
    set L := matchLevels incoming g b.orders incoming.remaining b.bids.reverse with hLdef
    rw [hbook]
    set b1 : OrderBook := { b with orders := L.arena, bids := L.levels.reverse } with hb1
    set B2 := L.removed.foldl removeOrder b1 with hB2
    set B3 := L.clean.foldl (fun bb p => { bb with bids := alRemove bb.bids p }) B2 with hB3
    have hcf := cleanFoldBids L.clean B2
    have hfold := removeOrderFold L.removed b1
    have hrevN : (sideHandles b.bids.reverse).Nodup :=
      ((sideHandles_reverse_perm b.bids).nodup_iff).mpr hbidsN
    have hstruct := matchLevels_levels_struct incoming g b.bids.reverse b.orders
      incoming.remaining
    have hkeysbids := keysSorted_map_nodup _ hwf.bidsWF.sorted
    have hkeysL : L.levels.map Prod.fst = b.bids.reverse.map Prod.fst :=
      forall2_struct_map_fst hstruct
    have hkeysLN : (L.levels.map Prod.fst).Nodup := by
      rw [hkeysL, List.map_reverse]
      exact List.nodup_reverse.mpr hkeysbids
    have hkeysLrevN : (L.levels.reverse.map Prod.fst).Nodup := by
      rw [List.map_reverse]
      exact List.nodup_reverse.mpr hkeysLN
    have hsortedLrev : keysSorted L.levels.reverse := by
      rw [keysSorted_iff, List.map_reverse, hkeysL, List.map_reverse, List.reverse_reverse]
      exact (keysSorted_iff _).mp hwf.bidsWF.sorted
    have hSsub : (sideHandles L.levels).Sublist (sideHandles b.bids.reverse) :=
      forall2_struct_handles_sublist hstruct
    have hres : ∀ j ∈ sideHandles b.bids.reverse, ∃ o, b.orders.getO j = some o ∧
        0 < o.remaining := by
      intro j hj
      exact resting_entries b hwf j (by
        unfold bookHandles
        exact List.mem_append.mpr
          (Or.inl ((sideHandles_reverse_perm b.bids).mem_iff.mp hj)))
    have hentries := matchLevels_entries incoming g b.bids.reverse b.orders incoming.remaining
      hrevN hres
    have harenaframe := matchLevels_arena_frame incoming g b.bids.reverse b.orders
      incoming.remaining
    have hremfact : ∀ rid ∈ L.removed, ∃ jr, alLookup b.by_id rid = some jr ∧
        jr ∈ sideHandles b.bids.reverse ∧ jr ∉ sideHandles L.levels := by
      intro rid hrid
      obtain ⟨jr, hjrmem, hjrnot, hride⟩ := matchLevels_removed_lift incoming g b.bids.reverse
        b.orders incoming.remaining hrevN rid hrid
      obtain ⟨o, ho, hlk⟩ := resting_lookup b hwf jr (by
        unfold bookHandles
        exact List.mem_append.mpr
          (Or.inl ((sideHandles_reverse_perm b.bids).mem_iff.mp hjrmem)))
      refine ⟨jr, ?_, hjrmem, hjrnot⟩
      rw [hride, ho]
      exact hlk
    have hcond : ∀ j, (j ∈ sideHandles b.asks ∨ j ∈ sideHandles L.levels) →
        ∀ rid ∈ L.removed, ∀ k, alLookup b.by_id rid = some k → k ≠ j := by
      intro j hj rid hrid k hk hc
      obtain ⟨jr, hlk, hjrmem, hjrnot⟩ := hremfact rid hrid
      rw [hlk] at hk
      have hkj : jr = j := by rw [← hc]; exact Option.some.inj hk
      rcases hj with hja | hjL
      · exact hdisjbn ((sideHandles_reverse_perm b.bids).mem_iff.mp (hkj ▸ hjrmem)) hja
      · exact hjrnot (hkj ▸ hjL)
    have hslab1 : slabOk b1 := by
      refine ⟨?_, hwf.byIdKeys, ?_, ?_, ?_⟩
      · intro kv hkv
        obtain ⟨hmem, o, ho, hid⟩ := hwf.byIdSound kv hkv
        unfold bookHandles at hmem
        rw [List.mem_append] at hmem
        rcases hmem with hm | hm
        · obtain ⟨o₂, o', ho₂, ho', he⟩ := hentries kv.2
            ((sideHandles_reverse_perm b.bids).mem_iff.mpr hm)
          rw [ho] at ho₂
          injection ho₂ with hoe
          subst hoe
          exact ⟨o', ho', by rw [he.1, hid]⟩
        · refine ⟨o, ?_, hid⟩
          show L.arena.getO kv.2 = some o
          rw [harenaframe.2.2 kv.2 (fun hc => hdisjbn
            ((sideHandles_reverse_perm b.bids).mem_iff.mp hc) hm)]
          exact ho
      · intro i hi
        show L.arena.getO i = none
        have hib : i ∈ b.orders.free := by rw [← harenaframe.1]; exact hi
        have hnotbh : i ∉ sideHandles b.bids.reverse := by
          intro hc
          obtain ⟨o, ho, _⟩ := hres i hc
          rw [hwf.freeVacant i hib] at ho
          cases ho
        rw [harenaframe.2.2 i hnotbh]
        exact hwf.freeVacant i hib
      · intro i hi
        show i < L.arena.entries.length
        rw [harenaframe.2.1]
        exact hwf.freeLt i (by rw [← harenaframe.1]; exact hi)
      · show L.arena.free.Nodup
        rw [harenaframe.1]
        exact hwf.freeNodup
    have hslab2 : slabOk B2 := removeOrderFold_slabOk L.removed b1 hslab1
    have hpres : ∀ j, (j ∈ sideHandles b.asks ∨ j ∈ sideHandles L.levels) →
        B2.orders.getO j = b1.orders.getO j := by
      intro j hj
      exact hfold.2.2.2 j hwf.byIdKeys (fun rid hrid k hk => hcond j hj rid hrid k hk)
    have hlkpres : ∀ (oid j : Nat), alLookup b.by_id oid = some j →
        (j ∈ sideHandles b.asks ∨ j ∈ sideHandles L.levels) →
        alLookup B2.by_id oid = some j := by
      intro oid j hlk hj
      have hne : ∀ rid ∈ L.removed, oid ≠ rid := by
        intro rid hrid hc
        obtain ⟨jr, hlk2, hjrmem, hjrnot⟩ := hremfact rid hrid
        rw [hc, hlk2] at hlk
        have hkj : jr = j := Option.some.inj hlk
        rcases hj with hja | hjL
        · exact hdisjbn ((sideHandles_reverse_perm b.bids).mem_iff.mp (hkj ▸ hjrmem)) hja
        · exact hjrnot (hkj ▸ hjL)
      rw [removeOrderFold_lookup L.removed b1 oid hne]
      exact hlk
    have hb3asks : B3.asks = b.asks := hcf.1.trans hfold.1.2
    have hb3orders : B3.orders = B2.orders := hcf.2.1
    have hb3byid : B3.by_id = B2.by_id := hcf.2.2.1
    have hb3bids : B3.bids = L.clean.foldl alRemove L.levels.reverse := by
      rw [hcf.2.2.2, hfold.1.1]
    have hbids3subL : B3.bids.Sublist L.levels.reverse := by
      rw [hb3bids]
      exact foldl_alRemove_sublist L.clean L.levels.reverse
    have hb3keysN : (B3.bids.map Prod.fst).Nodup := hkeysLrevN.sublist (hbids3subL.map _)
    have hsurvive : ∀ p' q', (p', q') ∈ L.levels → q' ≠ [] → (p', q') ∈ B3.bids := by
      intro p' q' hmem hne
      rw [hb3bids]
      apply mem_foldl_alRemove L.clean L.levels.reverse hkeysLrevN p' q'
        (List.mem_reverse.mpr hmem)
      intro hc
      obtain ⟨qc, hqc, hqce⟩ := matchLevels_clean_src incoming g b.bids.reverse b.orders
        incoming.remaining p' hc
      have hqe := keysNodup_mem_unique hkeysLN hqc hmem
      rw [hqe, List.isEmpty_iff] at hqce
      exact hne hqce
    refine ⟨⟨?_, ?_, ?_, ?_⟩, ⟨?_, ?_, ?_, ?_⟩, ?_, ?_, ?_, ?_, ?_, ?_⟩
    · exact keysSorted_sublist hbids3subL hsortedLrev
    · intro pq hpq hempty
      have hmemL : pq ∈ L.levels := List.mem_reverse.mp (hbids3subL.subset hpq)
      have hclean := matchLevels_empty_clean incoming g b.bids.reverse b.orders
        incoming.remaining
        (fun pq' hpq' => hwf.bidsWF.nonempty pq' (List.mem_reverse.mp hpq'))
        pq hmemL hempty
      have hnone : alLookup B3.bids pq.1 = none := by
        rw [hb3bids]
        exact alLookup_foldl_alRemove_mem L.clean L.levels.reverse hkeysLrevN pq.1 hclean
      have hpq' : (pq.1, pq.2) ∈ B3.bids := by rw [Prod.mk.eta]; exact hpq
      rw [mem_alLookup B3.bids pq.1 pq.2 hpq' hb3keysN] at hnone
      cases hnone
    · intro pq hpq
      have hmemL : pq ∈ L.levels := List.mem_reverse.mp (hbids3subL.subset hpq)
      have hk : pq.1 ∈ b.bids.map Prod.fst := by
        have : pq.1 ∈ b.bids.reverse.map Prod.fst := by
          rw [← hkeysL]
          exact List.mem_map_of_mem Prod.fst hmemL
        rw [List.map_reverse, List.mem_reverse] at this
        exact this
      rw [List.mem_map] at hk
      obtain ⟨a, ha, hae⟩ := hk
      have hr := hwf.bidsWF.inRange a ha
      rw [hae] at hr
      exact hr
    · intro pq hpq j hj
      have hmemL : pq ∈ L.levels := List.mem_reverse.mp (hbids3subL.subset hpq)
      obtain ⟨a, haa, hkey, hsubq⟩ := forall2_struct_mem hstruct pq hmemL
      have hja : j ∈ a.2 := hsubq.subset hj
      have hab : a ∈ b.bids := List.mem_reverse.mp haa
      obtain ⟨o, ho, hside, hprice, hpos, hqty, hlk⟩ := hwf.bidsWF.resolve a hab j hja
      have hjS : j ∈ sideHandles b.bids.reverse := (mem_sideHandles _ _).mpr ⟨a, haa, hja⟩
      have hjL : j ∈ sideHandles L.levels := (mem_sideHandles _ _).mpr ⟨pq, hmemL, hj⟩
      obtain ⟨o₂, o', ho₂, ho', he⟩ := hentries j hjS
      rw [ho] at ho₂
      injection ho₂ with hoe
      subst hoe
      refine ⟨o', ?_, ?_, ?_, ?_, ?_, ?_⟩
      · rw [hb3orders, hpres j (Or.inr hjL)]
        exact ho'
      · rw [he.2.2.1]
        exact hside
      · rw [he.2.2.2.1, hprice]
        exact hkey.symm
      · exact he.2.2.2.2.2.2 hjL
      · rw [he.2.2.2.2.1]
        exact le_trans he.2.2.2.2.2.1 hqty
      · rw [hb3byid, he.1]
        exact hlkpres o.id j hlk (Or.inr hjL)
    · rw [hb3asks]
      exact hwf.asksWF.sorted
    · rw [hb3asks]
      exact hwf.asksWF.nonempty
    · rw [hb3asks]
      exact hwf.asksWF.inRange
    · intro pq hpq j hj
      rw [hb3asks] at hpq
      obtain ⟨o, ho, hside, hprice, hpos, hqty, hlk⟩ := hwf.asksWF.resolve pq hpq j hj
      have hja : j ∈ sideHandles b.asks := (mem_sideHandles _ _).mpr ⟨pq, hpq, hj⟩
      refine ⟨o, ?_, hside, hprice, hpos, hqty, ?_⟩
      · rw [hb3orders, hpres j (Or.inl hja)]
        show L.arena.getO j = some o
        rw [harenaframe.2.2 j (fun hc => hdisjbn
          ((sideHandles_reverse_perm b.bids).mem_iff.mp hc) hja)]
        exact ho
      · rw [hb3byid]
        exact hlkpres o.id j hlk (Or.inl hja)
    · show (bookHandles B3).Nodup
      unfold bookHandles
      rw [hb3asks, List.nodup_append]
      have hsubchain : ∀ x ∈ sideHandles B3.bids, x ∈ sideHandles b.bids := by
        intro x hx
        have h1 := (sideHandles_sublist hbids3subL).subset hx
        have h2 := (sideHandles_reverse_perm L.levels).mem_iff.mp h1
        have h3 := hSsub.subset h2
        exact (sideHandles_reverse_perm b.bids).mem_iff.mp h3
      refine ⟨?_, hasksN, fun x hx hx' => hdisjbn (hsubchain x hx) hx'⟩
      have hrevLN : (sideHandles L.levels.reverse).Nodup :=
        ((sideHandles_reverse_perm L.levels).nodup_iff).mpr (hrevN.sublist hSsub)
      exact hrevLN.sublist (sideHandles_sublist hbids3subL)
    · intro kv hkv
      rw [hb3byid] at hkv
      have hkvb : kv ∈ b.by_id := hfold.2.1 kv hkv
      obtain ⟨hmem, o, ho, hid⟩ := hwf.byIdSound kv hkvb
      obtain ⟨o', ho', hid'⟩ := hslab2.1 kv hkv
      refine ⟨?_, o', by rw [hb3orders]; exact ho', hid'⟩
      unfold bookHandles at hmem ⊢
      rw [List.mem_append] at hmem
      rw [hb3asks, List.mem_append]
      rcases hmem with hm | hm
      · left
        have hmr : kv.2 ∈ sideHandles b.bids.reverse :=
          (sideHandles_reverse_perm b.bids).mem_iff.mpr hm
        have hin : kv.2 ∈ sideHandles L.levels := by
          by_contra hdrop
          have hidd := matchLevels_dropped incoming g b.bids.reverse b.orders
            incoming.remaining hrevN kv.2 hmr hdrop
          have hide : ((b.orders.getO kv.2).getD dummyOrder).id = kv.1 := by
            rw [ho]
            exact hid
          rw [hide] at hidd
          have hkvmk : (kv.1, kv.2) ∈ b.by_id := by rw [Prod.mk.eta]; exact hkvb
          have hlkq : alLookup b.by_id kv.1 = some kv.2 :=
            mem_alLookup b.by_id kv.1 kv.2 hkvmk hwf.byIdKeys
          have hgone := removeOrderFold_key_gone L.removed b1 hwf.byIdKeys kv.1 hidd
            ⟨kv.2, hlkq⟩
          have hkvmk2 : (kv.1, kv.2) ∈ B2.by_id := by rw [Prod.mk.eta]; exact hkv
          have hsome : alLookup B2.by_id kv.1 = some kv.2 :=
            mem_alLookup _ _ _ hkvmk2 hslab2.2.1
          rw [hgone] at hsome
          cases hsome
        rw [mem_sideHandles] at hin
        obtain ⟨pq, hpql, hjq⟩ := hin
        have hneq : pq.2 ≠ [] := by
          intro hc
          rw [hc] at hjq
          cases hjq
        have hsv := hsurvive pq.1 pq.2 (by rw [Prod.mk.eta]; exact hpql) hneq
        rw [mem_sideHandles]
        exact ⟨(pq.1, pq.2), hsv, hjq⟩
      · exact Or.inr hm
    · rw [hb3byid]
      exact hslab2.2.1
    · intro i hi
      rw [hb3orders] at hi ⊢
      exact hslab2.2.2.1 i hi
    · intro i hi
      rw [hb3orders] at hi ⊢
      exact hslab2.2.2.2.1 i hi
    · rw [hb3orders]
      exact hslab2.2.2.2.2

theorem levelPush_nonempty (m : List (Nat × List Nat)) (p i : Nat)
    (h : ∀ pq ∈ m, pq.2 ≠ []) : ∀ pq ∈ levelPush m p i, pq.2 ≠ [] := by
  induction m with
  | nil =>
    intro pq hpq
    simp only [levelPush] at hpq
    rcases List.mem_cons.mp hpq with hpe | hpe
    · rw [hpe]
      simp
    · cases hpe
  | cons kv t ih =>
    intro pq hpq
    rcases kv with ⟨pk, qk⟩
    simp only [levelPush] at hpq
    by_cases hp : p = pk
    · rw [if_pos hp] at hpq
      rcases List.mem_cons.mp hpq with hpe | hpe
      · rw [hpe]
        simp
      · exact h pq (List.mem_cons_of_mem _ hpe)
    · rw [if_neg hp] at hpq
      by_cases hlt : p < pk
      · rw [if_pos hlt] at hpq
        rcases List.mem_cons.mp hpq with hpe | hpe
        · rw [hpe]
          simp
        · exact h pq hpe
      · rw [if_neg hlt] at hpq
        rcases List.mem_cons.mp hpq with hpe | hpe
        · rw [hpe]
          exact h (pk, qk) (List.mem_cons_self _ _)
        · exact ih (fun pq' hpq' => h pq' (List.mem_cons_of_mem _ hpq')) pq hpe

theorem levelPush_mem_queue (m : List (Nat × List Nat)) (p i : Nat) :
    ∀ pq ∈ levelPush m p i, ∀ j ∈ pq.2,
    (pq.1 = p ∧ j = i) ∨ (∃ q0, (pq.1, q0) ∈ m ∧ j ∈ q0) := by
  induction m with
  | nil =>
    intro pq hpq j hj
    simp only [levelPush] at hpq
    rcases List.mem_cons.mp hpq with hpe | hpe
    · rw [hpe] at hj ⊢
      rcases List.mem_cons.mp hj with hje | hje
      · exact Or.inl ⟨rfl, hje⟩
      · cases hje
    · cases hpe
  | cons kv t ih =>
    intro pq hpq j hj
    rcases kv with ⟨pk, qk⟩
    simp only [levelPush] at hpq
    by_cases hp : p = pk
    · rw [if_pos hp] at hpq
      rcases List.mem_cons.mp hpq with hpe | hpe
      · rw [hpe] at hj ⊢
        rw [List.mem_append] at hj
        rcases hj with hj | hj
        · exact Or.inr ⟨qk, List.mem_cons_self _ _, hj⟩
        · rcases List.mem_cons.mp hj with hje | hje
          · exact Or.inl ⟨hp.symm, hje⟩
          · cases hje
      · exact Or.inr ⟨pq.2, by rw [Prod.mk.eta]; exact List.mem_cons_of_mem _ hpe, hj⟩
    · rw [if_neg hp] at hpq
      by_cases hlt : p < pk
      · rw [if_pos hlt] at hpq
        rcases List.mem_cons.mp hpq with hpe | hpe
        · rw [hpe] at hj ⊢
          rcases List.mem_cons.mp hj with hje | hje
          · exact Or.inl ⟨rfl, hje⟩
          · cases hje
        · exact Or.inr ⟨pq.2, by rw [Prod.mk.eta]; exact hpe, hj⟩
      · rw [if_neg hlt] at hpq
        rcases List.mem_cons.mp hpq with hpe | hpe
        · refine Or.inr ⟨pq.2, ?_, hj⟩
          rw [Prod.mk.eta, hpe]
          exact List.mem_cons_self _ _
        · rcases ih pq hpe j hj with hc | ⟨q0, hq0, hjq0⟩
          · exact Or.inl hc
          · exact Or.inr ⟨q0, List.mem_cons_of_mem _ hq0, hjq0⟩

theorem Slab.insert_free_facts (s : Slab) (o : Order)
    (hv : ∀ i ∈ s.free, s.getO i = none)
    (hl : ∀ i ∈ s.free, i < s.entries.length)
    (hn : s.free.Nodup) :
    (∀ i ∈ (s.insert o).2.free, (s.insert o).2.getO i = none) ∧
    (∀ i ∈ (s.insert o).2.free, i < (s.insert o).2.entries.length) ∧
    (s.insert o).2.free.Nodup := by
  unfold Slab.insert
  cases hfree : s.free with
  | nil => exact ⟨fun i hi => absurd hi (List.not_mem_nil i), fun i hi => absurd hi
      (List.not_mem_nil i), List.nodup_nil⟩
  | cons f0 fs =>
    rw [hfree] at hv hl hn
    rw [List.nodup_cons] at hn
    refine ⟨?_, ?_, hn.2⟩
    · intro i hi
      have hne : i ≠ f0 := by
        intro hc
        rw [hc] at hi
        exact hn.1 hi
      show (s.entries.set f0 (some o)).getD i none = none
      rw [getD_set_ne s.entries f0 i (some o) none hne]
      exact hv i (List.mem_cons_of_mem _ hi)
    · intro i hi
      show i < (s.entries.set f0 (some o)).length
      rw [List.length_set]
      exact hl i (List.mem_cons_of_mem _ hi)

theorem addToBook_wf (b : OrderBook) (hwf : WF b) (o : Order)
    (hfresh : alLookup b.by_id o.id = none) (hpos : 0 < o.remaining)
    (hle : o.remaining ≤ o.qty) (hlo : MIN_PRICE ≤ o.price) (hhi : o.price ≤ MAX_PRICE) :
    WF (addToBook b o) := by
  have hhn := hwf.handlesNodup
  unfold bookHandles at hhn
  rw [List.nodup_append] at hhn
  obtain ⟨hbidsN, hasksN, hdisjbn⟩ := hhn
  have hifacts := Slab.insert_free_facts b.orders o hwf.freeVacant hwf.freeLt hwf.freeNodup
  have hgetself : (b.orders.insert o).2.getO (b.orders.insert o).1 = some o :=
    Slab.getO_insert_self b.orders o hwf.freeLt
  have hfreshnone : b.orders.getO (b.orders.insert o).1 = none :=
    Slab.insert_fresh_none b.orders o hwf.freeVacant
  have hnotrest : (b.orders.insert o).1 ∉ bookHandles b := by
    intro hc
    obtain ⟨oo, hoo, _⟩ := resting_entries b hwf _ hc
    rw [hfreshnone] at hoo
    cases hoo
  have hgetne : ∀ j ∈ bookHandles b, (b.orders.insert o).2.getO j = b.orders.getO j := by
    intro j hj
    exact Slab.getO_insert_ne b.orders o j (fun hc => hnotrest (hc ▸ hj))
  have hidne : ∀ (k j : Nat), alLookup b.by_id k = some j → k ≠ o.id := by
    intro k j hk hc
    rw [hc, hfresh] at hk
    cases hk
  have hlkp : ∀ (k j : Nat), alLookup b.by_id k = some j →
      alLookup (addToBook b o).by_id k = some j := by
    intro k j hk
    rw [addToBook_by_id, alLookup_alInsert_ne b.by_id o.id k _ (hidne k j hk)]
    exact hk
  have hor := addToBook_orders b o
  have hbyid := addToBook_by_id b o
  cases hside : o.side with
  | Bid =>
    have hbids' := addToBook_bids_of_bid b o hside
    have hasks' := addToBook_asks_of_bid b o hside
    have hperm := sideHandles_levelPush_perm b.bids o.price (b.orders.insert o).1
    refine ⟨⟨?_, ?_, ?_, ?_⟩, ⟨?_, ?_, ?_, ?_⟩, ?_, ?_, ?_, ?_, ?_, ?_⟩
    · rw [hbids']
      exact keysSorted_levelPush _ _ _ hwf.bidsWF.sorted
    · rw [hbids']
      exact levelPush_nonempty _ _ _ hwf.bidsWF.nonempty
    · rw [hbids']
      intro pq hpq
      rcases levelPush_mem_fst b.bids o.price _ pq hpq with hh | hh
      · rw [hh]
        exact ⟨hlo, hhi⟩
      · rw [List.mem_map] at hh
        obtain ⟨a, ha, hae⟩ := hh
        have hr := hwf.bidsWF.inRange a ha
        rw [hae] at hr
        exact hr
    · intro pq hpq j hj
      rw [hbids'] at hpq
      rcases levelPush_mem_queue b.bids o.price _ pq hpq j hj with ⟨hp1, hji⟩ | ⟨q0, hq0, hjq0⟩
      · refine ⟨o, ?_, hside, hp1.symm, hpos, hle, ?_⟩
        · rw [hor, hji]
          exact hgetself
        · rw [hbyid, hji]
          exact alLookup_alInsert_self _ _ _
      · have hjb : j ∈ bookHandles b := by
          unfold bookHandles
          rw [List.mem_append]
          exact Or.inl ((mem_sideHandles _ _).mpr ⟨(pq.1, q0), hq0, hjq0⟩)
        obtain ⟨oo, hoo, hoside, hoprice, hopos, hoqty, holk⟩ :=
          hwf.bidsWF.resolve (pq.1, q0) hq0 j hjq0
        refine ⟨oo, ?_, hoside, hoprice, hopos, hoqty, ?_⟩
        · rw [hor, hgetne j hjb]
          exact hoo
        · exact hlkp oo.id j holk
    · rw [hasks']
      exact hwf.asksWF.sorted
    · rw [hasks']
      exact hwf.asksWF.nonempty
    · rw [hasks']
      exact hwf.asksWF.inRange
    · intro pq hpq j hj
      rw [hasks'] at hpq
      have hjb : j ∈ bookHandles b := by
        unfold bookHandles
        rw [List.mem_append]
        exact Or.inr ((mem_sideHandles _ _).mpr ⟨pq, hpq, hj⟩)
      obtain ⟨oo, hoo, hoside, hoprice, hopos, hoqty, holk⟩ := hwf.asksWF.resolve pq hpq j hj
      refine ⟨oo, ?_, hoside, hoprice, hopos, hoqty, ?_⟩
      · rw [hor, hgetne j hjb]
        exact hoo
      · exact hlkp oo.id j holk
    · show (bookHandles (addToBook b o)).Nodup
      unfold bookHandles
      rw [hbids', hasks']
      have hp2 : (sideHandles (levelPush b.bids o.price (b.orders.insert o).1) ++
          sideHandles b.asks).Perm
          (((b.orders.insert o).1 :: sideHandles b.bids) ++ sideHandles b.asks) :=
        hperm.append_right _
      rw [hp2.nodup_iff, List.cons_append, List.nodup_cons]
      refine ⟨fun hc => hnotrest hc, ?_⟩
      rw [List.nodup_append]
      exact ⟨hbidsN, hasksN, hdisjbn⟩
    · intro kv hkv
      rw [hbyid] at hkv
      rcases mem_alInsert b.by_id o.id _ kv hkv with hke | hkm
      · subst hke
        refine ⟨?_, o, by rw [hor]; exact hgetself, rfl⟩
        unfold bookHandles
        rw [hbids', List.mem_append]
        exact Or.inl (hperm.mem_iff.mpr (List.mem_cons_self _ _))
      · obtain ⟨hmem, oo, hoo, hoid⟩ := hwf.byIdSound kv hkm
        refine ⟨?_, oo, ?_, hoid⟩
        · unfold bookHandles at hmem ⊢
          rw [hbids', List.mem_append]
          rw [List.mem_append] at hmem
          rcases hmem with hm | hm
          · exact Or.inl (hperm.mem_iff.mpr (List.mem_cons_of_mem _ hm))
          · rw [hasks']
            exact Or.inr hm
        · rw [hor, hgetne kv.2 hmem]
          exact hoo
    · rw [hbyid]
      exact alInsert_keys_nodup b.by_id o.id _ hwf.byIdKeys
    · intro i hi
      rw [hor] at hi ⊢
      exact hifacts.1 i hi
    · intro i hi
      rw [hor] at hi ⊢
      exact hifacts.2.1 i hi
    · rw [hor]
      exact hifacts.2.2
  | Ask =>
    have hasks' := addToBook_asks_of_ask b o hside
    have hbids' := addToBook_bids_of_ask b o hside
    have hperm := sideHandles_levelPush_perm b.asks o.price (b.orders.insert o).1
    refine ⟨⟨?_, ?_, ?_, ?_⟩, ⟨?_, ?_, ?_, ?_⟩, ?_, ?_, ?_, ?_, ?_, ?_⟩
    · rw [hbids']
      exact hwf.bidsWF.sorted
    · rw [hbids']
      exact hwf.bidsWF.nonempty
    · rw [hbids']
      exact hwf.bidsWF.inRange
    · intro pq hpq j hj
      rw [hbids'] at hpq
      have hjb : j ∈ bookHandles b := by
        unfold bookHandles
        rw [List.mem_append]
        exact Or.inl ((mem_sideHandles _ _).mpr ⟨pq, hpq, hj⟩)
      obtain ⟨oo, hoo, hoside, hoprice, hopos, hoqty, holk⟩ := hwf.bidsWF.resolve pq hpq j hj
      refine ⟨oo, ?_, hoside, hoprice, hopos, hoqty, ?_⟩
      · rw [hor, hgetne j hjb]
        exact hoo
      · exact hlkp oo.id j holk
    · rw [hasks']
      exact keysSorted_levelPush _ _ _ hwf.asksWF.sorted
    · rw [hasks']
      exact levelPush_nonempty _ _ _ hwf.asksWF.nonempty
    · rw [hasks']
      intro pq hpq
      rcases levelPush_mem_fst b.asks o.price _ pq hpq with hh | hh
      · rw [hh]
        exact ⟨hlo, hhi⟩
      · rw [List.mem_map] at hh
        obtain ⟨a, ha, hae⟩ := hh
        have hr := hwf.asksWF.inRange a ha
        rw [hae] at hr
        exact hr
    · intro pq hpq j hj
      rw [hasks'] at hpq
      rcases levelPush_mem_queue b.asks o.price _ pq hpq j hj with ⟨hp1, hji⟩ | ⟨q0, hq0, hjq0⟩
      · refine ⟨o, ?_, hside, hp1.symm, hpos, hle, ?_⟩
        · rw [hor, hji]
          exact hgetself
        · rw [hbyid, hji]
          exact alLookup_alInsert_self _ _ _
      · have hjb : j ∈ bookHandles b := by
          unfold bookHandles
          rw [List.mem_append]
          exact Or.inr ((mem_sideHandles _ _).mpr ⟨(pq.1, q0), hq0, hjq0⟩)
        obtain ⟨oo, hoo, hoside, hoprice, hopos, hoqty, holk⟩ :=
          hwf.asksWF.resolve (pq.1, q0) hq0 j hjq0
        refine ⟨oo, ?_, hoside, hoprice, hopos, hoqty, ?_⟩
        · rw [hor, hgetne j hjb]
          exact hoo
        · exact hlkp oo.id j holk
    · show (bookHandles (addToBook b o)).Nodup
      unfold bookHandles
      rw [hbids', hasks']
      have hp2 : (sideHandles b.bids ++
          sideHandles (levelPush b.asks o.price (b.orders.insert o).1)).Perm
          (sideHandles b.bids ++ ((b.orders.insert o).1 :: sideHandles b.asks)) :=
        hperm.append_left _
      rw [hp2.nodup_iff]
      rw [List.nodup_append]
      refine ⟨hbidsN, ?_, ?_⟩
      · rw [List.nodup_cons]
        refine ⟨?_, hasksN⟩
        intro hc
        exact hnotrest (by
          unfold bookHandles
          rw [List.mem_append]
          exact Or.inr hc)
      · intro x hx hc
        rcases List.mem_cons.mp hc with hce | hcm
        · exact hnotrest (by
            unfold bookHandles
            rw [List.mem_append]
            exact Or.inl (hce ▸ hx))
        · exact hdisjbn hx hcm
    · intro kv hkv
      rw [hbyid] at hkv
      rcases mem_alInsert b.by_id o.id _ kv hkv with hke | hkm
      · subst hke
        refine ⟨?_, o, by rw [hor]; exact hgetself, rfl⟩
        unfold bookHandles
        rw [hasks', List.mem_append]
        exact Or.inr (hperm.mem_iff.mpr (List.mem_cons_self _ _))
      · obtain ⟨hmem, oo, hoo, hoid⟩ := hwf.byIdSound kv hkm
        refine ⟨?_, oo, ?_, hoid⟩
        · unfold bookHandles at hmem ⊢
          rw [hasks', List.mem_append]
          rw [List.mem_append] at hmem
          rcases hmem with hm | hm
          · rw [hbids']
            exact Or.inl hm
          · exact Or.inr (hperm.mem_iff.mpr (List.mem_cons_of_mem _ hm))
        · rw [hor, hgetne kv.2 hmem]
          exact hoo
    · rw [hbyid]
      exact alInsert_keys_nodup b.by_id o.id _ hwf.byIdKeys
    · intro i hi
      rw [hor] at hi ⊢
      exact hifacts.1 i hi
    · intro i hi
      rw [hor] at hi ⊢
      exact hifacts.2.1 i hi
    · rw [hor]
      exact hifacts.2.2

theorem mem_alInsert_nodup {β : Type} (m : List (Nat × β)) (k : Nat) (v : β)
    (hnd : (m.map Prod.fst).Nodup) :
    ∀ kv ∈ alInsert m k v, kv = (k, v) ∨ (kv ∈ m ∧ kv.1 ≠ k) := by
  induction m with
  | nil =>
    intro kv hkv
    simp only [alInsert] at hkv
    rcases List.mem_cons.mp hkv with h | h
    · exact Or.inl h
    · cases h
  | cons kw t ih =>
    intro kv hkv
    rcases kw with ⟨k0, w⟩
    rw [List.map_cons, List.nodup_cons] at hnd
    simp only [alInsert] at hkv
    by_cases hk : k0 = k
    · rw [if_pos hk] at hkv
      rcases List.mem_cons.mp hkv with h | h
      · exact Or.inl h
      · refine Or.inr ⟨List.mem_cons_of_mem _ h, ?_⟩
        intro hc
        apply hnd.1
        have hmm : kv.1 ∈ t.map Prod.fst := List.mem_map_of_mem Prod.fst h
        rw [hc, ← hk] at hmm
        exact hmm
    · rw [if_neg hk] at hkv
      rcases List.mem_cons.mp hkv with h | h
      · exact Or.inr ⟨h ▸ List.mem_cons_self _ _, h ▸ hk⟩
      · rcases ih hnd.2 kv h with hc | ⟨hm, hne⟩
        · exact Or.inl hc
        · exact Or.inr ⟨List.mem_cons_of_mem _ hm, hne⟩

theorem mem_alRemove_nodup {β : Type} (m : List (Nat × β)) (k : Nat)
    (hnd : (m.map Prod.fst).Nodup) :
    ∀ kv ∈ alRemove m k, kv ∈ m ∧ kv.1 ≠ k := by
  intro kv hkv
  refine ⟨(alRemove_sublist m k).subset hkv, ?_⟩
  intro hc
  have hnone := alLookup_alRemove_self m k hnd
  rw [alLookup_eq_none_iff] at hnone
  apply hnone
  have hmm : kv.1 ∈ (alRemove m k).map Prod.fst := List.mem_map_of_mem Prod.fst hkv
  rw [hc] at hmm
  exact hmm

theorem mem_alRemove_of_ne {β : Type} (m : List (Nat × β)) (k : Nat) :
    ∀ kv ∈ m, kv.1 ≠ k → kv ∈ alRemove m k := by
  induction m with
  | nil => intro kv hkv; cases hkv
  | cons kw t ih =>
    intro kv hkv hne
    rcases kw with ⟨k0, w⟩
    simp only [alRemove]
    by_cases hk : k0 = k
    · rw [if_pos hk]
      rcases List.mem_cons.mp hkv with h | h
      · exact absurd (by rw [h]; exact hk) hne
      · exact h
    · rw [if_neg hk]
      rcases List.mem_cons.mp hkv with h | h
      · exact h ▸ List.mem_cons_self _ _
      · exact List.mem_cons_of_mem _ (ih kv h hne)

theorem alInsert_self_mem {β : Type} (m : List (Nat × β)) (k : Nat) (v : β) :
    (k, v) ∈ alInsert m k v := by
  induction m with
  | nil => simp [alInsert]
  | cons kw t ih =>
    rcases kw with ⟨k0, w⟩
    simp only [alInsert]
    by_cases hk : k0 = k
    · rw [if_pos hk]
      exact List.mem_cons_self _ _
    · rw [if_neg hk]
      exact List.mem_cons_of_mem _ ih

theorem mem_alInsert_of_ne {β : Type} (m : List (Nat × β)) (k : Nat) (v : β) :
    ∀ kv ∈ m, kv.1 ≠ k → kv ∈ alInsert m k v := by
  induction m with
  | nil => intro kv hkv; cases hkv
  | cons kw t ih =>
    intro kv hkv hne
    rcases kw with ⟨k0, w⟩
    simp only [alInsert]
    by_cases hk : k0 = k
    · rw [if_pos hk]
      rcases List.mem_cons.mp hkv with h | h
      · exact absurd (by rw [h]; exact hk) hne
      · exact List.mem_cons_of_mem _ h
    · rw [if_neg hk]
      rcases List.mem_cons.mp hkv with h | h
      · exact h ▸ List.mem_cons_self _ _
      · exact List.mem_cons_of_mem _ (ih kv h hne)

theorem sideHandles_level_disjoint (m : List (Nat × List Nat)) (hnd : (sideHandles m).Nodup) :
    ∀ pa qa pb qb, (pa, qa) ∈ m → (pb, qb) ∈ m → pa ≠ pb →
    ∀ x ∈ qa, x ∉ qb := by
  induction m with
  | nil => intro pa qa pb qb ha; cases ha
  | cons hd t ih =>
    intro pa qa pb qb ha hb hne x hxa hxb
    rcases hd with ⟨p0, q0⟩
    rw [sideHandles_cons, List.nodup_append] at hnd
    obtain ⟨hndq, hndt, hdisj⟩ := hnd
    rcases List.mem_cons.mp ha with hae | hat
    · rcases List.mem_cons.mp hb with hbe | hbt
      · apply hne
        have h1 : pa = p0 := congrArg Prod.fst hae
        have h2 : pb = p0 := congrArg Prod.fst hbe
        rw [h1, h2]
      · have hxq0 : x ∈ q0 := by
          have : qa = q0 := congrArg Prod.snd hae
          rw [← this]
          exact hxa
        have hxt : x ∈ sideHandles t := (mem_sideHandles _ _).mpr ⟨(pb, qb), hbt, hxb⟩
        exact hdisj hxq0 hxt
    · rcases List.mem_cons.mp hb with hbe | hbt
      · have hxq0 : x ∈ q0 := by
          have : qb = q0 := congrArg Prod.snd hbe
          rw [← this]
          exact hxb
        have hxt : x ∈ sideHandles t := (mem_sideHandles _ _).mpr ⟨(pa, qa), hat, hxa⟩
        exact hdisj hxq0 hxt
      · exact ih hndt pa qa pb qb hat hbt hne x hxa hxb

theorem alInsert_replace_struct (m : List (Nat × List Nat)) (p : Nat)
    (q0 v : List Nat) (hnd : (m.map Prod.fst).Nodup) (hq0 : (p, q0) ∈ m)
    (hsub : v.Sublist q0) :
    List.Forall₂ (fun a c => c.1 = a.1 ∧ c.2.Sublist a.2) m (alInsert m p v) := by
  induction m with
  | nil => cases hq0
  | cons kw t ih =>
    rcases kw with ⟨k0, w⟩
    rw [List.map_cons, List.nodup_cons] at hnd
    simp only [alInsert]
    by_cases hk : k0 = p
    · rw [if_pos hk]
      have hw : w = q0 := by
        rcases List.mem_cons.mp hq0 with h | h
        · exact (congrArg Prod.snd h).symm
        · exfalso
          apply hnd.1
          have hmm : (p, q0).1 ∈ t.map Prod.fst := List.mem_map_of_mem Prod.fst h
          rw [hk]
          exact hmm
      refine List.Forall₂.cons ⟨hk.symm, by rw [hw]; exact hsub⟩ ?_
      rw [List.forall₂_same]
      intro a _
      exact ⟨rfl, List.Sublist.refl _⟩
    · rw [if_neg hk]
      have hq0t : (p, q0) ∈ t := by
        rcases List.mem_cons.mp hq0 with h | h
        · exact absurd (congrArg Prod.fst h).symm hk
        · exact h
      exact List.Forall₂.cons ⟨rfl, List.Sublist.refl _⟩ (ih hnd.2 hq0t)

theorem queueEraseLevel_mem (m : List (Nat × List Nat)) (p i : Nat) (q0 : List Nat)
    (hnd : (m.map Prod.fst).Nodup) (hq0 : (p, q0) ∈ m) :
    ∀ pq ∈ queueEraseLevel m p i,
      (pq ∈ m ∧ pq.1 ≠ p) ∨
      (pq.1 = p ∧ pq.2 = removeFirst q0 i ∧ removeFirst q0 i ≠ []) := by
  have hlk : alLookup m p = some q0 := mem_alLookup m p q0 hq0 hnd
  unfold queueEraseLevel
  rw [hlk]
  show ∀ pq ∈ (if (removeFirst q0 i).isEmpty = true then alRemove m p
      else alInsert m p (removeFirst q0 i)),
    (pq ∈ m ∧ pq.1 ≠ p) ∨ (pq.1 = p ∧ pq.2 = removeFirst q0 i ∧ removeFirst q0 i ≠ [])
  by_cases hemp : (removeFirst q0 i).isEmpty = true
  · rw [if_pos hemp]
    intro pq hpq
    exact Or.inl (mem_alRemove_nodup m p hnd pq hpq)
  · rw [if_neg hemp]
    intro pq hpq
    rcases mem_alInsert_nodup m p _ hnd pq hpq with h | ⟨hm, hne⟩
    · refine Or.inr ⟨congrArg Prod.fst h, congrArg Prod.snd h, ?_⟩
      intro hc
      apply hemp
      rw [hc]
      rfl
    · exact Or.inl ⟨hm, hne⟩

theorem mem_queue_sublist_handles (m : List (Nat × List Nat)) (p : Nat) (q0 : List Nat)
    (hq0 : (p, q0) ∈ m) : q0.Sublist (sideHandles m) := by
  induction m with
  | nil => cases hq0
  | cons hd t ih =>
    rcases hd with ⟨p0, w⟩
    rw [sideHandles_cons]
    rcases List.mem_cons.mp hq0 with h | h
    · have : q0 = w := congrArg Prod.snd h
      rw [this]
      exact List.sublist_append_left w _
    · exact (ih h).trans (List.sublist_append_right _ _)

theorem queueEraseLevel_not_mem (m : List (Nat × List Nat)) (p i : Nat) (q0 : List Nat)
    (hnd : (m.map Prod.fst).Nodup) (hhnd : (sideHandles m).Nodup)
    (hq0 : (p, q0) ∈ m) (hi : i ∈ q0) :
    i ∉ sideHandles (queueEraseLevel m p i) := by
  intro hc
  rw [mem_sideHandles] at hc
  obtain ⟨pq, hpq, hiq⟩ := hc
  have hq0nd : q0.Nodup :=
    hhnd.sublist (mem_queue_sublist_handles m p q0 hq0)
  rcases queueEraseLevel_mem m p i q0 hnd hq0 pq hpq with ⟨hm, hne⟩ | ⟨hp1, hp2, _⟩
  · have : (pq.1, pq.2) ∈ m := by rw [Prod.mk.eta]; exact hm
    exact sideHandles_level_disjoint m hhnd pq.1 pq.2 p q0 this hq0 hne i hiq hi
  · rw [hp2] at hiq
    exact not_mem_removeFirst_self q0 i hq0nd hiq

theorem queueEraseLevel_mem_of_ne (m : List (Nat × List Nat)) (p i : Nat)
    (hnd : (m.map Prod.fst).Nodup) :
    ∀ j ∈ sideHandles m, j ≠ i → j ∈ sideHandles (queueEraseLevel m p i) := by
  intro j hj hne
  rw [mem_sideHandles] at hj
  obtain ⟨pq, hpq, hjq⟩ := hj
  unfold queueEraseLevel
  cases hlk : alLookup m p with
  | none =>
    rw [mem_sideHandles]
    exact ⟨pq, hpq, hjq⟩
  | some q0 =>
    show j ∈ sideHandles (if (removeFirst q0 i).isEmpty = true then alRemove m p
      else alInsert m p (removeFirst q0 i))
    by_cases hp : pq.1 = p
    · have hpqm : (p, pq.2) ∈ m := by
        rw [← hp, Prod.mk.eta]
        exact hpq
      have hq0m : (p, q0) ∈ m := alLookup_mem m p q0 hlk
      have hqe : pq.2 = q0 := keysNodup_mem_unique hnd hpqm hq0m
      have hjrf : j ∈ removeFirst q0 i := by
        apply mem_removeFirst_of_ne q0 i j _ hne
        rw [← hqe]
        exact hjq
      by_cases hemp : (removeFirst q0 i).isEmpty = true
      · rw [List.isEmpty_iff] at hemp
        rw [hemp] at hjrf
        cases hjrf
      · rw [if_neg hemp, mem_sideHandles]
        exact ⟨(p, removeFirst q0 i), alInsert_self_mem m p _, hjrf⟩
    · have hsurv : (pq.1, pq.2) ∈ m := by
        rw [Prod.mk.eta]
        exact hpq
      by_cases hemp : (removeFirst q0 i).isEmpty = true
      · rw [if_pos hemp, mem_sideHandles]
        exact ⟨(pq.1, pq.2), mem_alRemove_of_ne m p (pq.1, pq.2) hsurv hp, hjq⟩
      · rw [if_neg hemp, mem_sideHandles]
        exact ⟨(pq.1, pq.2), mem_alInsert_of_ne m p _ (pq.1, pq.2) hsurv hp, hjq⟩

theorem queueEraseLevel_handles_sublist (m : List (Nat × List Nat)) (p i : Nat)
    (hnd : (m.map Prod.fst).Nodup) :
    (sideHandles (queueEraseLevel m p i)).Sublist (sideHandles m) := by
  unfold queueEraseLevel
  cases hlk : alLookup m p with
  | none => exact List.Sublist.refl _
  | some q0 =>
    show (sideHandles (if (removeFirst q0 i).isEmpty = true then alRemove m p
      else alInsert m p (removeFirst q0 i))).Sublist (sideHandles m)
    by_cases hemp : (removeFirst q0 i).isEmpty = true
    · rw [if_pos hemp]
      exact sideHandles_sublist (alRemove_sublist m p)
    · rw [if_neg hemp]
      exact forall2_struct_handles_sublist (alInsert_replace_struct m p q0
        (removeFirst q0 i) hnd (alLookup_mem m p q0 hlk) (removeFirst_sublist q0 i))

theorem cancel_wf (b : OrderBook) (hwf : WF b) (cid : Nat) : WF (b.cancel cid).2 := by
  cases hl : alLookup b.by_id cid with
  | none =>
    rw [cancel_not_found b cid hl]
    exact hwf
  | some cidx =>
    obtain ⟨hmem, oo, hoo, hooid⟩ := hwf.byIdSound (cid, cidx) (alLookup_mem _ _ _ hl)
    rw [cancel_found b cid cidx oo hl hoo]
    have hhn := hwf.handlesNodup
    unfold bookHandles at hhn
    rw [List.nodup_append] at hhn
    obtain ⟨hbidsN, hasksN, hdisjbn⟩ := hhn
    have hkb := keysSorted_map_nodup _ hwf.bidsWF.sorted
    have hka := keysSorted_map_nodup _ hwf.asksWF.sorted
    have hidunique : ∀ (j : Nat) (o₁ : Order), alLookup b.by_id o₁.id = some j →
        o₁.id = cid → j = cidx := by
      intro j o₁ hlk hid
      rw [hid, hl] at hlk
      exact (Option.some.inj hlk).symm
    cases hooside : oo.side with
    | Bid =>
      have hcS : cidx ∈ sideHandles b.bids := by
        unfold bookHandles at hmem
        rw [List.mem_append] at hmem
        rcases hmem with hm | hm
        · exact hm
        · exfalso
          rw [mem_sideHandles] at hm
          obtain ⟨pq, hpq, hin⟩ := hm
          obtain ⟨o₁, h1, h2, _⟩ := hwf.asksWF.resolve pq hpq cidx hin
          rw [hoo] at h1
          injection h1 with h1e
          rw [← h1e, hooside] at h2
          cases h2
      have hcS2 := hcS
      rw [mem_sideHandles] at hcS2
      obtain ⟨pqc, hpqc, hcin⟩ := hcS2
      obtain ⟨oc, hc1, _, hc3, _, _, _⟩ := hwf.bidsWF.resolve pqc hpqc cidx hcin
      rw [hoo] at hc1
      injection hc1 with hce
      have hprice : oo.price = pqc.1 := by rw [hce]; exact hc3
      have hpqcm : (oo.price, pqc.2) ∈ b.bids := by
        rw [hprice, Prod.mk.eta]
        exact hpqc
      have hro := removeOrder_by_id_some
        { b with bids := queueEraseLevel b.bids oo.price cidx } cid cidx hl
      have hsides := removeOrder_sides
        { b with bids := queueEraseLevel b.bids oo.price cidx } cid
      have hslab1 : slabOk { b with bids := queueEraseLevel b.bids oo.price cidx } :=
        ⟨fun kv hkv => (hwf.byIdSound kv hkv).2, hwf.byIdKeys, hwf.freeVacant,
          hwf.freeLt, hwf.freeNodup⟩
      have hslab' := removeOrder_slabOk
        { b with bids := queueEraseLevel b.bids oo.price cidx } cid hslab1
      have hcnot : cidx ∉ sideHandles (queueEraseLevel b.bids oo.price cidx) :=
        queueEraseLevel_not_mem b.bids oo.price cidx pqc.2 hkb hbidsN hpqcm (by
          exact hcin)
      have hemem := queueEraseLevel_mem b.bids oo.price cidx pqc.2 hkb hpqcm
      refine ⟨⟨?_, ?_, ?_, ?_⟩, ⟨?_, ?_, ?_, ?_⟩, ?_, ?_, hslab'.2.1, hslab'.2.2.1,
        hslab'.2.2.2.1, hslab'.2.2.2.2⟩
      · rw [hsides.1]
        exact keysSorted_queueEraseLevel b.bids oo.price cidx hwf.bidsWF.sorted
      · rw [hsides.1]
        intro pq hpq
        rcases hemem pq hpq with ⟨hm, _⟩ | ⟨_, hp2, hne⟩
        · exact hwf.bidsWF.nonempty pq hm
        · rw [hp2]
          exact hne
      · rw [hsides.1]
        intro pq hpq
        rcases hemem pq hpq with ⟨hm, _⟩ | ⟨hp1, _, _⟩
        · exact hwf.bidsWF.inRange pq hm
        · rw [hp1, hprice]
          exact hwf.bidsWF.inRange pqc hpqc
      · intro pq hpq j hj
        rw [hsides.1] at hpq
        have hjS : j ∈ sideHandles (queueEraseLevel b.bids oo.price cidx) :=
          (mem_sideHandles _ _).mpr ⟨pq, hpq, hj⟩
        have hjne : j ≠ cidx := fun hc => hcnot (hc ▸ hjS)
        have hsrc : ∃ o₁, b.orders.getO j = some o₁ ∧ o₁.side = Side.Bid ∧
            o₁.price = pq.1 ∧ 0 < o₁.remaining ∧ o₁.remaining ≤ o₁.qty ∧
            alLookup b.by_id o₁.id = some j := by
          rcases hemem pq hpq with ⟨hm, _⟩ | ⟨hp1, hp2, _⟩
          · exact hwf.bidsWF.resolve pq hm j hj
          · have hjq : j ∈ pqc.2 := by
              apply (removeFirst_sublist pqc.2 cidx).subset
              rw [← hp2]
              exact hj
            obtain ⟨o₁, k1, k2, k3, k4, k5, k6⟩ := hwf.bidsWF.resolve pqc hpqc j hjq
            refine ⟨o₁, k1, k2, ?_, k4, k5, k6⟩
            rw [hp1, hprice]
            exact k3
        obtain ⟨o₁, k1, k2, k3, k4, k5, k6⟩ := hsrc
        have hidne : o₁.id ≠ cid := fun hc => hjne (hidunique j o₁ k6 hc)
        refine ⟨o₁, ?_, k2, k3, k4, k5, ?_⟩
        · rw [hro.2]
          show (b.orders.removeAt cidx).getO j = some o₁
          rw [Slab.getO_removeAt_ne b.orders cidx j hjne]
          exact k1
        · rw [hro.1]
          show alLookup (alRemove b.by_id cid) o₁.id = some j
          rw [alLookup_alRemove_ne b.by_id cid o₁.id hidne]
          exact k6
      · rw [hsides.2]
        exact hwf.asksWF.sorted
      · rw [hsides.2]
        exact hwf.asksWF.nonempty
      · rw [hsides.2]
        exact hwf.asksWF.inRange
      · intro pq hpq j hj
        rw [hsides.2] at hpq
        have hjS : j ∈ sideHandles b.asks := (mem_sideHandles _ _).mpr ⟨pq, hpq, hj⟩
        have hjne : j ≠ cidx := fun hc => hdisjbn (hc ▸ hcS) hjS
        obtain ⟨o₁, k1, k2, k3, k4, k5, k6⟩ := hwf.asksWF.resolve pq hpq j hj
        have hidne : o₁.id ≠ cid := fun hc => hjne (hidunique j o₁ k6 hc)
        refine ⟨o₁, ?_, k2, k3, k4, k5, ?_⟩
        · rw [hro.2]
          show (b.orders.removeAt cidx).getO j = some o₁
          rw [Slab.getO_removeAt_ne b.orders cidx j hjne]
          exact k1
        · rw [hro.1]
          show alLookup (alRemove b.by_id cid) o₁.id = some j
          rw [alLookup_alRemove_ne b.by_id cid o₁.id hidne]
          exact k6
      · show (bookHandles _).Nodup
        unfold bookHandles
        rw [hsides.1, hsides.2, List.nodup_append]
        have hsub := queueEraseLevel_handles_sublist b.bids oo.price cidx hkb
        exact ⟨hbidsN.sublist hsub, hasksN, fun x hx hx' => hdisjbn (hsub.subset hx) hx'⟩
      · intro kv hkv
        rw [hro.1] at hkv
        have hkv2 := mem_alRemove_nodup b.by_id cid hwf.byIdKeys kv hkv
        obtain ⟨hm, o₁, ho₁, hido⟩ := hwf.byIdSound kv hkv2.1
        have hkvne : kv.2 ≠ cidx := by
          intro hc
          rw [hc, hoo] at ho₁
          injection ho₁ with he
          apply hkv2.2
          rw [← hido, ← he]
          exact hooid
        refine ⟨?_, o₁, ?_, hido⟩
        · unfold bookHandles at hm ⊢
          rw [hsides.1, hsides.2, List.mem_append]
          rw [List.mem_append] at hm
          rcases hm with hm | hm
          · exact Or.inl (queueEraseLevel_mem_of_ne b.bids oo.price cidx hkb kv.2 hm hkvne)
          · exact Or.inr hm
        · rw [hro.2]
          show (b.orders.removeAt cidx).getO kv.2 = some o₁
          rw [Slab.getO_removeAt_ne b.orders cidx kv.2 hkvne]
          exact ho₁
    | Ask =>
      have hcS : cidx ∈ sideHandles b.asks := by
        unfold bookHandles at hmem
        rw [List.mem_append] at hmem
        rcases hmem with hm | hm
        · exfalso
          rw [mem_sideHandles] at hm
          obtain ⟨pq, hpq, hin⟩ := hm
          obtain ⟨o₁, h1, h2, _⟩ := hwf.bidsWF.resolve pq hpq cidx hin
          rw [hoo] at h1
          injection h1 with h1e
          rw [← h1e, hooside] at h2
          cases h2
        · exact hm
      have hcS2 := hcS
      rw [mem_sideHandles] at hcS2
      obtain ⟨pqc, hpqc, hcin⟩ := hcS2
      obtain ⟨oc, hc1, _, hc3, _, _, _⟩ := hwf.asksWF.resolve pqc hpqc cidx hcin
      rw [hoo] at hc1
      injection hc1 with hce
      have hprice : oo.price = pqc.1 := by rw [hce]; exact hc3
      have hpqcm : (oo.price, pqc.2) ∈ b.asks := by
        rw [hprice, Prod.mk.eta]
        exact hpqc
      have hro := removeOrder_by_id_some
        { b with asks := queueEraseLevel b.asks oo.price cidx } cid cidx hl
      have hsides := removeOrder_sides
        { b with asks := queueEraseLevel b.asks oo.price cidx } cid
      have hslab1 : slabOk { b with asks := queueEraseLevel b.asks oo.price cidx } :=
        ⟨fun kv hkv => (hwf.byIdSound kv hkv).2, hwf.byIdKeys, hwf.freeVacant,
          hwf.freeLt, hwf.freeNodup⟩
      have hslab' := removeOrder_slabOk
        { b with asks := queueEraseLevel b.asks oo.price cidx } cid hslab1
      have hcnot : cidx ∉ sideHandles (queueEraseLevel b.asks oo.price cidx) :=
        queueEraseLevel_not_mem b.asks oo.price cidx pqc.2 hka hasksN hpqcm (by
          exact hcin)
      have hemem := queueEraseLevel_mem b.asks oo.price cidx pqc.2 hka hpqcm
      refine ⟨⟨?_, ?_, ?_, ?_⟩, ⟨?_, ?_, ?_, ?_⟩, ?_, ?_, hslab'.2.1, hslab'.2.2.1,
        hslab'.2.2.2.1, hslab'.2.2.2.2⟩
      · rw [hsides.1]
        exact hwf.bidsWF.sorted
      · rw [hsides.1]
        exact hwf.bidsWF.nonempty
      · rw [hsides.1]
        exact hwf.bidsWF.inRange
      · intro pq hpq j hj
        rw [hsides.1] at hpq
        have hjS : j ∈ sideHandles b.bids := (mem_sideHandles _ _).mpr ⟨pq, hpq, hj⟩
        have hjne : j ≠ cidx := fun hc => hdisjbn hjS (hc ▸ hcS)
        obtain ⟨o₁, k1, k2, k3, k4, k5, k6⟩ := hwf.bidsWF.resolve pq hpq j hj
        have hidne : o₁.id ≠ cid := fun hc => hjne (hidunique j o₁ k6 hc)
        refine ⟨o₁, ?_, k2, k3, k4, k5, ?_⟩
        · rw [hro.2]
          show (b.orders.removeAt cidx).getO j = some o₁
          rw [Slab.getO_removeAt_ne b.orders cidx j hjne]
          exact k1
        · rw [hro.1]
          show alLookup (alRemove b.by_id cid) o₁.id = some j
          rw [alLookup_alRemove_ne b.by_id cid o₁.id hidne]
          exact k6
      · rw [hsides.2]
        exact keysSorted_queueEraseLevel b.asks oo.price cidx hwf.asksWF.sorted
      · rw [hsides.2]
        intro pq hpq
        rcases hemem pq hpq with ⟨hm, _⟩ | ⟨_, hp2, hne⟩
        · exact hwf.asksWF.nonempty pq hm
        · rw [hp2]
          exact hne
      · rw [hsides.2]
        intro pq hpq
        rcases hemem pq hpq with ⟨hm, _⟩ | ⟨hp1, _, _⟩
        · exact hwf.asksWF.inRange pq hm
        · rw [hp1, hprice]
          exact hwf.asksWF.inRange pqc hpqc
      · intro pq hpq j hj
        rw [hsides.2] at hpq
        have hjS : j ∈ sideHandles (queueEraseLevel b.asks oo.price cidx) :=
          (mem_sideHandles _ _).mpr ⟨pq, hpq, hj⟩
        have hjne : j ≠ cidx := fun hc => hcnot (hc ▸ hjS)
        have hsrc : ∃ o₁, b.orders.getO j = some o₁ ∧ o₁.side = Side.Ask ∧
            o₁.price = pq.1 ∧ 0 < o₁.remaining ∧ o₁.remaining ≤ o₁.qty ∧
            alLookup b.by_id o₁.id = some j := by
          rcases hemem pq hpq with ⟨hm, _⟩ | ⟨hp1, hp2, _⟩
          · exact hwf.asksWF.resolve pq hm j hj
          · have hjq : j ∈ pqc.2 := by
              apply (removeFirst_sublist pqc.2 cidx).subset
              rw [← hp2]
              exact hj
            obtain ⟨o₁, k1, k2, k3, k4, k5, k6⟩ := hwf.asksWF.resolve pqc hpqc j hjq
            refine ⟨o₁, k1, k2, ?_, k4, k5, k6⟩
            rw [hp1, hprice]
            exact k3
        obtain ⟨o₁, k1, k2, k3, k4, k5, k6⟩ := hsrc
        have hidne : o₁.id ≠ cid := fun hc => hjne (hidunique j o₁ k6 hc)
        refine ⟨o₁, ?_, k2, k3, k4, k5, ?_⟩
        · rw [hro.2]
          show (b.orders.removeAt cidx).getO j = some o₁
          rw [Slab.getO_removeAt_ne b.orders cidx j hjne]
          exact k1
        · rw [hro.1]
          show alLookup (alRemove b.by_id cid) o₁.id = some j
          rw [alLookup_alRemove_ne b.by_id cid o₁.id hidne]
          exact k6
      · show (bookHandles _).Nodup
        unfold bookHandles
        rw [hsides.1, hsides.2, List.nodup_append]
        have hsub := queueEraseLevel_handles_sublist b.asks oo.price cidx hka
        exact ⟨hbidsN, hasksN.sublist hsub, fun x hx hx' => hdisjbn hx (hsub.subset hx')⟩
      · intro kv hkv
        rw [hro.1] at hkv
        have hkv2 := mem_alRemove_nodup b.by_id cid hwf.byIdKeys kv hkv
        obtain ⟨hm, o₁, ho₁, hido⟩ := hwf.byIdSound kv hkv2.1
        have hkvne : kv.2 ≠ cidx := by
          intro hc
          rw [hc, hoo] at ho₁
          injection ho₁ with he
          apply hkv2.2
          rw [← hido, ← he]
          exact hooid
        refine ⟨?_, o₁, ?_, hido⟩
        · unfold bookHandles at hm ⊢
          rw [hsides.1, hsides.2, List.mem_append]
          rw [List.mem_append] at hm
          rcases hm with hm | hm
          · exact Or.inl hm
          · exact Or.inr (queueEraseLevel_mem_of_ne b.asks oo.price cidx hka kv.2 hm hkvne)
        · rw [hro.2]
          show (b.orders.removeAt cidx).getO kv.2 = some o₁
          rw [Slab.getO_removeAt_ne b.orders cidx kv.2 hkvne]
          exact ho₁

theorem resting_full (b : OrderBook) (hwf : WF b) :
    ∀ j ∈ bookHandles b, ∃ o, b.orders.getO j = some o ∧ 0 < o.remaining ∧
      o.remaining ≤ o.qty ∧ MIN_PRICE ≤ o.price ∧ o.price ≤ MAX_PRICE := by
  intro j hj
  unfold bookHandles at hj
  rw [List.mem_append] at hj
  rcases hj with hj | hj
  · rw [mem_sideHandles] at hj
    obtain ⟨pq, hpq, hin⟩ := hj
    obtain ⟨o, h1, _, h3, h4, h5, _⟩ := hwf.bidsWF.resolve pq hpq j hin
    have hr := hwf.bidsWF.inRange pq hpq
    exact ⟨o, h1, h4, h5, by rw [h3]; exact hr.1, by rw [h3]; exact hr.2⟩
  · rw [mem_sideHandles] at hj
    obtain ⟨pq, hpq, hin⟩ := hj
    obtain ⟨o, h1, _, h3, h4, h5, _⟩ := hwf.asksWF.resolve pq hpq j hin
    have hr := hwf.asksWF.inRange pq hpq
    exact ⟨o, h1, h4, h5, by rw [h3]; exact hr.1, by rw [h3]; exact hr.2⟩

theorem modify_wf (b : OrderBook) (hwf : WF b) (cid : Nat) (np nq : Option Nat)
    (hnp : ∀ p, np = some p → MIN_PRICE ≤ p ∧ p ≤ MAX_PRICE)
    (hnq : ∀ q, nq = some q → 0 < q) :
    WF (b.modify cid np nq) := by
  cases hl : alLookup b.by_id cid with
  | none =>
    rw [modify_not_found b cid np nq hl]
    exact hwf
  | some cidx =>
    obtain ⟨hmem, oo, hoo, hooid⟩ := hwf.byIdSound (cid, cidx) (alLookup_mem _ _ _ hl)
    obtain ⟨oo₂, hoo₂, hpos, hle, hlo, hhi⟩ := resting_full b hwf cidx hmem
    rw [hoo] at hoo₂
    injection hoo₂ with hooe
    rw [← hooe] at hpos hle hlo hhi
    have hcfound := cancel_found b cid cidx oo hl hoo
    have hwf' : WF (b.cancel cid).2 := cancel_wf b hwf cid
    rw [modify_found b cid np nq oo (b.cancel cid).2 (by
      rw [hcfound])]
    have hby' : (b.cancel cid).2.by_id = alRemove b.by_id cid := by
      rw [hcfound]
      cases hooside : oo.side with
      | Bid =>
        exact (removeOrder_by_id_some
          { b with bids := queueEraseLevel b.bids oo.price cidx } cid cidx hl).1
      | Ask =>
        exact (removeOrder_by_id_some
          { b with asks := queueEraseLevel b.asks oo.price cidx } cid cidx hl).1
    have hooid' : oo.id = cid := hooid
    apply addToBook_wf (b.cancel cid).2 hwf'
    · show alLookup (b.cancel cid).2.by_id oo.id = none
      rw [hby', hooid']
      exact alLookup_alRemove_self b.by_id cid hwf.byIdKeys
    · cases hnqe : nq with
      | none =>
        show 0 < oo.remaining
        exact hpos
      | some q =>
        show 0 < q
        exact hnq q hnqe
    · cases hnqe : nq with
      | none =>
        show oo.remaining ≤ oo.qty
        exact hle
      | some q =>
        show q ≤ q
        exact le_refl q
    · cases hnpe : np with
      | none =>
        show MIN_PRICE ≤ oo.price
        exact hlo
      | some p =>
        show MIN_PRICE ≤ p
        exact (hnp p hnpe).1
    · cases hnpe : np with
      | none =>
        show oo.price ≤ MAX_PRICE
        exact hhi
      | some p =>
        show p ≤ MAX_PRICE
        exact (hnp p hnpe).2

theorem matchOrder_keys_sub (b : OrderBook) (incoming : Order) (ign : Bool) :
    ((matchOrder b incoming ign).1.by_id.map Prod.fst).Sublist
      (b.by_id.map Prod.fst) := by
  cases hs : incoming.side with
  | Bid =>
    rw [matchOrder_book_bid b incoming ign hs]
    rw [(cleanFoldAsks _ _).2.2.1]
    exact (removeOrderFold _ _).2.2.1
  | Ask =>
    rw [matchOrder_book_ask b incoming ign hs]
    rw [(cleanFoldBids _ _).2.2.1]
    exact (removeOrderFold _ _).2.2.1

theorem matchOrder_rem_le (b : OrderBook) (incoming : Order) (ign : Bool) :
    (matchOrder b incoming ign).2.1 ≤ incoming.remaining := by
  cases hs : incoming.side with
  | Bid =>
    rw [(matchOrder_bid b incoming ign hs).1]
    exact (matchLevels_rem_le_sum incoming _ b.asks b.orders incoming.remaining).1
  | Ask =>
    rw [(matchOrder_ask b incoming ign hs).1]
    exact (matchLevels_rem_le_sum incoming _ b.bids.reverse b.orders incoming.remaining).1

theorem matchOrder_fresh (b : OrderBook) (incoming : Order) (ign : Bool) (k : Nat)
    (h : alLookup b.by_id k = none) :
    alLookup (matchOrder b incoming ign).1.by_id k = none := by
  rw [alLookup_eq_none_iff] at h ⊢
  intro hc
  exact h ((matchOrder_keys_sub b incoming ign).subset hc)

theorem submit_wf (b : OrderBook) (r : RiskEngine) (hwf : WF b)
    (id user_id : Nat) (ot : OrderType) (side : Side) (price qty : Nat)
    (hfresh : alLookup b.by_id id = none)
    (hpq : (ot = OrderType.PostOnly ∨ ot = OrderType.MakerOnly) → 0 < qty) :
    WF (b.submit id user_id ot side price qty r).2.1 := by
  by_cases hv : badPriceQty price qty
  · rw [submit_invalid b r id user_id ot side price qty hv]
    exact hwf
  · have hrange : MIN_PRICE ≤ price ∧ price ≤ MAX_PRICE := by
      unfold badPriceQty at hv
      push_neg at hv
      exact ⟨hv.2.2.1, hv.2.2.2⟩
    by_cases hp : checkPositionLimit r user_id qty = true
    · rw [submit_poslimit b r id user_id ot side price qty hv hp]
      exact hwf
    · simp only [Bool.not_eq_true] at hp
      by_cases hr : (checkRateLimit r user_id).1 = true
      · rw [submit_ratelimit b r id user_id ot side price qty hv hp hr]
        exact hwf
      · simp only [Bool.not_eq_true] at hr
        cases ot with
        | Market =>
          rw [submit_market b r id user_id side price qty hv hp hr]
          exact matchOrder_wf b hwf (mkOrder id user_id OrderType.Market side price qty) true
        | Limit =>
          rw [submit_limit b r id user_id side price qty hv hp hr]
          have hwf3 := matchOrder_wf b hwf
            (mkOrder id user_id OrderType.Limit side price qty) false
          by_cases hrem : 0 <
              (matchOrder b (mkOrder id user_id OrderType.Limit side price qty) false).2.1
          · rw [if_pos hrem]
            apply addToBook_wf _ hwf3
            · exact matchOrder_fresh b _ false id hfresh
            · exact hrem
            · exact matchOrder_rem_le b _ false
            · exact hrange.1
            · exact hrange.2
          · rw [if_neg hrem]
            exact hwf3
        | PostOnly =>
          rw [submit_postonly b r id user_id side price qty hv hp hr]
          by_cases hwm : wouldMatch b (mkOrder id user_id OrderType.PostOnly side price qty) =
              true
          · rw [if_pos hwm]
            exact hwf
          · rw [if_neg hwm]
            apply addToBook_wf b hwf
            · exact hfresh
            · exact hpq (Or.inl rfl)
            · exact le_refl qty
            · exact hrange.1
            · exact hrange.2
        | MakerOnly =>
          rw [submit_makeronly b r id user_id side price qty hv hp hr]
          by_cases hwm : wouldMatch b (mkOrder id user_id OrderType.MakerOnly side price qty) =
              true
          · rw [if_pos hwm]
            exact hwf
          · rw [if_neg hwm]
            apply addToBook_wf b hwf
            · exact hfresh
            · exact hpq (Or.inr rfl)
            · exact le_refl qty
            · exact hrange.1
            · exact hrange.2
        | IOC =>
          rw [submit_ioc b r id user_id side price qty hv hp hr]
          exact matchOrder_wf b hwf (mkOrder id user_id OrderType.IOC side price qty) false
        | FOK =>
          rw [submit_fok b r id user_id side price qty hv hp hr]
          by_cases hc : canFullMatch b (mkOrder id user_id OrderType.FOK side price qty) = true
          · rw [if_pos hc]
            exact matchOrder_wf b hwf (mkOrder id user_id OrderType.FOK side price qty) false
          · rw [if_neg hc]
            exact hwf

/-- Side conditions under which a single `submit` preserves well-formedness:
the order id is not currently resting, and a PostOnly/MakerOnly order has a
positive quantity (a zero-quantity PostOnly passes validation, since
`0 % PRECISION = 0`, and rests with `remaining = 0`). -/
def okSubmit (b : OrderBook) (id : Nat) (ot : OrderType) (qty : Nat) : Prop :=
  alLookup b.by_id id = none ∧
  ((ot = OrderType.PostOnly ∨ ot = OrderType.MakerOnly) → 0 < qty)

instance (b : OrderBook) (id : Nat) (ot : OrderType) (qty : Nat) :
    Decidable (okSubmit b id ot qty) := by
  unfold okSubmit
  infer_instance

/-- The submit side conditions threaded through a batch. -/
def okBatch : OrderBook → RiskEngine → List (Nat × Nat × OrderType × Side × Nat × Nat) → Prop
  | _, _, [] => True
  | b, risk, (id, uid, ot, side, p, q) :: rest =>
    okSubmit b id ot q ∧
    okBatch (b.submit id uid ot side p q risk).2.1 (b.submit id uid ot side p q risk).2.2 rest

instance okBatchDecidable :
    ∀ (orders : List (Nat × Nat × OrderType × Side × Nat × Nat)) (b : OrderBook)
    (risk : RiskEngine), Decidable (okBatch b risk orders)
  | [], _, _ => isTrue trivial
  | (id, uid, ot, side, p, q) :: rest, b, risk =>
    haveI := okBatchDecidable rest (b.submit id uid ot side p q risk).2.1
      (b.submit id uid ot side p q risk).2.2
    inferInstanceAs (Decidable (okSubmit b id ot q ∧
      okBatch (b.submit id uid ot side p q risk).2.1 (b.submit id uid ot side p q risk).2.2
        rest))

/-- Side conditions for one operation: fresh ids for submits (also inside a
batch), positive quantity for PostOnly/MakerOnly, and for `modify` an
in-range new price and a positive new quantity (modify re-rests the order
with no validation at all). -/
def okOp (s : OrderBook × RiskEngine) : Op → Prop
  | Op.submit id _ ot _ _ qty => okSubmit s.1 id ot qty
  | Op.batch orders => okBatch s.1 s.2 orders
  | Op.cancel _ => True
  | Op.modify _ np nq =>
    (match np with
      | none => True
      | some p => MIN_PRICE ≤ p ∧ p ≤ MAX_PRICE) ∧
    (match nq with
      | none => True
      | some q => 0 < q)

instance (s : OrderBook × RiskEngine) (op : Op) : Decidable (okOp s op) := by
  cases op with
  | submit id uid ot side p q => exact inferInstanceAs (Decidable (okSubmit s.1 id ot q))
  | batch orders => exact inferInstanceAs (Decidable (okBatch s.1 s.2 orders))
  | cancel id => exact inferInstanceAs (Decidable True)
  | modify id np nq =>
    cases np <;> cases nq <;> exact inferInstanceAs (Decidable (_ ∧ _))

/-- Side conditions threaded along a whole operation sequence. -/
def okOps : OrderBook × RiskEngine → List Op → Prop
  | _, [] => True
  | s, op :: rest => okOp s op ∧ okOps (runOp s op) rest

instance okOpsDecidable : ∀ (ops : List Op) (s : OrderBook × RiskEngine),
    Decidable (okOps s ops)
  | [], _ => isTrue trivial
  | op :: rest, s =>
    haveI := okOpsDecidable rest (runOp s op)
    inferInstanceAs (Decidable (okOp s op ∧ okOps (runOp s op) rest))

theorem batchSubmit_wf :
    ∀ (orders : List (Nat × Nat × OrderType × Side × Nat × Nat)) (b : OrderBook)
    (risk : RiskEngine), WF b → okBatch b risk orders →
    WF (batchSubmit b orders risk).2.1 := by
  intro orders
  induction orders with
  | nil => intro b risk hwf _; exact hwf
  | cons o rest ih =>
    intro b risk hwf hok
    rcases o with ⟨id, uid, ot, side, p, q⟩
    obtain ⟨hok1, hok2⟩ := hok
    show WF (batchSubmit (b.submit id uid ot side p q risk).2.1 rest
      (b.submit id uid ot side p q risk).2.2).2.1
    exact ih (b.submit id uid ot side p q risk).2.1 (b.submit id uid ot side p q risk).2.2
      (submit_wf b risk hwf id uid ot side p q hok1.1 hok1.2) hok2

theorem runOp_wf (s : OrderBook × RiskEngine) (hwf : WF s.1) (op : Op)
    (hok : okOp s op) : WF (runOp s op).1 := by
  cases op with
  | submit id uid ot side p q =>
    exact submit_wf s.1 s.2 hwf id uid ot side p q hok.1 hok.2
  | batch orders =>
    exact batchSubmit_wf orders s.1 s.2 hwf hok
  | cancel id =>
    exact cancel_wf s.1 hwf id
  | modify id np nq =>
    apply modify_wf s.1 hwf id np nq
    · intro p hp
      have h1 := hok.1
      rw [hp] at h1
      exact h1
    · intro q hq
      have h2 := hok.2
      rw [hq] at h2
      exact h2

theorem runOps_wf : ∀ (ops : List Op) (s : OrderBook × RiskEngine),
    WF s.1 → okOps s ops → WF (runOps s ops).1 := by
  intro ops
  induction ops with
  | nil => intro s hwf _; exact hwf
  | cons op rest ih =>
    intro s hwf hok
    show WF (runOps (runOp s op) rest).1
    exact ih (runOp s op) (runOp_wf s hwf op hok.1) hok.2

/-- C3, amended.  The claimed invariants do NOT hold for every reachable
state (see `claim_C3_counterexample`): a PostOnly/MakerOnly submission with
`qty = 0` rests with `remaining = 0`, a duplicate order id silently
overwrites the `by_id` entry and orphans the older resting order, and
`modify` re-rests an order with no validation, so a new price outside
`[MIN_PRICE, MAX_PRICE]` (or a zero new quantity) ends up resting.  Under the
side conditions `okOps` — every submitted id (also inside batches) is not
currently resting, PostOnly/MakerOnly quantities are positive, and modify's
new price is in range and its new quantity positive — every state reachable
from the empty book satisfies the claimed invariants: well-formedness `WF`
(resolving handles, `by_id` bijective with resting handles, distinct keys and
free slots), and explicitly: no empty price level, all level prices in range,
and every resting order has `0 < remaining ≤ qty` and is indexed by `by_id`
under its id. -/
theorem claim_C3 (r0 : RiskEngine) (ops : List Op)
    (hok : okOps (emptyBook, r0) ops) :
    WF (runOps (emptyBook, r0) ops).1 ∧
    ∀ pq ∈ (runOps (emptyBook, r0) ops).1.bids ++ (runOps (emptyBook, r0) ops).1.asks,
      pq.2 ≠ [] ∧ MIN_PRICE ≤ pq.1 ∧ pq.1 ≤ MAX_PRICE ∧
      ∀ j ∈ pq.2, ∃ o, (runOps (emptyBook, r0) ops).1.orders.getO j = some o ∧
        0 < o.remaining ∧ o.remaining ≤ o.qty ∧
        alLookup (runOps (emptyBook, r0) ops).1.by_id o.id = some j := by
  have hwf := runOps_wf ops (emptyBook, r0) wf_emptyBook hok
  refine ⟨hwf, ?_⟩
  intro pq hpq
  rw [List.mem_append] at hpq
  rcases hpq with hm | hm
  · have hne := hwf.bidsWF.nonempty pq hm
    have hr := hwf.bidsWF.inRange pq hm
    refine ⟨hne, hr.1, hr.2, ?_⟩
    intro j hj
    obtain ⟨o, h1, _, _, h4, h5, h6⟩ := hwf.bidsWF.resolve pq hm j hj
    exact ⟨o, h1, h4, h5, h6⟩
  · have hne := hwf.asksWF.nonempty pq hm
    have hr := hwf.asksWF.inRange pq hm
    refine ⟨hne, hr.1, hr.2, ?_⟩
    intro j hj
    obtain ⟨o, h1, _, _, h4, h5, h6⟩ := hwf.asksWF.resolve pq hm j hj
    exact ⟨o, h1, h4, h5, h6⟩

/-- C3, counterexample to the claim as stated: three short operation
sequences from the empty book reach states violating the claimed invariants.
(1) A PostOnly submission with `qty = 0` passes validation and rests with
`remaining = 0`.  (2) `modify` with a new price below `MIN_PRICE` leaves a
resting order at that out-of-range price.  (3) Re-submitting an already
resting id leaves a resting order whose id no longer looks up to its own
handle, breaking the claimed `by_id` bijectivity. -/
theorem claim_C3_counterexample :
    (∃ pq ∈ (runOps (emptyBook, ⟨[], []⟩)
        [Op.submit 1 1 OrderType.PostOnly Side.Bid 100000000 0]).1.bids,
      ∃ j ∈ pq.2, ∃ o,
        (runOps (emptyBook, ⟨[], []⟩)
          [Op.submit 1 1 OrderType.PostOnly Side.Bid 100000000 0]).1.orders.getO j =
          some o ∧ o.remaining = 0) ∧
    (∃ pq ∈ (runOps (emptyBook, ⟨[], []⟩)
        [Op.submit 2 1 OrderType.Limit Side.Bid 100000000 100000000,
         Op.modify 2 (some 50) none]).1.bids, pq.1 < MIN_PRICE) ∧
    (∃ pq ∈ (runOps (emptyBook, ⟨[], []⟩)
        [Op.submit 3 1 OrderType.Limit Side.Bid 100000000 100000000,
         Op.submit 3 1 OrderType.Limit Side.Bid 200000000 100000000]).1.bids,
      ∃ j ∈ pq.2,
        alLookup (runOps (emptyBook, ⟨[], []⟩)
          [Op.submit 3 1 OrderType.Limit Side.Bid 100000000 100000000,
           Op.submit 3 1 OrderType.Limit Side.Bid 200000000 100000000]).1.by_id
          (((runOps (emptyBook, ⟨[], []⟩)
            [Op.submit 3 1 OrderType.Limit Side.Bid 100000000 100000000,
             Op.submit 3 1 OrderType.Limit Side.Bid 200000000 100000000]).1.orders.getO
            j).getD dummyOrder).id ≠ some j) := by
  decide

def c3Ops : List Op :=
  [Op.submit 1 10 OrderType.Limit Side.Ask 10000000000 200000000,
   Op.submit 2 11 OrderType.Limit Side.Bid 10000000000 100000000,
   Op.submit 3 12 OrderType.PostOnly Side.Bid 9900000000 100000000,
   Op.modify 3 (some 9800000000) (some 200000000),
   Op.cancel 1,
   Op.batch [(4, 13, OrderType.Limit, Side.Bid, 9700000000, 100000000)]]

theorem claim_C3_witness :
    okOps (emptyBook, ⟨[], []⟩) c3Ops ∧
    WF (runOps (emptyBook, ⟨[], []⟩) c3Ops).1 ∧
    (runOps (emptyBook, ⟨[], []⟩) c3Ops).1.bids =
      [(9700000000, [0]), (9800000000, [1])] := by
  have hok : okOps (emptyBook, ⟨[], []⟩) c3Ops := by decide
  exact ⟨hok, (claim_C3 ⟨[], []⟩ c3Ops hok).1, by decide⟩
